import Mathlib

/-!
# Granular delay processor: embedding of `PluginProcessor.cpp`

A shallow embedding of the audio-thread code of `MyPluginAudioProcessor`
(`src/PluginProcessor.h`, `src/PluginProcessor.cpp`).

Modelling conventions

* `float` and `double` values are real numbers: rounding is not modelled, and
  `std::sin`, `std::cos`, `std::tanh`, `std::exp` are the real functions. The
  retrigger interval and the LFO phase, which rounding decides, are also given
  with every `float` operation rounded to binary32 (`countdownStepF32`,
  `updateLFOF32`).
* `int` values are integers; the C++ operator `%` is `Int.tmod` (the remainder
  takes the sign of the dividend) and `static_cast<int>` of a float truncates
  toward zero.
* `std::array<T, 2>` members indexed by the channel number are functions of the
  channel number; a delay buffer is a function of the sample index.
* `juce::Random` is the stream of the values its future `nextFloat` calls return.
* the parameter store is a function from the parameter identifier to the raw
  value, as read through `getRawParameterValue`; the lookup itself, which returns
  the null pointer for an identifier that is not declared, is `getRawParameterValue`
  below, and `processFilterLookup` is `processFilter` with its lookups.
* an `int` that meets a `size_t` operand is converted modulo `2 ^ 64` (`toSizeT`).
* `juce::SmoothedValue` follows the linear smoothing of the JUCE library; the library
  objects `stateVariableFilter` and `flanger` are represented by the settings the
  code hands to them, and their `process` calls are not embedded.
* the audio thread and the display timer are run one after the other.
-/

noncomputable section

namespace MyPluginAudioProcessor

/-! ## Library helpers (`juce::jlimit`, `juce::jmax`, `juce::jmap`, casts) -/

/-- The call `juce::jlimit (lowerLimit, upperLimit, valueToConstrain)`. -/
def jlimit {α : Type} [LinearOrder α] (lowerLimit upperLimit valueToConstrain : α) : α :=
  if valueToConstrain < lowerLimit then lowerLimit
  else if upperLimit < valueToConstrain then upperLimit
  else valueToConstrain

/-- The call `juce::jmax (a, b)`. -/
def jmax {α : Type} [LinearOrder α] (a b : α) : α :=
  if a < b then b else a

/-- The call `juce::jmap (sourceValue, sourceRangeMin, sourceRangeMax, targetRangeMin,
targetRangeMax)`. -/
def jmap (sourceValue sourceRangeMin sourceRangeMax targetRangeMin targetRangeMax : ℝ) : ℝ :=
  targetRangeMin
    + ((targetRangeMax - targetRangeMin) * (sourceValue - sourceRangeMin))
      / (sourceRangeMax - sourceRangeMin)

/-- The conversion `static_cast<int> (x)` of a floating-point value: truncation toward zero. -/
def toInt (x : ℝ) : Int :=
  if 0 ≤ x then ⌊x⌋ else ⌈x⌉

/-! ## Data model (`PluginProcessor.h`) -/

/-- The constant `maxDelayTime`. -/
def maxDelayTime : Int := 192000

/-- The constant `maxGrains`. -/
def maxGrains : Nat := 32

/-- The struct `Grain`, with its default member initialisers. -/
structure Grain where
  startPos : Int := 0
  size : Int := 0
  position : Int := 0
  isActive : Bool := false
  isReverse : Bool := false
  amplitude : ℝ := 1

/-- The struct `LFOState`, with its default member initialisers. -/
structure LFOState where
  phase : ℝ := 0
  frequency : ℝ := 1
  target : Int := 0
  isBipolar : Bool := true
  waveform : Int := 0
  isTempoSync : Bool := false
  syncDivision : Int := 2

/-- The state of a `juce::Random`: the values its future `nextFloat` calls return. -/
structure Random where
  draws : Nat → ℝ

/-- The call `random.nextFloat()`: the drawn value and the advanced generator. -/
def Random.nextFloat (r : Random) : ℝ × Random :=
  (r.draws 0, ⟨fun n => r.draws (n + 1)⟩)

/-- What `position->getBpm()` yields for the host position. -/
structure PositionInfo where
  bpm : Option ℝ

/-- What `playHead->getPosition()` yields for the host play head. -/
structure AudioPlayHead where
  position : Option PositionInfo

/-- The parameter store: `*valueTreeState.getRawParameterValue (id)`. -/
abbrev Parameters := String → ℝ

/-- The members of `MyPluginAudioProcessor` that the delay, grain and LFO code uses,
together with what it reads from the base class (`getSampleRate`, `getPlayHead`). -/
structure State where
  delayBuffers : Nat → Int → ℝ
  delayWriteIndex : Nat → Int
  activeGrains : Nat → Nat → Grain
  grainTriggerCountdown : Nat → Int
  highCutState : Nat → ℝ
  lowCutState : Nat → ℝ
  lfoState : LFOState
  random : Random
  currentSampleRate : ℝ
  currentBufferSize : Int
  getSampleRate : ℝ
  getPlayHead : Option AudioPlayHead

/-! ## Grain engine -/

/-- The slot scan of `triggerNewGrain`: the first `i < maxGrains` whose grain is inactive. -/
def firstInactive (st : State) (channel : Nat) : Option Nat :=
  (List.range maxGrains).find? (fun i => !(st.activeGrains channel i).isActive)

/-- The function `triggerNewGrain (channel, grainSize, spray, reverse, randomization)`. -/
def triggerNewGrain (st : State) (channel : Nat) (grainSize : Int) (spray : ℝ)
    (reverse : Bool) (randomization : ℝ) : State :=
  match firstInactive st channel with
  | none => st
  | some i =>
    let d1 := st.random.nextFloat
    let sprayAmount : ℝ := spray * (d1.1 * 2 - 1)
    let sprayOffset : Int := toInt ((grainSize : ℝ) * sprayAmount)
    let grain : Grain :=
      { startPos := (st.delayWriteIndex channel - grainSize + sprayOffset + maxDelayTime).tmod
          maxDelayTime
        size := jlimit 32 16384 grainSize
        position := 0
        isActive := true
        isReverse := reverse
        amplitude := 1 }
    if randomization > 0 then
      let d2 := d1.2.nextFloat
      let sizeVariation : ℝ := 1 + (d2.1 * 2 - 1) * randomization * 0.5
      let size2 : Int := jlimit 32 16384 (toInt ((grain.size : ℝ) * sizeVariation))
      let d3 := d2.2.nextFloat
      let amplitude2 : ℝ := grain.amplitude * (1 + (d3.1 * 2 - 1) * randomization * 0.3)
      { st with
        activeGrains := Function.update st.activeGrains channel
          (Function.update (st.activeGrains channel) i
            { grain with size := size2, amplitude := amplitude2 })
        random := d3.2 }
    else
      { st with
        activeGrains := Function.update st.activeGrains channel
          (Function.update (st.activeGrains channel) i grain)
        random := d1.2 }

/-- The envelope of `processActiveGrains` for a grain: the raised cosine of
`progress = position / jmax (1, size)`. -/
def grainEnvelope (g : Grain) : ℝ :=
  let progress : ℝ := (g.position : ℝ) / ((jmax 1 g.size : Int) : ℝ)
  0.5 * (1 - Real.cos (2 * Real.pi * progress))

/-- The read index of `processActiveGrains` for a grain. -/
def grainReadPos (g : Grain) : Int :=
  if g.isReverse then (g.startPos + g.size - g.position + maxDelayTime).tmod maxDelayTime
  else (g.startPos + g.position).tmod maxDelayTime

/-- The advance of `processActiveGrains`: `if (++g.position >= g.size) g.isActive = false;`. -/
def grainAdvance (g : Grain) : Grain :=
  if g.position + 1 ≥ g.size then
    { g with position := g.position + 1, isActive := false }
  else
    { g with position := g.position + 1 }

/-- The body of the loop of `processActiveGrains` for slot `i`, on the running `output`
and the grains of the channel. -/
def grainLoopBody (delayBuffer : Int → ℝ) (acc : ℝ × (Nat → Grain)) (i : Nat) :
    ℝ × (Nat → Grain) :=
  let g := acc.2 i
  if !g.isActive then acc
  else
    (acc.1 + delayBuffer (grainReadPos g) * grainEnvelope g * g.amplitude,
      Function.update acc.2 i (grainAdvance g))

/-- The function `processActiveGrains (channel, delayBuffer)`: the returned `output` and the
state with the grains of the channel advanced. -/
def processActiveGrains (st : State) (channel : Nat) (delayBuffer : Int → ℝ) : ℝ × State :=
  let r := (List.range maxGrains).foldl (grainLoopBody delayBuffer) (0, st.activeGrains channel)
  (r.1, { st with activeGrains := Function.update st.activeGrains channel r.2 })

/-! ## EQ stage and feedback -/

/-- The function `applyEQFiltering (sample, channel, highCut, lowCut)`: the returned value
and the state with the two one-pole filter states of the channel updated. -/
def applyEQFiltering (st : State) (sample : ℝ) (channel : Nat) (highCut lowCut : ℝ) :
    ℝ × State :=
  let highCutFreq := jmap highCut 0 100 200 20000
  let lowCutFreq := jmap lowCut 0 100 10 1000
  let lpCoeff := Real.exp (-2 * Real.pi * (highCutFreq / st.getSampleRate))
  let high := lpCoeff * st.highCutState channel + (1 - lpCoeff) * sample
  let hpCoeff := Real.exp (-2 * Real.pi * (lowCutFreq / st.getSampleRate))
  let low := hpCoeff * st.lowCutState channel + (1 - hpCoeff) * high
  (high - low,
    { st with
      highCutState := Function.update st.highCutState channel high
      lowCutState := Function.update st.lowCutState channel low })

/-- The feedback processing of `processBlock`: `inputSample + delayedSample * feedback`,
limited to `[-1, 1]`, then soft-clipped with `tanh` above magnitude `0.95`. -/
def feedbackProcessing (inputSample delayedSample feedback : ℝ) : ℝ :=
  let feedbackSample := jlimit (-1) 1 (inputSample + delayedSample * feedback)
  if |feedbackSample| > 0.95 then
    if feedbackSample > 0 then 0.95 + 0.05 * Real.tanh ((feedbackSample - 0.95) * 10)
    else -0.95 + 0.05 * Real.tanh ((feedbackSample + 0.95) * 10)
  else feedbackSample

/-! ## The delay stage of `processBlock` -/

/-- The values `processBlock` reads and computes before its channel loop. -/
structure BlockLocals where
  delayTime : ℝ
  feedback : ℝ
  mix : ℝ
  grainSize : ℝ
  grainDensity : ℝ
  grainSpray : ℝ
  stereoWidth : ℝ
  eqHigh : ℝ
  eqLow : ℝ
  reverseGrains : Bool
  randomization : ℝ
  delaySamples : Int
  grainSizeSamples : Int
  numChannels : Nat

/-- The parameter reads of `processBlock` and the computation of `delaySamples` and
`grainSizeSamples`, for a buffer of `numChannels` channels. -/
def readLocals (p : Parameters) (st : State) (numChannels : Nat) : BlockLocals :=
  { delayTime := p "delayTime"
    feedback := p "feedback"
    mix := p "mix" / 100
    grainSize := p "grainSize"
    grainDensity := p "grainDensity"
    grainSpray := p "grainSpray" / 100
    stereoWidth := p "stereoWidth" / 100
    eqHigh := p "eqHigh"
    eqLow := p "eqLow"
    reverseGrains := decide (p "reverseGrains" > 0.5)
    randomization := p "randomization" / 100
    delaySamples := jlimit 1 (maxDelayTime - 1) (toInt (p "delayTime" * st.getSampleRate / 1000))
    grainSizeSamples := jlimit 64 8192 (toInt (p "grainSize" * st.getSampleRate / 1000))
    numChannels := numChannels }

/-- The retrigger of the granular branch, taken when the decremented countdown is `<= 0`:
`triggerNewGrain`, then the new countdown `jmax (1, baseInterval + randomVariation)`. The
arithmetic of the interval is exact here; `countdownStepF32` is the countdown with every
operation rounded to single precision. -/
def retrigger (L : BlockLocals) (channel : Nat) (st : State) : State :=
  let st1 := triggerNewGrain st channel L.grainSizeSamples L.grainSpray L.reverseGrains
    L.randomization
  let densityFactor := jmap L.grainDensity 0.1 4 0.1 4
  let baseInterval : Int := toInt ((L.grainSizeSamples : ℝ) * 0.5 / densityFactor)
  let d := st1.random.nextFloat
  let randomVariation : Int := toInt ((baseInterval : ℝ) * L.randomization * (d.1 * 2 - 1))
  { st1 with
    grainTriggerCountdown :=
      Function.update st1.grainTriggerCountdown channel (jmax 1 (baseInterval + randomVariation))
    random := d.2 }

/-- The tap of one sample: the granular branch when `grainDensity > 0.1`, else the read of
the delay buffer at the write index. -/
def tapSample (L : BlockLocals) (channel : Nat) (st : State) : ℝ × State :=
  if L.grainDensity > 0.1 then
    let st1 := { st with
      grainTriggerCountdown :=
        Function.update st.grainTriggerCountdown channel (st.grainTriggerCountdown channel - 1) }
    let st2 := if st1.grainTriggerCountdown channel ≤ 0 then retrigger L channel st1 else st1
    processActiveGrains st2 channel (st2.delayBuffers channel)
  else
    (st.delayBuffers channel (st.delayWriteIndex channel), st)

/-- The stereo cross-feed of one sample: the value added to `delayedSample`. -/
def crossFeed (L : BlockLocals) (channel : Nat) (st : State) : ℝ :=
  if L.numChannels = 2 ∧ L.stereoWidth > 0 then
    if channel = 0 then
      let crossDelay : Int := toInt ((L.delaySamples : ℝ) * 0.7)
      st.delayBuffers 1 ((st.delayWriteIndex channel - crossDelay + maxDelayTime).tmod maxDelayTime)
        * L.stereoWidth * 0.3
    else
      let crossDelay : Int := toInt ((L.delaySamples : ℝ) * 0.8)
      st.delayBuffers 0 ((st.delayWriteIndex channel - crossDelay + maxDelayTime).tmod maxDelayTime)
        * L.stereoWidth * 0.3
  else 0

/-- The body of the sample loop of `processBlock` for one `inputSample` of `channel`: the
value stored back into `channelData[sample]` and the new state. -/
def processSample (L : BlockLocals) (channel : Nat) (st : State) (inputSample : ℝ) :
    ℝ × State :=
  let tap := tapSample L channel st
  let eq := applyEQFiltering tap.2 tap.1 channel L.eqHigh L.eqLow
  let feedbackSample := feedbackProcessing inputSample eq.1 L.feedback
  let st3 := { eq.2 with
    delayBuffers := Function.update eq.2.delayBuffers channel
      (Function.update (eq.2.delayBuffers channel) (eq.2.delayWriteIndex channel) feedbackSample) }
  let delayedSample := eq.1 + crossFeed L channel st3
  (inputSample * (1 - L.mix) + delayedSample * L.mix,
    { st3 with
      delayWriteIndex := Function.update st3.delayWriteIndex channel
        ((st3.delayWriteIndex channel + 1).tmod maxDelayTime) })

/-- The sample loop of `processBlock` over the samples of one channel. -/
def processChannel (L : BlockLocals) (channel : Nat) : State → List ℝ → List ℝ × State
  | st, [] => ([], st)
  | st, x :: xs =>
    let r := processSample L channel st x
    let rest := processChannel L channel r.2 xs
    (r.1 :: rest.1, rest.2)

/-- The channel loop of `processBlock`, from channel number `channel` on. -/
def processChannels (L : BlockLocals) : Nat → State → List (List ℝ) → List (List ℝ) × State
  | _, st, [] => ([], st)
  | channel, st, c :: cs =>
    let r := processChannel L channel st c
    let rest := processChannels L (channel + 1) r.2 cs
    (r.1 :: rest.1, rest.2)

/-- The granular delay stage of `processBlock` (up to the end of the channel loop) on a
buffer given as the list of its channels: the processed buffer and the new state.

The loop that clears the output channels without an input is empty for the layouts that
`isBusesLayoutSupported` accepts (input set equal to output set), and `dryBuffer` is never
read. The stages that `processBlock` runs after this one (`updateLFO`, `processFilter`,
`processPitchShift`, `processChorus`, `processFlanger`, `processPanning`,
`captureWaveformData`) work on the buffer and on members that this stage does not read:
of the members of `State` they change `lfoState` only. -/
def processBlockDelay (p : Parameters) (st : State) (buffer : List (List ℝ)) :
    List (List ℝ) × State :=
  processChannels (readLocals p st buffer.length) 0 st buffer

/-- The function `prepareToPlay (sampleRate, samplesPerBlock)` on the members of `State`,
with `numOutputChannels` the value of `getTotalNumOutputChannels()`. -/
def prepareToPlay (st : State) (sampleRate : ℝ) (samplesPerBlock : Int)
    (numOutputChannels : Nat) : State :=
  { st with
    currentSampleRate := sampleRate
    currentBufferSize := samplesPerBlock
    delayBuffers := fun ch => if ch < numOutputChannels then fun _ => 0 else st.delayBuffers ch
    delayWriteIndex := fun ch => if ch < numOutputChannels then 0 else st.delayWriteIndex ch
    highCutState := fun ch => if ch < numOutputChannels then 0 else st.highCutState ch
    lowCutState := fun ch => if ch < numOutputChannels then 0 else st.lowCutState ch
    grainTriggerCountdown := fun ch =>
      if ch < numOutputChannels then 0 else st.grainTriggerCountdown ch
    activeGrains := fun ch => if ch < numOutputChannels then fun _ => {} else st.activeGrains ch
    lfoState := { st.lfoState with phase := 0 } }

/-- The members of a newly constructed processor (the default member initialisers), for a
given generator and host sample rate. -/
def constructed (random : Random) (sampleRate : ℝ) : State :=
  { delayBuffers := fun _ _ => 0
    delayWriteIndex := fun _ => 0
    activeGrains := fun _ _ => {}
    grainTriggerCountdown := fun _ => 0
    highCutState := fun _ => 0
    lowCutState := fun _ => 0
    lfoState := {}
    random := random
    currentSampleRate := 44100
    currentBufferSize := 512
    getSampleRate := sampleRate
    getPlayHead := none }

/-! ## LFO -/

/-- The first part of `updateLFO`: the frequency member after the tempo-sync branch. -/
def updateLFOFrequency (p : Parameters) (st : State) : ℝ :=
  let lfoRate := p "lfoRate"
  let tempoSync := decide (p "lfoTempoSync" > 0.5)
  if tempoSync then
    match st.getPlayHead with
    | none => st.lfoState.frequency
    | some playHead =>
      match playHead.position with
      | none => st.lfoState.frequency
      | some position =>
        match position.bpm with
        | none => st.lfoState.frequency
        | some bpm =>
          let syncDivision := p "lfoSyncDivision"
          let beatsPerSecond := bpm / 60
          let divisor : ℝ := if syncDivision = 0 then 4 else (if syncDivision = 1 then 2 else 1)
          beatsPerSecond / divisor
  else
    jmap lfoRate 0 100 0.1 10

/-- The wrap loop of `updateLFO`, `while (phase >= 1.0f) phase -= 1.0f;`, run for at most
`fuel` tests of its condition; `none` when the loop has not ended by then. The subtraction
is exact here; `wrapPhaseF32` is the loop with the subtraction rounded to single
precision. -/
def wrapPhase : Nat → ℝ → Option ℝ
  | 0, _ => none
  | fuel + 1, phase => if phase ≥ 1 then wrapPhase fuel (phase - 1) else some phase

/-- The function `updateLFO ()`, its wrap loop run with `fuel`. -/
def updateLFO (fuel : Nat) (p : Parameters) (st : State) : Option State :=
  let frequency := updateLFOFrequency p st
  let phase := st.lfoState.phase
    + frequency * (1 / st.currentSampleRate) * (st.currentBufferSize : ℝ)
  match wrapPhase fuel phase with
  | none => none
  | some phase2 =>
    some { st with lfoState := { st.lfoState with frequency := frequency, phase := phase2 } }

/-- The function `getLFOValue ()`. -/
def getLFOValue (p : Parameters) (st : State) : ℝ :=
  let waveform := p "lfoWaveform"
  let bipolar := decide (p "lfoBipolar" > 0.5)
  let value : ℝ :=
    if waveform < 0.5 then
      Real.sin (st.lfoState.phase * 2 * Real.pi)
    else
      let trianglePhase := st.lfoState.phase * 4
      if trianglePhase < 1 then trianglePhase
      else if trianglePhase < 3 then 2 - trianglePhase
      else trianglePhase - 4
  if !bipolar then (value + 1) * 0.5 else value

/-! ## Panner -/

/-- The gains of `processPanning` for the pan position `panPos`:
`(leftGain, rightGain) = (cos panAngle, sin panAngle)`, `panAngle = (panPos + 1) * 0.25 * pi`. -/
def panGains (panPos : ℝ) : ℝ × ℝ :=
  let panAngle := (panPos + 1) * 0.25 * Real.pi
  (Real.cos panAngle, Real.sin panAngle)

/-- The body of the sample loop of `processPanning` for the pan position `panPos` on a
sample pair: the samples stored back into channels 0 and 1. -/
def panSample (panPos leftSample rightSample : ℝ) : ℝ × ℝ :=
  let gains := panGains panPos
  let mixedSample := (leftSample + rightSample) * 0.5
  (mixedSample * gains.1, mixedSample * gains.2)

/-- The function `processActiveGrains` called once per element of `bufs` in turn, each call
with the delay buffer contents of that step: the steps of the grains of a channel. -/
def processActiveGrainsRun (channel : Nat) : State → List (Int → ℝ) → State
  | st, [] => st
  | st, b :: bs => processActiveGrainsRun channel (processActiveGrains st channel b).2 bs

/-- A generator whose every draw is `0`. -/
def zeroRandom : Random := ⟨fun _ => 0⟩

/-- A state whose grain slots are all active on every channel: grains of size 64 at
position 0 in an otherwise newly constructed processor. -/
def fullPool : State :=
  { constructed zeroRandom 48000 with
    activeGrains := fun _ _ => { size := 64, isActive := true } }

/-- The locals of a block for scenario B at 48 kHz: grainDensity 2, grainSize 60 ms (2880
samples), spray 0, randomization 0, forward grains; the other controls at their defaults
(delayTime 400 ms, feedback 0.35, mix 35 %, stereoWidth 50 %, eqHigh 80, eqLow 10). -/
def scenarioB : BlockLocals :=
  { delayTime := 400
    feedback := 0.35
    mix := 0.35
    grainSize := 60
    grainDensity := 2
    grainSpray := 0
    stereoWidth := 0.5
    eqHigh := 80
    eqLow := 10
    reverseGrains := false
    randomization := 0
    delaySamples := 19200
    grainSizeSamples := 2880
    numChannels := 2 }

/-- The delay line of `channel` has not wrapped yet: every buffer entry from the write index
on is still `0` and both one-pole states of the channel are `0` (the state that
`prepareToPlay` leaves, and that the plain-tap path keeps until the write index wraps). -/
def Fresh (st : State) (channel : Nat) : Prop :=
  0 ≤ st.delayWriteIndex channel
  ∧ (∀ j : Int, st.delayWriteIndex channel ≤ j → st.delayBuffers channel j = 0)
  ∧ st.highCutState channel = 0
  ∧ st.lowCutState channel = 0

/-- The parameter values of scenario A: delayTime 400 ms, feedback 0.35, mix 35 %,
grainDensity 0.1 (the plain-tap path), stereoWidth 0, every other control 0. -/
def scenarioAParameters : Parameters := fun id =>
  if id = "delayTime" then 400
  else if id = "feedback" then 0.35
  else if id = "mix" then 35
  else if id = "grainDensity" then 0.1
  else 0

/-- The state after `prepareToPlay (48000, 19201)` with two output channels on a newly
constructed processor. -/
def scenarioAState : State :=
  prepareToPlay (constructed zeroRandom 48000) 48000 19201 2

/-- A unit impulse at sample 0 followed by 19200 samples of silence: at 48 kHz the last
sample is at t = 400 ms. -/
def impulse : List ℝ := 1 :: List.replicate 19200 0

/-! ## Library helpers of the later stages -/

/-- The conversion of an `int` to `size_t` (64 bit) that C++ applies when an `int` meets a
`size_t` operand: the value modulo `2 ^ 64`. -/
def toSizeT (x : Int) : Int := x % 2 ^ 64

/-- The conversion `(int) std::round (x)`: rounding to the nearest integer, halves away from
zero. -/
def roundToInt (x : ℝ) : Int :=
  if 0 ≤ x then ⌊x + 1 / 2⌋ else ⌈x - 1 / 2⌉

/-- The data members of the library class `juce::SmoothedValue<float>` (linear smoothing),
with the values a default-constructed object holds. The class belongs to the JUCE library;
the operations below follow its implementation, with equality of reals for its comparison of
the new target with the old one. -/
structure SmoothedValue where
  currentValue : ℝ := 0
  target : ℝ := 0
  step : ℝ := 0
  countdown : Int := 0
  stepsToTarget : Int := 0

/-- The call `setCurrentAndTargetValue (newValue)`. -/
def SmoothedValue.setCurrentAndTargetValue (s : SmoothedValue) (newValue : ℝ) : SmoothedValue :=
  { s with target := newValue, currentValue := newValue, countdown := 0 }

/-- The call `reset (numSteps)`. -/
def SmoothedValue.resetSteps (s : SmoothedValue) (numSteps : Int) : SmoothedValue :=
  ({ s with stepsToTarget := numSteps }).setCurrentAndTargetValue s.target

/-- The call `reset (sampleRate, rampLengthInSeconds)`: `reset ((int) std::floor
(rampLengthInSeconds * sampleRate))`. -/
def SmoothedValue.reset (s : SmoothedValue) (sampleRate rampLengthInSeconds : ℝ) :
    SmoothedValue :=
  s.resetSteps ⌊rampLengthInSeconds * sampleRate⌋

/-- The call `setTargetValue (newValue)`. -/
def SmoothedValue.setTargetValue (s : SmoothedValue) (newValue : ℝ) : SmoothedValue :=
  if newValue = s.target then s
  else if s.stepsToTarget ≤ 0 then s.setCurrentAndTargetValue newValue
  else
    { s with
      target := newValue
      countdown := s.stepsToTarget
      step := (newValue - s.currentValue) / (s.stepsToTarget : ℝ) }

/-- The call `getNextValue ()`: the returned value and the advanced smoother. -/
def SmoothedValue.getNextValue (s : SmoothedValue) : ℝ × SmoothedValue :=
  if ¬ s.countdown > 0 then (s.target, s)
  else if s.countdown - 1 > 0 then
    (s.currentValue + s.step,
      { s with countdown := s.countdown - 1, currentValue := s.currentValue + s.step })
  else
    (s.target, { s with countdown := s.countdown - 1, currentValue := s.target })

/-- The call `getTargetValue ()`. -/
def SmoothedValue.getTargetValue (s : SmoothedValue) : ℝ := s.target

/-! ## State-variable filter stage -/

/-- The enumeration `juce::dsp::StateVariableTPTFilterType`. -/
inductive StateVariableTPTFilterType where
  | lowpass
  | bandpass
  | highpass
  deriving DecidableEq

/-- What `processFilter` has set on the member `stateVariableFilter`: its type, cutoff
frequency and resonance. -/
structure FilterSettings where
  filterType : StateVariableTPTFilterType
  cutoffFrequency : ℝ
  resonance : ℝ

/-- The cutoff of `processFilter` after the LFO modulation: `modulatedCutoff`. -/
def modulatedCutoff (p : Parameters) (st : State) : ℝ :=
  let cutoff := p "filterCutoff"
  let lfoDepth := p "lfoDepth"
  let lfoTarget := p "lfoTarget"
  if lfoTarget < 0.5 ∧ lfoDepth > 0 then
    jlimit 20 20000 (cutoff + getLFOValue p st * lfoDepth * 1000)
  else cutoff

/-- The function `processFilter (buffer)` on the settings of `stateVariableFilter`: the type
chosen by the `switch` on the rounded `filterMode`, and the `cutoffHz` and `q` handed to
`setCutoffFrequency` and `setResonance`. The run of the library filter over the buffer is
not part of the embedding. The values are taken from the store as if every identifier were
declared; `processFilterLookup` is the function with the lookups of its reads. -/
def processFilter (p : Parameters) (st : State) (f : FilterSettings) : FilterSettings :=
  let resonance := p "filterResonance"
  let cutoffHz := jmap (modulatedCutoff p st) 0 100 20 20000
  let q := jmap resonance 0 100 0.5 10
  let mode : Int := roundToInt (p "filterMode")
  let filterType :=
    if mode = 0 then StateVariableTPTFilterType.lowpass
    else if mode = 1 then StateVariableTPTFilterType.bandpass
    else if mode = 2 then StateVariableTPTFilterType.highpass
    else f.filterType
  { filterType := filterType, cutoffFrequency := cutoffHz, resonance := q }

/-! ## Flanger stage -/

/-- What `processFlanger` has set on the member `flanger`. -/
structure FlangerSettings where
  centreDelay : ℝ
  depth : ℝ
  rate : ℝ
  feedback : ℝ
  mix : ℝ

/-- The members `flangerFeedbackSmoother` and `flanger` (its settings). -/
structure FlangerState where
  flangerFeedbackSmoother : SmoothedValue
  flanger : FlangerSettings

/-- The function `processFlanger (buffer)` on the smoother and the settings of `flanger`;
the run of the library flanger over the buffer is not part of the embedding. -/
def processFlanger (p : Parameters) (fs : FlangerState) : FlangerState :=
  let flangerDelayParam := p "flangerDelay"
  let flangerDepthParam := p "flangerDepth"
  let flangerRateParam := p "flangerRate"
  let flangerMixParam := p "flangerMix" / 100
  let flangerFeedbackParam := p "flangerFeedback"
  let next := (fs.flangerFeedbackSmoother.setTargetValue (flangerFeedbackParam / 100)).getNextValue
  let fb := next.1
  let centreMs := jmap flangerDelayParam 0 100 0.1 10
  let depth := jmap flangerDepthParam 0 100 0 5
  let rateHz := jmap flangerRateParam 0 100 0.10 2
  { flangerFeedbackSmoother := next.2
    flanger :=
      { centreDelay := centreMs, depth := depth, rate := rateHz, feedback := fb,
        mix := flangerMixParam } }

/-- What the constructor and `prepareToPlay (sampleRate, _)` leave in the flanger members:
the smoother reset to a ramp of `0.02` s and set to `0`. The settings of the library object
before the first `processFlanger` are not read by the code; they are given as `0`. -/
def preparedFlanger (sampleRate : ℝ) : FlangerState :=
  { flangerFeedbackSmoother :=
      ((({} : SmoothedValue).setCurrentAndTargetValue 0).reset sampleRate
        0.02).setCurrentAndTargetValue 0
    flanger := { centreDelay := 0, depth := 0, rate := 0, feedback := 0, mix := 0 } }

/-! ## Panner: the whole stage -/

/-- The member `panSmoother`. -/
structure PanState where
  panSmoother : Nat → SmoothedValue

/-- The pan position after the LFO modulation: `modulatedPan` of `processPanning`. -/
def modulatedPan (p : Parameters) (st : State) : ℝ :=
  let panValue := p "panPosition"
  let lfoDepth := p "lfoDepth"
  let lfoTarget := p "lfoTarget"
  if lfoTarget > 0.5 ∧ lfoDepth > 0 then
    jlimit (-100) 100 (panValue + getLFOValue p st * lfoDepth)
  else panValue

/-- The sample loop of `processPanning` over the pairs of samples of channels 0 and 1: every
sample draws `panSmoother[0].getNextValue ()`. -/
def panLoop : SmoothedValue → List (ℝ × ℝ) → List (ℝ × ℝ) × SmoothedValue
  | sm, [] => ([], sm)
  | sm, x :: xs =>
    let next := sm.getNextValue
    let rest := panLoop next.2 xs
    (panSample next.1 x.1 x.2 :: rest.1, rest.2)

/-- The function `processPanning (buffer)`: the processed buffer and the smoothers. A buffer
with fewer than two channels is returned as it is. -/
def processPanning (p : Parameters) (st : State) (pan : PanState) (buffer : List (List ℝ)) :
    List (List ℝ) × PanState :=
  match buffer with
  | left :: right :: others =>
    let smoothers : Nat → SmoothedValue := fun i =>
      if i < 2 then (pan.panSmoother i).setTargetValue (modulatedPan p st / 100)
      else pan.panSmoother i
    let r := panLoop (smoothers 0) (List.zip left right)
    (r.1.map Prod.fst :: r.1.map Prod.snd :: others,
      { panSmoother := Function.update smoothers 0 r.2 })
  | _ => (buffer, pan)

/-- What the constructor and `prepareToPlay (sampleRate, _)` leave in `panSmoother`: both
smoothers reset to a ramp of `0.05` s and set to `0` (centre). -/
def preparedPan (sampleRate : ℝ) : PanState :=
  { panSmoother := fun _ =>
      ((({} : SmoothedValue).resetSteps 44100).reset sampleRate 0.05).setCurrentAndTargetValue 0 }

/-! ## Pitch shifter -/

/-- The members `pitchBuffer`, `pitchWriteIndex` and `pitchSmoother`. -/
structure PitchState where
  pitchBuffer : Nat → Int → ℝ
  pitchWriteIndex : Nat → Int
  pitchSmoother : Nat → SmoothedValue

/-- The value of `pitchBuffer[channel].size ()` after `prepareToPlay`. -/
def pitchBufferSize : Int := 8192

/-- The local constant `grainSize` of `processPitchShift`. -/
def pitchGrainSize : Int := 1024

/-- The body of the sample loop of `processPitchShift` for sample number `sample` of
`channel` with value `x`: the value stored back into `channelData[sample]` and the new
state. An `int` that meets `pitchBuffer[channel].size ()` is converted to `size_t`. -/
def pitchSample (currentPitchRatio : ℝ) (channel : Nat) (sample : Int) (ps : PitchState)
    (x : ℝ) : ℝ × PitchState :=
  let w := ps.pitchWriteIndex channel
  let data := Function.update (ps.pitchBuffer channel) w x
  let out : ℝ :=
    if w > pitchGrainSize then
      let readPos : ℝ := (w : ℝ) - (pitchGrainSize : ℝ) * (1 / currentPitchRatio)
      let readIndex : Int := toSizeT (toInt readPos) % pitchBufferSize
      if readIndex ≥ 0 ∧ toSizeT readIndex < pitchBufferSize then
        let fraction : ℝ := readPos - (toInt readPos : ℝ)
        let nextIndex : Int := toSizeT (readIndex + 1) % pitchBufferSize
        let interpolatedSample := data readIndex * (1 - fraction) + data nextIndex * fraction
        let window : ℝ :=
          0.5 + 0.5 * Real.cos (Real.pi * ((sample.tmod pitchGrainSize : Int) : ℝ)
            / (pitchGrainSize : ℝ))
        interpolatedSample * window * 0.5 + x * 0.5
      else x
    else x
  (out,
    { ps with
      pitchBuffer := Function.update ps.pitchBuffer channel data
      pitchWriteIndex :=
        Function.update ps.pitchWriteIndex channel (toSizeT (w + 1) % pitchBufferSize) })

/-- The sample loop of `processPitchShift` over the samples of one channel, from sample
number `sample` on. -/
def pitchChannel (currentPitchRatio : ℝ) (channel : Nat) :
    Int → PitchState → List ℝ → List ℝ × PitchState
  | _, ps, [] => ([], ps)
  | sample, ps, x :: xs =>
    let r := pitchSample currentPitchRatio channel sample ps x
    let rest := pitchChannel currentPitchRatio channel (sample + 1) r.2 xs
    (r.1 :: rest.1, rest.2)

/-- The channel loop of `processPitchShift`, from channel number `channel` on. -/
def pitchChannels : Nat → PitchState → List (List ℝ) → List (List ℝ) × PitchState
  | _, ps, [] => ([], ps)
  | channel, ps, c :: cs =>
    let r := pitchChannel (ps.pitchSmoother channel).getTargetValue channel 0 ps c
    let rest := pitchChannels (channel + 1) r.2 cs
    (r.1 :: rest.1, rest.2)

/-- The function `processPitchShift (buffer)`: the processed buffer and the pitch members. -/
def processPitchShift (p : Parameters) (ps : PitchState) (buffer : List (List ℝ)) :
    List (List ℝ) × PitchState :=
  let semitones := p "pitchSemitones"
  let octaves := p "pitchOctaves"
  let totalSemitones := semitones + octaves * 12
  if |totalSemitones| < 0.1 then (buffer, ps)
  else
    let pitchRatio : ℝ := (2 : ℝ) ^ (totalSemitones / 12)
    let ps1 : PitchState :=
      { ps with
        pitchSmoother := fun i =>
          if i < 2 then (ps.pitchSmoother i).setTargetValue pitchRatio else ps.pitchSmoother i }
    pitchChannels 0 ps1 buffer

/-! ## Waveform capture and read-out -/

/-- The struct `WaveformData`: the ring buffer of 512 values, the write index and the flag. -/
structure WaveformData where
  buffer : Int → ℝ
  writeIndex : Int
  hasNewData : Bool

/-- The members `waveformData` and `waveformDownsampleCounter`. -/
structure WaveformState where
  waveformData : WaveformData
  waveformDownsampleCounter : Int

/-- The constant `waveformDownsampleRate`. -/
def waveformDownsampleRate : Int := 64

/-- The value of `waveformData.buffer.size ()` and of `displayBuffer.size ()`. -/
def waveformBufferSize : Int := 512

/-- The library call `buffer.getRMSLevel (channel, 0, buffer.getNumSamples ())` on the samples
of the channel: `0` for no samples, else the square root of the mean square. -/
def getRMSLevel (channelData : List ℝ) : ℝ :=
  if channelData.length = 0 then 0
  else Real.sqrt ((channelData.map (fun x => x * x)).sum / (channelData.length : ℝ))

/-- The combined level that `captureWaveformData` stores: the loop `rms += channelRms *
channelRms` over the channels, then `std::sqrt (rms / buffer.getNumChannels ())`. -/
def combinedRMS (buffer : List (List ℝ)) : ℝ :=
  Real.sqrt
    (buffer.foldl (fun rms channelData => rms + getRMSLevel channelData * getRMSLevel channelData)
      0 / (buffer.length : ℝ))

/-- The function `captureWaveformData (buffer)`. -/
def captureWaveformData (ws : WaveformState) (buffer : List (List ℝ)) : WaveformState :=
  if ws.waveformDownsampleCounter + 1 ≥ waveformDownsampleRate then
    let writeIdx := ws.waveformData.writeIndex
    { waveformDownsampleCounter := 0
      waveformData :=
        { buffer := Function.update ws.waveformData.buffer writeIdx (combinedRMS buffer)
          writeIndex := toSizeT (writeIdx + 1) % waveformBufferSize
          hasNewData := true } }
  else
    { ws with waveformDownsampleCounter := ws.waveformDownsampleCounter + 1 }

/-- The function `captureWaveformData` called once per element of `buffers`, in order. -/
def captureWaveformDataRun : WaveformState → List (List (List ℝ)) → WaveformState
  | ws, [] => ws
  | ws, b :: bs => captureWaveformDataRun (captureWaveformData ws b) bs

/-- The source index of `WaveformDisplay::timerCallback` for element `i`:
`(readIndex - displayBuffer.size () + i + buffer.size ()) % buffer.size ()`, computed in
`size_t`, every operation modulo `2 ^ 64`. -/
def sourceIndex (readIndex i : Int) : Int :=
  toSizeT (toSizeT (toSizeT (toSizeT readIndex - waveformBufferSize) + toSizeT i)
    + waveformBufferSize) % waveformBufferSize

/-- The body of the copy loop of `timerCallback` for element `i`. -/
def copyLoopBody (wd : WaveformData) (displayBuffer : Int → ℝ) (i : Nat) : Int → ℝ :=
  Function.update displayBuffer (i : Int) (wd.buffer (sourceIndex wd.writeIndex (i : Int)))

/-- The function `WaveformDisplay::timerCallback ()` on the waveform data and the member
`displayBuffer`: the copy loop over `i < displayBuffer.size ()` and the clearing of the flag
when `hasNewData` is set, nothing otherwise. The drawing of the path is not part of the
embedding. -/
def timerCallback (wd : WaveformData) (displayBuffer : Int → ℝ) : WaveformData × (Int → ℝ) :=
  if wd.hasNewData then
    ({ wd with hasNewData := false },
      (List.range waveformBufferSize.toNat).foldl (copyLoopBody wd) displayBuffer)
  else (wd, displayBuffer)

/-! ## Read indices of the delay stage -/

/-- The read index of the stereo cross-feed of `processBlock` for `channel`: the final value
of the local `crossDelay`. -/
def crossFeedIndex (L : BlockLocals) (channel : Nat) (st : State) : Int :=
  if channel = 0 then
    (st.delayWriteIndex channel - toInt ((L.delaySamples : ℝ) * 0.7) + maxDelayTime).tmod
      maxDelayTime
  else
    (st.delayWriteIndex channel - toInt ((L.delaySamples : ℝ) * 0.8) + maxDelayTime).tmod
      maxDelayTime

/-- A state with one active grain on channel 0, in slot 0: a forward grain of size 32 at its
last processed position 31, with amplitude 1, in an otherwise newly constructed processor. -/
def lastSampleState : State :=
  { constructed zeroRandom 48000 with
    activeGrains := fun channel i =>
      if channel = 0 ∧ i = 0 then { size := 32, position := 31, isActive := true } else {} }

/-- The pitch members after `prepareToPlay`, before any block: buffers of zeros, write
indices 0, smoothers reset to a ramp of `0.05` s and set to `1`. -/
def preparedPitch (sampleRate : ℝ) : PitchState :=
  { pitchBuffer := fun _ _ => 0
    pitchWriteIndex := fun _ => 0
    pitchSmoother := fun _ =>
      ((({} : SmoothedValue).resetSteps 44100).reset sampleRate 0.05).setCurrentAndTargetValue 1 }

/-- Parameter values with the LFO on the filter cutoff: filterCutoff 70, lfoDepth 50,
lfoTarget 0 (cutoff), lfoWaveform 0 (sine), lfoBipolar 1, every other control 0. -/
def cutoffLfoParameters : Parameters := fun id =>
  if id = "filterCutoff" then 70
  else if id = "lfoDepth" then 50
  else if id = "lfoBipolar" then 1
  else 0

/-- A newly constructed processor whose LFO phase is `0.25`, where the sine is at its peak. -/
def quarterPhaseState : State :=
  { constructed zeroRandom 48000 with lfoState := { phase := 0.25 } }

/-- Some settings of the state-variable filter before a block: a lowpass. -/
def lowpassSettings : FilterSettings :=
  { filterType := StateVariableTPTFilterType.lowpass, cutoffFrequency := 1000, resonance := 1 }

/-- Parameter values with tempo-sync enabled and the rate control at its default:
lfoTempoSync 1, lfoRate 25, every other control 0. -/
def tempoSyncParameters : Parameters := fun id =>
  if id = "lfoTempoSync" then 1
  else if id = "lfoRate" then 25
  else 0

/-- Parameter values with the flanger feedback control at its default 40 and every other
control 0. -/
def flangerParameters : Parameters := fun id =>
  if id = "flangerFeedback" then 40 else 0

/-- The waveform members of a newly constructed processor: a ring buffer of zeros, write
index 0, no new data, decimation counter 0. -/
def constructedWaveform : WaveformState :=
  { waveformData := { buffer := fun _ => 0, writeIndex := 0, hasNewData := false }
    waveformDownsampleCounter := 0 }

/-- Waveform data with new data: a ring buffer that holds its own index at every entry,
write index 5. -/
def rampWaveform : WaveformData :=
  { buffer := fun i => (i : ℝ), writeIndex := 5, hasNewData := true }

/-! ## Parameter layout and parameter reads -/

/-- The identifiers of the parameters that `createParameterLayout` declares, in the order of
its `push_back` calls. -/
def createParameterLayout : List String :=
  ["delayTime", "feedback", "mix", "grainSize", "grainDensity", "grainSpray", "reverseGrains",
    "randomization", "stereoWidth", "eqHigh", "eqLow", "filterCutoff", "filterResonance",
    "filterType", "pitchSemitones", "pitchOctaves", "panPosition", "lfoRate", "lfoDepth",
    "lfoTarget", "lfoBipolar", "lfoWaveform", "lfoTempoSync", "lfoSyncDivision", "chorusRate",
    "chorusDepth", "chorusMix", "flangerDelay", "flangerFeedback", "flangerDepth",
    "flangerRate", "flangerMix"]

/-- The library call `valueTreeState.getRawParameterValue (id)`: a pointer to the value of a
declared parameter, the null pointer (`none`) for an identifier that is not declared. -/
def getRawParameterValue (values : Parameters) (id : String) : Option ℝ :=
  if id ∈ createParameterLayout then some (values id) else none

/-- The identifiers that each function of the processor passes to `getRawParameterValue` and
dereferences, in source order: `processBlock`, `updateLFO`, `getLFOValue`, `processFilter`,
`processPitchShift`, `processChorus`, `processFlanger`, `processPanning`. -/
def parameterReads : List (String × List String) :=
  [("processBlock",
      ["delayTime", "feedback", "mix", "grainSize", "grainDensity", "grainSpray", "stereoWidth",
        "eqHigh", "eqLow", "reverseGrains", "randomization"]),
    ("updateLFO", ["lfoRate", "lfoTempoSync", "lfoSyncDivision"]),
    ("getLFOValue", ["lfoWaveform", "lfoBipolar"]),
    ("processFilter",
      ["filterCutoff", "filterResonance", "filterType", "lfoDepth", "lfoTarget", "filterMode"]),
    ("processPitchShift", ["pitchSemitones", "pitchOctaves"]),
    ("processChorus", ["chorusRate", "chorusDepth", "chorusMix"]),
    ("processFlanger",
      ["flangerDelay", "flangerDepth", "flangerRate", "flangerMix", "flangerFeedback"]),
    ("processPanning", ["panPosition", "lfoDepth", "lfoTarget"])]

/-- The function `processFilter (buffer)` with its parameter reads as the code performs them:
each `*valueTreeState.getRawParameterValue (id)` dereferences the pointer that the lookup
returns, in source order (`filterCutoff`, `filterResonance`, `filterType`, `lfoDepth`,
`lfoTarget`, then `filterMode` in the statement before the `switch`), and the call does not
get past the dereference of a null pointer (`none`). When every lookup returns a pointer,
the settings are those of `processFilter` on the values read. The reads of `getLFOValue`
inside the modulation branch are of declared identifiers and are not listed. -/
def processFilterLookup (values : Parameters) (st : State) (f : FilterSettings) :
    Option FilterSettings :=
  (getRawParameterValue values "filterCutoff").bind fun _ =>
  (getRawParameterValue values "filterResonance").bind fun _ =>
  (getRawParameterValue values "filterType").bind fun _ =>
  (getRawParameterValue values "lfoDepth").bind fun _ =>
  (getRawParameterValue values "lfoTarget").bind fun _ =>
  (getRawParameterValue values "filterMode").bind fun _ =>
  some (processFilter values st f)

/-- Parameter values with tempo-sync enabled and the sync division control at `division`;
every other control 0. -/
def syncDivisionParameters (division : ℝ) : Parameters := fun id =>
  if id = "lfoTempoSync" then 1
  else if id = "lfoSyncDivision" then division
  else 0

/-- A newly constructed processor whose host reports a tempo of 120 BPM. -/
def hostTempoState : State :=
  { constructed zeroRandom 48000 with getPlayHead := some ⟨some ⟨some 120⟩⟩ }

/-! ## Read position of the pitch shifter -/

/-- The local `readPos` of `processPitchShift` for the pitch ratio and the write index `w`. -/
def pitchReadPos (currentPitchRatio : ℝ) (w : Int) : ℝ :=
  (w : ℝ) - (pitchGrainSize : ℝ) * (1 / currentPitchRatio)

/-- The local `readIndex` of `processPitchShift`. -/
def pitchReadIndex (currentPitchRatio : ℝ) (w : Int) : Int :=
  toSizeT (toInt (pitchReadPos currentPitchRatio w)) % pitchBufferSize

/-- The local `nextIndex` of `processPitchShift`. -/
def pitchNextIndex (currentPitchRatio : ℝ) (w : Int) : Int :=
  toSizeT (pitchReadIndex currentPitchRatio w + 1) % pitchBufferSize

/-- The local `fraction` of `processPitchShift`. -/
def pitchFraction (currentPitchRatio : ℝ) (w : Int) : ℝ :=
  pitchReadPos currentPitchRatio w - (toInt (pitchReadPos currentPitchRatio w) : ℝ)

/-- The local `pitchRatio` of `processPitchShift` for pitchSemitones -6 and pitchOctaves 0. -/
def pitchDownRatio : ℝ := (2 : ℝ) ^ (((-6 : ℝ) + 0 * 12) / 12)

/-! ## Coefficients of the EQ stage -/

/-- The local `lpCoeff` of `applyEQFiltering`. -/
def lpCoeff (st : State) (highCut : ℝ) : ℝ :=
  Real.exp (-2 * Real.pi * (jmap highCut 0 100 200 20000 / st.getSampleRate))

/-- The local `hpCoeff` of `applyEQFiltering`. -/
def hpCoeff (st : State) (lowCut : ℝ) : ℝ :=
  Real.exp (-2 * Real.pi * (jmap lowCut 0 100 10 1000 / st.getSampleRate))

/-- For each sample of the sample loop of `processBlock` on `channel`, in order: the value
tapped (the granular output or the delay buffer entry at the write index, before the EQ
stage) and the feedback sample that the sample writes into the delay buffer. -/
def tapWriteTrace (L : BlockLocals) (channel : Nat) : State → List ℝ → List (ℝ × ℝ)
  | _, [] => []
  | st, x :: xs =>
    ((tapSample L channel st).1,
        (processSample L channel st x).2.delayBuffers channel (st.delayWriteIndex channel))
      :: tapWriteTrace L channel (processSample L channel st x).2 xs

/-- The state on which the granular branch of a sample calls `processActiveGrains`: the
countdown of the channel decremented and, when it is then `<= 0`, the retrigger done. -/
def preGrainState (L : BlockLocals) (channel : Nat) (st : State) : State :=
  if st.grainTriggerCountdown channel - 1 ≤ 0 then
    retrigger L channel
      { st with
        grainTriggerCountdown :=
          Function.update st.grainTriggerCountdown channel (st.grainTriggerCountdown channel - 1) }
  else
    { st with
      grainTriggerCountdown :=
        Function.update st.grainTriggerCountdown channel (st.grainTriggerCountdown channel - 1) }

/-- Two states agree on every member except the delay buffer and the two one-pole states of
`channel` (the members of the state that depend on the input samples of that channel). -/
def AgreeExcept (channel : Nat) (a b : State) : Prop :=
  a.delayWriteIndex = b.delayWriteIndex ∧ a.activeGrains = b.activeGrains
  ∧ a.grainTriggerCountdown = b.grainTriggerCountdown ∧ a.random = b.random
  ∧ a.lfoState = b.lfoState ∧ a.currentSampleRate = b.currentSampleRate
  ∧ a.currentBufferSize = b.currentBufferSize ∧ a.getSampleRate = b.getSampleRate
  ∧ a.getPlayHead = b.getPlayHead
  ∧ ∀ c : Nat, c ≠ channel →
      a.delayBuffers c = b.delayBuffers c ∧ a.highCutState c = b.highCutState c
      ∧ a.lowCutState c = b.lowCutState c

/-- The number of grains of `channel` whose `isActive` flag is set, over the `maxGrains`
slots of the pool. -/
def activeCount (st : State) (channel : Nat) : Nat :=
  ((Finset.range maxGrains).filter
    (fun i => (st.activeGrains channel i).isActive = true)).card

/-- The executions of the body of the sample loop of `processBlock` in the order of a list
of pairs (channel, inputSample), all with the same block locals. -/
def runSamples (L : BlockLocals) : State → List (Nat × ℝ) → State
  | st, [] => st
  | st, cx :: rest => runSamples L (processSample L cx.1 st cx.2).2 rest

/-- The order in which the two nested loops of `processBlock` visit the samples of a buffer:
every sample of the first channel, then every sample of the next one, and so on, with the
channels numbered from `channel`. -/
def blockSchedule : Nat → List (List ℝ) → List (Nat × ℝ)
  | _, [] => []
  | channel, c :: cs => c.map (fun x => (channel, x)) ++ blockSchedule (channel + 1) cs

/-- The delay stage of `processBlock` over consecutive buffers: the state after the last. -/
def processBlocks (p : Parameters) : State → List (List (List ℝ)) → State
  | st, [] => st
  | st, b :: bs => processBlocks p (processBlockDelay p st b).2 bs

/-- The grains of `channel` are on the trigger grid: the countdown is at most `N`, and every
active grain has size `s`, a position in `[o, s)` that no other active grain has, and a
position that together with the countdown is `o` more than a multiple of the interval `N`
(with the countdown at least `1`). Between two samples `o = 1`; between the trigger and
`processActiveGrains` inside one sample `o = 0`. -/
def GrainInv (o s N : Int) (channel : Nat) (st : State) : Prop :=
  st.grainTriggerCountdown channel ≤ N
  ∧ (∀ j : Nat, j < maxGrains → (st.activeGrains channel j).isActive = true →
      (st.activeGrains channel j).size = s
      ∧ o ≤ (st.activeGrains channel j).position
      ∧ (st.activeGrains channel j).position < s
      ∧ 1 ≤ st.grainTriggerCountdown channel
      ∧ N ∣ ((st.activeGrains channel j).position + st.grainTriggerCountdown channel - o))
  ∧ (∀ i j : Nat, i < maxGrains → j < maxGrains →
      (st.activeGrains channel i).isActive = true →
      (st.activeGrains channel j).isActive = true →
      (st.activeGrains channel i).position = (st.activeGrains channel j).position → i = j)

/-- The order in which consecutive calls of `processBlock` visit the samples of their
buffers. -/
def blocksSchedule : List (List (List ℝ)) → List (Nat × ℝ)
  | [] => []
  | b :: bs => blockSchedule 0 b ++ blocksSchedule bs

/-- The parameter values of scenario B: grainDensity 2, grainSize 60 ms, spray 0,
randomization 0, forward grains, delayTime 400 ms, feedback 0.35, mix 35 %, stereoWidth
50 %, eqHigh 80, eqLow 10. -/
def scenarioBParameters : Parameters := fun id =>
  if id = "delayTime" then 400
  else if id = "feedback" then 0.35
  else if id = "mix" then 35
  else if id = "grainSize" then 60
  else if id = "grainDensity" then 2
  else if id = "stereoWidth" then 50
  else if id = "eqHigh" then 80
  else if id = "eqLow" then 10
  else 0

/-! ## Single-precision arithmetic

The members and locals that carry the retrigger interval and the LFO phase are `float`. The
definitions above take their arithmetic as exact. The definitions of this section round the
result of every `float` operation to IEEE 754 binary32: round to nearest, ties to even, with
gradual underflow; overflow to infinity is not modelled, the exponent is unbounded above. -/

/-- The integer nearest to `y`, the even one of the two when `y` lies halfway. -/
def roundHalfEven (y : ℝ) : Int :=
  if y - (⌊y⌋ : ℝ) < 1 / 2 then ⌊y⌋
  else if 1 / 2 < y - (⌊y⌋ : ℝ) then ⌊y⌋ + 1
  else if ⌊y⌋ % 2 = 0 then ⌊y⌋ else ⌊y⌋ + 1

/-- The binary32 exponent of `x`: `floor (log2 |x|)`, and `-126` in the subnormal range. -/
def f32Exponent (x : ℝ) : Int := max (Int.log 2 |x|) (-126)

/-- The spacing of the binary32 values around `x`: 24 significant bits. -/
def f32Ulp (x : ℝ) : ℝ := (2 : ℝ) ^ (f32Exponent x - 23)

/-- The binary32 value nearest to `x`: what a `float` operation with exact result `x`
returns, and what a `float` literal or a conversion to `float` with value `x` is. -/
def roundF32 (x : ℝ) : ℝ := (roundHalfEven (x / f32Ulp x) : ℝ) * f32Ulp x

/-- The real `x` is a binary32 value. -/
def IsF32 (x : ℝ) : Prop := ∃ m : Int, x = (m : ℝ) * f32Ulp x

/-- The call `juce::jmap (sourceValue, sourceRangeMin, sourceRangeMax, targetRangeMin,
targetRangeMax)` on `float` arguments, each of its five operations rounded. -/
def jmapF32 (sourceValue sourceRangeMin sourceRangeMax targetRangeMin targetRangeMax : ℝ) : ℝ :=
  roundF32 (targetRangeMin
    + roundF32 (roundF32 (roundF32 (targetRangeMax - targetRangeMin)
        * roundF32 (sourceValue - sourceRangeMin))
      / roundF32 (sourceRangeMax - sourceRangeMin)))

/-- The local `densityFactor` of the retrigger,
`juce::jmap (grainDensity, 0.1f, 4.0f, 0.1f, 4.0f)`, in single precision. -/
def densityFactorF32 (grainDensity : ℝ) : ℝ :=
  jmapF32 grainDensity (roundF32 0.1) 4 (roundF32 0.1) 4

/-- The local `baseInterval` of the retrigger,
`static_cast<int> (grainSizeSamples * 0.5f / densityFactor)`, in single precision. -/
def baseIntervalF32 (grainSizeSamples : Int) (grainDensity : ℝ) : Int :=
  toInt (roundF32 (roundF32 (roundF32 (grainSizeSamples : ℝ) * 0.5)
    / densityFactorF32 grainDensity))

/-- The local `randomVariation` of the retrigger,
`static_cast<int> (baseInterval * randomization * (random.nextFloat() * 2.0f - 1.0f))`, in
single precision, for the value `nextFloat` that the call `random.nextFloat()` returns. -/
def randomVariationF32 (baseInterval : Int) (randomization nextFloat : ℝ) : Int :=
  toInt (roundF32 (roundF32 (roundF32 (baseInterval : ℝ) * randomization)
    * roundF32 (roundF32 (nextFloat * 2) - 1)))

/-- What the sample loop of `processBlock` does to `grainTriggerCountdown[channel]` for one
sample, in single precision: whether the sample calls `triggerNewGrain`, and the countdown
after the sample. In the granular branch (`grainDensity > 0.1f`) the countdown is
decremented; when it is then `<= 0` the grain is triggered and the countdown becomes
`jmax (1, baseInterval + randomVariation)`. Outside the branch the countdown is not touched.
`nextFloat` is the value that `random.nextFloat()` returns if this sample triggers. -/
def countdownStepF32 (grainSizeSamples : Int) (grainDensity randomization nextFloat : ℝ)
    (countdown : Int) : Bool × Int :=
  if grainDensity > roundF32 0.1 then
    if countdown - 1 ≤ 0 then
      (true, jmax 1 (baseIntervalF32 grainSizeSamples grainDensity
        + randomVariationF32 (baseIntervalF32 grainSizeSamples grainDensity) randomization
            nextFloat))
    else (false, countdown - 1)
  else (false, countdown)

/-- The samples of one channel processed in order from a countdown, one value of the
generator per sample: for each sample whether it triggers a grain, and the countdown after
the last sample. -/
def triggerTraceF32 (grainSizeSamples : Int) (grainDensity randomization : ℝ) :
    Int → List ℝ → List Bool × Int
  | countdown, [] => ([], countdown)
  | countdown, nextFloat :: rest =>
    ((countdownStepF32 grainSizeSamples grainDensity randomization nextFloat countdown).1
      :: (triggerTraceF32 grainSizeSamples grainDensity randomization
        (countdownStepF32 grainSizeSamples grainDensity randomization nextFloat countdown).2
        rest).1,
    (triggerTraceF32 grainSizeSamples grainDensity randomization
      (countdownStepF32 grainSizeSamples grainDensity randomization nextFloat countdown).2
      rest).2)

/-- The frequency update of `updateLFO ()` in single precision: `*bpm / 60.0f` stored in the
`float` local `beatsPerSecond`, the division by the `float` divisor, and `juce::jmap` on
`float` arguments. -/
def updateLFOFrequencyF32 (p : Parameters) (st : State) : ℝ :=
  let lfoRate := p "lfoRate"
  let tempoSync := decide (p "lfoTempoSync" > 0.5)
  if tempoSync then
    match st.getPlayHead with
    | none => st.lfoState.frequency
    | some playHead =>
      match playHead.position with
      | none => st.lfoState.frequency
      | some position =>
        match position.bpm with
        | none => st.lfoState.frequency
        | some bpm =>
          let syncDivision := p "lfoSyncDivision"
          let beatsPerSecond := roundF32 (bpm / 60)
          let divisor : ℝ := if syncDivision = 0 then 4 else (if syncDivision = 1 then 2 else 1)
          roundF32 (beatsPerSecond / divisor)
  else
    jmapF32 lfoRate 0 100 (roundF32 0.1) 10

/-- The value that the statement
`lfoState.phase += lfoState.frequency * (1.0f / currentSampleRate) * currentBufferSize;`
stores in the `float` member `phase`. The right-hand side is evaluated in `double`
(`currentSampleRate` is a `double`), taken as exact here; the store rounds it to binary32. -/
def incrementedPhaseF32 (p : Parameters) (st : State) : ℝ :=
  roundF32 (st.lfoState.phase
    + updateLFOFrequencyF32 p st * (1 / st.currentSampleRate) * (st.currentBufferSize : ℝ))

/-- The wrap loop of `updateLFO`, `while (phase >= 1.0f) phase -= 1.0f;`, in single
precision, run for at most `fuel` tests of its condition; `none` when the loop has not ended
by then. -/
def wrapPhaseF32 : Nat → ℝ → Option ℝ
  | 0, _ => none
  | fuel + 1, phase =>
    if phase ≥ 1 then wrapPhaseF32 fuel (roundF32 (phase - 1)) else some phase

/-- The function `updateLFO ()` in single precision, its wrap loop run with `fuel`. -/
def updateLFOF32 (fuel : Nat) (p : Parameters) (st : State) : Option State :=
  match wrapPhaseF32 fuel (incrementedPhaseF32 p st) with
  | none => none
  | some phase2 =>
    some { st with
      lfoState := { st.lfoState with frequency := updateLFOFrequencyF32 p st, phase := phase2 } }

/-- A processor whose host reports 120 BPM, after `prepareToPlay (1.0, 167772160)` with two
output channels: sample rate 1, block size 167772160, phase 0. -/
def longBlockState : State := prepareToPlay hostTempoState 1 167772160 2

/-- A processor whose host reports 120 BPM, after `prepareToPlay (48000.0, 48000)` with two
output channels: a block of one second, phase 0. -/
def oneSecondBlockState : State := prepareToPlay hostTempoState 48000 48000 2

/-! ## Basic facts about the helpers -/

theorem jlimit_ge {α : Type} [LinearOrder α] (lo hi v : α) (h : lo ≤ hi) :
    lo ≤ jlimit lo hi v := by
  unfold jlimit
  split_ifs with h1 h2
  · exact le_refl lo
  · exact h
  · exact not_lt.mp h1

theorem jlimit_le {α : Type} [LinearOrder α] (lo hi v : α) (h : lo ≤ hi) :
    jlimit lo hi v ≤ hi := by
  unfold jlimit
  split_ifs with h1 h2
  · exact h
  · exact le_refl hi
  · exact not_lt.mp h2

theorem jmax_ge_left {α : Type} [LinearOrder α] (a b : α) : a ≤ jmax a b := by
  unfold jmax
  split_ifs with h
  · exact le_of_lt h
  · exact le_refl a

/-! ## Grain size, lifecycle and pool exhaustion -/

/-- C3. A grain that `triggerNewGrain` creates (in the first inactive slot `i` of the channel)
is active, at position 0, and has its size in `[32, 16384]`, whatever the `grainSize`,
`spray`, `randomization` arguments and the values drawn from the generator; this is the size
after the randomization perturbation when there is one. -/
theorem triggerNewGrain_size_range (st : State) (channel : Nat) (grainSize : Int) (spray : ℝ)
    (reverse : Bool) (randomization : ℝ) (i : Nat) (h : firstInactive st channel = some i) :
    ((triggerNewGrain st channel grainSize spray reverse randomization).activeGrains
        channel i).isActive = true
    ∧ ((triggerNewGrain st channel grainSize spray reverse randomization).activeGrains
        channel i).position = 0
    ∧ 32 ≤ ((triggerNewGrain st channel grainSize spray reverse randomization).activeGrains
        channel i).size
    ∧ ((triggerNewGrain st channel grainSize spray reverse randomization).activeGrains
        channel i).size ≤ 16384 := by
  unfold triggerNewGrain
  rw [h]
  dsimp only
  split_ifs with hr
  · simp only [Function.update_same]
    exact ⟨trivial, trivial, jlimit_ge _ _ _ (by norm_num), jlimit_le _ _ _ (by norm_num)⟩
  · simp only [Function.update_same]
    exact ⟨trivial, trivial, jlimit_ge _ _ _ (by norm_num), jlimit_le _ _ _ (by norm_num)⟩

theorem triggerNewGrain_size_range_witness :
    firstInactive (constructed zeroRandom 48000) 0 = some 0
    ∧ ((triggerNewGrain (constructed zeroRandom 48000) 0 100000 1 false 1).activeGrains
        0 0).size ≤ 16384 :=
  ⟨by decide,
    (triggerNewGrain_size_range (constructed zeroRandom 48000) 0 100000 1 false 1 0
      (by decide)).2.2.2⟩

/-- C4. For an active grain in a slot of the pool with `position < size` (so for every one
with `0 <= position < size`), one
`processActiveGrains` step increases the position by exactly 1 and leaves the size unchanged;
the grain is inactive after the step exactly when the new position equals the size. Over
consecutive steps: after `k` steps the position has advanced by `min k (size - position)` and
the grain is active exactly while `k < size - position`, so a grain at position 0 of size `s`
is processed in `s` consecutive steps and is inactive from then on. -/
theorem processActiveGrains_lifecycle (st : State) (channel i : Nat) (hi : i < maxGrains)
    (hact : (st.activeGrains channel i).isActive = true)
    (h1 : (st.activeGrains channel i).position < (st.activeGrains channel i).size) :
    (∀ delayBuffer : Int → ℝ,
      ((processActiveGrains st channel delayBuffer).2.activeGrains channel i).position
        = (st.activeGrains channel i).position + 1
      ∧ ((processActiveGrains st channel delayBuffer).2.activeGrains channel i).size
        = (st.activeGrains channel i).size
      ∧ (((processActiveGrains st channel delayBuffer).2.activeGrains channel i).isActive = false
        ↔ ((processActiveGrains st channel delayBuffer).2.activeGrains channel i).position
          = (st.activeGrains channel i).size))
    ∧ (∀ bufs : List (Int → ℝ),
      ((processActiveGrainsRun channel st bufs).activeGrains channel i).position
        = (st.activeGrains channel i).position
          + min (bufs.length : Int)
              ((st.activeGrains channel i).size - (st.activeGrains channel i).position)
      ∧ ((processActiveGrainsRun channel st bufs).activeGrains channel i).size
        = (st.activeGrains channel i).size
      ∧ (((processActiveGrainsRun channel st bufs).activeGrains channel i).isActive = true
        ↔ (bufs.length : Int)
          < (st.activeGrains channel i).size - (st.activeGrains channel i).position)) := by
  have processActiveGrainsRun_cons : ∀ (channel : Nat) (st : State) (b : Int → ℝ)
      (bs : List (Int → ℝ)),
      processActiveGrainsRun channel st (b :: bs)
        = processActiveGrainsRun channel (processActiveGrains st channel b).2 bs := by
    intro channel st b bs
    exact
      rfl
  have foldl_grainLoopBody_snd : ∀ (delayBuffer : Int → ℝ) (l : List Nat) (hl : l.Nodup)
      (acc : ℝ × (Nat → Grain)) (j : Nat),
      (l.foldl (grainLoopBody delayBuffer) acc).2 j
        = if j ∈ l ∧ (acc.2 j).isActive = true then grainAdvance (acc.2 j) else acc.2 j := by
    intro delayBuffer l hl acc j
    induction l generalizing acc with
    | nil => simp
    | cons a l ih =>
      have hnd := List.nodup_cons.mp hl
      rw [List.foldl_cons, ih hnd.2]
      by_cases hja : j = a
      · subst hja
        have hnot : j ∉ l := hnd.1
        by_cases hact : (acc.2 j).isActive = true
        · unfold grainLoopBody
          simp [hnot, hact]
        · unfold grainLoopBody
          simp [hnot, hact]
      · have hsame : (grainLoopBody delayBuffer acc a).2 j = acc.2 j := by
          unfold grainLoopBody
          dsimp only
          split
          · rfl
          · simp [Function.update_noteq hja]
        rw [hsame]
        simp [hja]
  have processActiveGrains_grain : ∀ (st : State) (channel : Nat) (delayBuffer : Int → ℝ)
      (i : Nat),
      (processActiveGrains st channel delayBuffer).2.activeGrains channel i
        = if i < maxGrains ∧ (st.activeGrains channel i).isActive = true
          then grainAdvance (st.activeGrains channel i) else st.activeGrains channel i := by
    intro st channel delayBuffer i
    unfold processActiveGrains
    simp only [Function.update_same]
    rw [foldl_grainLoopBody_snd delayBuffer _ (List.nodup_range _)]
    simp [List.mem_range]
  have grainAdvance_run : ∀ (g : Grain) (k : Nat) (hact : g.isActive = true)
      (h1 : g.position < g.size),
      ∀ (f : Grain → Grain), (∀ x, f x = if x.isActive = true then grainAdvance x else x) →
        (f^[k] g).position = g.position + min (k : Int) (g.size - g.position)
        ∧ (f^[k] g).size = g.size ∧ (f^[k] g).startPos = g.startPos
        ∧ (f^[k] g).isReverse = g.isReverse ∧ (f^[k] g).amplitude = g.amplitude
        ∧ ((f^[k] g).isActive = true ↔ (k : Int) < g.size - g.position) := by
    intro g k hact h1
    intro f hf
    induction k with
    | zero =>
      have hmin : min ((0 : Nat) : Int) (g.size - g.position) = 0 := by
        rw [Nat.cast_zero]; exact min_eq_left (by omega)
      refine ⟨?_, rfl, rfl, rfl, rfl, ?_⟩
      · rw [hmin]; simp
      · simp [hact, h1]
    | succ k ih =>
      rw [Function.iterate_succ_apply']
      obtain ⟨hp, hs, hst, hr, ha, hi⟩ := ih
      rw [hf]
      by_cases hk : (k : Int) < g.size - g.position
      · have hA : (f^[k] g).isActive = true := hi.mpr hk
        rw [min_eq_left (le_of_lt hk)] at hp
        rw [if_pos hA]
        unfold grainAdvance
        split_ifs with hge
        · dsimp only
          rw [hs, hp] at hge
          refine ⟨?_, hs, hst, hr, ha, ?_⟩
          · rw [hp, min_eq_right (by push_cast; omega)]; omega
          · simp only [Bool.false_eq_true, false_iff, not_lt]; push_cast; omega
        · dsimp only
          rw [hs, hp] at hge
          refine ⟨?_, hs, hst, hr, ha, ?_⟩
          · rw [hp, min_eq_left (by push_cast; omega)]; push_cast; omega
          · simp only [hA, true_iff]; push_cast; omega
      · have hA : ¬ (f^[k] g).isActive = true := fun h => hk (hi.mp h)
        rw [min_eq_right (le_of_not_lt hk)] at hp
        rw [if_neg hA]
        refine ⟨?_, hs, hst, hr, ha, ?_⟩
        · rw [hp, min_eq_right (by push_cast; omega)]
        · constructor
          · intro h; exact absurd h hA
          · intro h; push_cast at h; omega
  have processActiveGrainsRun_grain : ∀ (channel i : Nat) (hi : i < maxGrains) (st : State)
      (bufs : List (Int → ℝ)),
      (processActiveGrainsRun channel st bufs).activeGrains channel i
        = (fun x : Grain => if x.isActive = true then grainAdvance x else x)^[bufs.length]
            (st.activeGrains channel i) := by
    intro channel i hi st bufs
    induction bufs generalizing st with
    | nil => rfl
    | cons b bs ih =>
      rw [processActiveGrainsRun_cons, ih, List.length_cons, Function.iterate_succ_apply,
        processActiveGrains_grain]
      simp [hi]
  constructor
  · intro delayBuffer
    rw [processActiveGrains_grain, if_pos ⟨hi, hact⟩]
    unfold grainAdvance
    split_ifs with hge
    · dsimp only
      refine ⟨rfl, rfl, ?_⟩
      constructor
      · intro _; omega
      · intro _; rfl
    · dsimp only
      refine ⟨rfl, rfl, ?_⟩
      constructor
      · intro h; rw [hact] at h; exact absurd h (by decide)
      · intro h; omega
  · intro bufs
    rw [processActiveGrainsRun_grain channel i hi]
    have := grainAdvance_run (st.activeGrains channel i) bufs.length hact h1 _ (fun _ => rfl)
    exact ⟨this.1, this.2.1, this.2.2.2.2.2⟩

theorem processActiveGrains_lifecycle_witness :
    ((processActiveGrainsRun 0 fullPool (List.replicate 63 (fun _ => 0))).activeGrains
        0 5).position = 0 + min (63 : Int) (64 - 0)
    ∧ (((processActiveGrainsRun 0 fullPool (List.replicate 64 (fun _ => 0))).activeGrains
        0 5).isActive = true ↔ ((64 : Nat) : Int) < 64 - 0) := by
  have h63 := (processActiveGrains_lifecycle fullPool 0 5 (by decide) rfl (by decide)).2 (List.replicate 63 (fun _ => 0))
  have h64 := (processActiveGrains_lifecycle fullPool 0 5 (by decide) rfl (by decide)).2 (List.replicate 64 (fun _ => 0))
  simp only [List.length_replicate] at h63 h64
  exact ⟨h63.1, h64.2.2⟩

/-- C5. When all 32 grain slots of the channel are active, `triggerNewGrain` on that channel
returns the state unchanged: no grain of any channel, no delay write index and no other
member changes, and no value is drawn from the random generator. -/
theorem triggerNewGrain_pool_full (st : State) (channel : Nat) (grainSize : Int) (spray : ℝ)
    (reverse : Bool) (randomization : ℝ)
    (h : ∀ i, i < maxGrains → (st.activeGrains channel i).isActive = true) :
    triggerNewGrain st channel grainSize spray reverse randomization = st := by
  have firstInactive_eq_none : ∀ (st : State) (channel : Nat)
      (h : ∀ i, i < maxGrains → (st.activeGrains channel i).isActive = true),
      firstInactive st channel = none := by
    intro st channel h
    unfold firstInactive
    rw [List.find?_eq_none]
    intro i hi
    simp [h i (List.mem_range.mp hi)]
  unfold triggerNewGrain
  rw [firstInactive_eq_none st channel h]

theorem triggerNewGrain_pool_full_witness :
    (∀ i, i < maxGrains → (fullPool.activeGrains 1 i).isActive = true)
    ∧ triggerNewGrain fullPool 1 2646 0.5 true 0.15 = fullPool :=
  ⟨fun _ _ => rfl, triggerNewGrain_pool_full fullPool 1 2646 0.5 true 0.15 (fun _ _ => rfl)⟩

/-! ## The delay write index -/

/-- C1. For a channel whose delay write index is in `[0, 192000)`, the delay stage of
`processBlock` on any buffer, with any parameter values and from any state, leaves the index
in `[0, 192000)`: it is the old index plus the number of samples processed on that channel,
modulo 192000. Each processed sample advances the index by exactly one modulo 192000,
`prepareToPlay` sets the index of every output channel to 0, and `updateLFO`, which
`processBlock` runs after the delay stage, leaves the indices as they are. -/
theorem processBlock_delayWriteIndex (p : Parameters) (st : State) (buffer : List (List ℝ))
    (channel : Nat) (h0 : 0 ≤ st.delayWriteIndex channel)
    (h1 : st.delayWriteIndex channel < maxDelayTime) :
    (0 ≤ (processBlockDelay p st buffer).2.delayWriteIndex channel
      ∧ (processBlockDelay p st buffer).2.delayWriteIndex channel < 192000
      ∧ (processBlockDelay p st buffer).2.delayWriteIndex channel
        = (st.delayWriteIndex channel + (((buffer.getD channel []).length : Nat) : Int))
            % 192000)
    ∧ (∀ (L : BlockLocals) (inputSample : ℝ),
        (processSample L channel st inputSample).2.delayWriteIndex channel
          = (st.delayWriteIndex channel + 1) % 192000)
    ∧ (∀ (sampleRate : ℝ) (samplesPerBlock : Int) (numOutputChannels : Nat),
        channel < numOutputChannels →
        (prepareToPlay st sampleRate samplesPerBlock numOutputChannels).delayWriteIndex channel
          = 0)
    ∧ (∀ (fuel : Nat) (st2 : State), updateLFO fuel p st = some st2 →
        st2.delayWriteIndex = st.delayWriteIndex) := by
  have processChannel_nil : ∀ (L : BlockLocals) (channel : Nat) (st : State),
      processChannel L channel st [] = ([], st) := by
    intro L channel st
    exact
      rfl
  have processChannel_cons : ∀ (L : BlockLocals) (channel : Nat) (st : State) (x : ℝ)
      (xs : List ℝ),
      processChannel L channel st (x :: xs)
        = ((processSample L channel st x).1
            :: (processChannel L channel (processSample L channel st x).2 xs).1,
          (processChannel L channel (processSample L channel st x).2 xs).2) := by
    intro L channel st x xs
    exact
      rfl
  have processChannels_nil : ∀ (L : BlockLocals) (channel : Nat) (st : State),
      processChannels L channel st [] = ([], st) := by
    intro L channel st
    exact
      rfl
  have processChannels_cons : ∀ (L : BlockLocals) (channel : Nat) (st : State) (c : List ℝ)
      (cs : List (List ℝ)),
      processChannels L channel st (c :: cs)
        = ((processChannel L channel st c).1
            :: (processChannels L (channel + 1) (processChannel L channel st c).2 cs).1,
          (processChannels L (channel + 1) (processChannel L channel st c).2 cs).2) := by
    intro L channel st c cs
    exact
      rfl
  have tmod_eq_emod_of_nonneg : ∀ (a : Int) (h : 0 ≤ a),
      a.tmod maxDelayTime = a % maxDelayTime := by
    intro a h
    exact
      Int.tmod_eq_emod h (by decide)
  have triggerNewGrain_delayWriteIndex : ∀ (st : State) (channel : Nat) (grainSize : Int)
      (spray : ℝ) (reverse : Bool) (randomization : ℝ),
      (triggerNewGrain st channel grainSize spray reverse randomization).delayWriteIndex
        = st.delayWriteIndex := by
    intro st channel grainSize spray reverse randomization
    unfold triggerNewGrain
    split
    · rfl
    · dsimp only
      split <;> rfl
  have processActiveGrains_delayWriteIndex : ∀ (st : State) (channel : Nat)
      (delayBuffer : Int → ℝ),
      (processActiveGrains st channel delayBuffer).2.delayWriteIndex = st.delayWriteIndex := by
    intro st channel delayBuffer
    exact
      rfl
  have retrigger_delayWriteIndex : ∀ (L : BlockLocals) (channel : Nat) (st : State),
      (retrigger L channel st).delayWriteIndex = st.delayWriteIndex := by
    intro L channel st
    unfold retrigger
    exact triggerNewGrain_delayWriteIndex _ _ _ _ _ _
  have tapSample_delayWriteIndex : ∀ (L : BlockLocals) (channel : Nat) (st : State),
      (tapSample L channel st).2.delayWriteIndex = st.delayWriteIndex := by
    intro L channel st
    unfold tapSample
    by_cases h1 : L.grainDensity > 0.1
    · rw [if_pos h1]
      dsimp only
      rw [processActiveGrains_delayWriteIndex]
      split_ifs
      · exact retrigger_delayWriteIndex _ _ _
      · rfl
    · rw [if_neg h1]
  have processSample_delayWriteIndex : ∀ (L : BlockLocals) (channel : Nat) (st : State)
      (inputSample : ℝ),
      (processSample L channel st inputSample).2.delayWriteIndex
        = Function.update st.delayWriteIndex channel
            ((st.delayWriteIndex channel + 1).tmod maxDelayTime) := by
    intro L channel st inputSample
    unfold processSample applyEQFiltering
    simp only [tapSample_delayWriteIndex]
  have processChannel_delayWriteIndex_other : ∀ (L : BlockLocals) (channel other : Nat)
      (hne : other ≠ channel) (st : State) (xs : List ℝ),
      (processChannel L channel st xs).2.delayWriteIndex other = st.delayWriteIndex other := by
    intro L channel other hne st xs
    induction xs generalizing st with
    | nil => rfl
    | cons x xs ih =>
      rw [processChannel_cons]
      dsimp only
      rw [ih, processSample_delayWriteIndex, Function.update_noteq hne]
  have processChannel_delayWriteIndex : ∀ (L : BlockLocals) (channel : Nat) (st : State)
      (xs : List ℝ) (h0 : 0 ≤ st.delayWriteIndex channel)
      (h1 : st.delayWriteIndex channel < maxDelayTime),
      (processChannel L channel st xs).2.delayWriteIndex channel
        = (st.delayWriteIndex channel + (xs.length : Int)) % maxDelayTime := by
    intro L channel st xs h0 h1
    induction xs generalizing st with
    | nil =>
      rw [processChannel_nil, List.length_nil, Nat.cast_zero, add_zero, Int.emod_eq_of_lt h0 h1]
    | cons x xs ih =>
      rw [processChannel_cons]
      dsimp only
      have hstep : (processSample L channel st x).2.delayWriteIndex channel
          = (st.delayWriteIndex channel + 1) % maxDelayTime := by
        rw [processSample_delayWriteIndex, Function.update_same,
          tmod_eq_emod_of_nonneg _ (by omega)]
      have hnonneg : 0 ≤ (processSample L channel st x).2.delayWriteIndex channel := by
        rw [hstep]; exact Int.emod_nonneg _ (by decide)
      have hlt : (processSample L channel st x).2.delayWriteIndex channel < maxDelayTime := by
        rw [hstep]; exact Int.emod_lt_of_pos _ (by decide)
      rw [ih _ hnonneg hlt, hstep, List.length_cons, Int.emod_add_emod]
      push_cast
      rw [add_assoc, add_comm (1 : Int)]
  have processChannels_delayWriteIndex : ∀ (L : BlockLocals) (c : Nat) (st : State)
      (buffer : List (List ℝ)) (channel : Nat) (h0 : 0 ≤ st.delayWriteIndex channel)
      (h1 : st.delayWriteIndex channel < maxDelayTime),
      (processChannels L c st buffer).2.delayWriteIndex channel
        = if c ≤ channel then
            (st.delayWriteIndex channel + (((buffer.getD (channel - c) []).length : Nat) : Int))
              % maxDelayTime
          else st.delayWriteIndex channel := by
    intro L c st buffer channel h0 h1
    induction buffer generalizing c st with
    | nil =>
      rw [processChannels_nil]
      simp only [List.getD_nil, List.length_nil, Nat.cast_zero, add_zero,
        Int.emod_eq_of_lt h0 h1, ite_self]
    | cons b bs ih =>
      rw [processChannels_cons]
      dsimp only
      by_cases hc : channel = c
      · subst hc
        have hb := processChannel_delayWriteIndex L channel st b h0 h1
        have hb0 : 0 ≤ (processChannel L channel st b).2.delayWriteIndex channel := by
          rw [hb]; exact Int.emod_nonneg _ (by decide)
        have hb1 : (processChannel L channel st b).2.delayWriteIndex channel < maxDelayTime := by
          rw [hb]; exact Int.emod_lt_of_pos _ (by decide)
        rw [ih (channel + 1) _ hb0 hb1, if_neg (by omega), if_pos (le_refl _), hb]
        simp
      · have hb := processChannel_delayWriteIndex_other L c channel hc st b
        rw [ih (c + 1) _ (by rw [hb]; exact h0) (by rw [hb]; exact h1), hb]
        by_cases hle : c ≤ channel
        · have hlt : c + 1 ≤ channel := by omega
          rw [if_pos hlt, if_pos hle]
          have : channel - c = (channel - (c + 1)) + 1 := by omega
          rw [this, List.getD_cons_succ]
        · rw [if_neg (by omega), if_neg hle]
  have key : (processBlockDelay p st buffer).2.delayWriteIndex channel
      = (st.delayWriteIndex channel + (((buffer.getD channel []).length : Nat) : Int))
          % maxDelayTime := by
    unfold processBlockDelay
    rw [processChannels_delayWriteIndex _ _ _ _ _ h0 h1, if_pos (Nat.zero_le _), Nat.sub_zero]
  refine ⟨⟨?_, ?_, key⟩, ?_, ?_, ?_⟩
  · rw [key]; exact Int.emod_nonneg _ (by decide)
  · rw [key]; exact Int.emod_lt_of_pos _ (by decide)
  · intro L inputSample
    rw [processSample_delayWriteIndex, Function.update_same,
      tmod_eq_emod_of_nonneg _ (by omega)]
    rfl
  · intro sampleRate samplesPerBlock numOutputChannels hch
    unfold prepareToPlay
    simp [hch]
  · intro fuel st2 h
    unfold updateLFO at h
    dsimp only at h
    split at h
    · exact absurd h (by simp)
    · rw [← Option.some.inj h]

theorem processBlock_delayWriteIndex_witness :
    (processBlockDelay (fun _ => 0) (constructed zeroRandom 48000)
        [[1, 0, 0], [0, 1, 1]]).2.delayWriteIndex 1
      = ((constructed zeroRandom 48000).delayWriteIndex 1
          + ((([[1, 0, 0], [0, 1, 1]] : List (List ℝ)).getD 1 []).length : Nat)) % 192000 :=
  (processBlock_delayWriteIndex (fun _ => 0) (constructed zeroRandom 48000)
    [[1, 0, 0], [0, 1, 1]] 1 (by decide) (by decide)).1.2.2

/-! ## The feedback sample -/

/-- C2. The feedback sample that the sample loop of `processBlock` writes into the delay
buffer of the channel, at the write index, is `inputSample + tap * feedback` limited to
`[-1, 1]` and soft-clipped with `tanh` above magnitude 0.95, where `tap` is the EQ-filtered
tap; its magnitude is at most 1 for every input sample, every feedback and every tap value
(so for inputs in `[-1, 1]` and feedback in `[0, 0.95]`). -/
theorem processSample_feedback_bound (L : BlockLocals) (channel : Nat) (st : State)
    (inputSample : ℝ) :
    (processSample L channel st inputSample).2.delayBuffers channel (st.delayWriteIndex channel)
      = feedbackProcessing inputSample
          (applyEQFiltering (tapSample L channel st).2 (tapSample L channel st).1 channel
            L.eqHigh L.eqLow).1 L.feedback
    ∧ |(processSample L channel st inputSample).2.delayBuffers channel
        (st.delayWriteIndex channel)| ≤ 1
    ∧ ∀ tap feedback : ℝ, |feedbackProcessing inputSample tap feedback| ≤ 1 := by
  have triggerNewGrain_delayWriteIndex : ∀ (st : State) (channel : Nat) (grainSize : Int)
      (spray : ℝ) (reverse : Bool) (randomization : ℝ),
      (triggerNewGrain st channel grainSize spray reverse randomization).delayWriteIndex
        = st.delayWriteIndex := by
    intro st channel grainSize spray reverse randomization
    unfold triggerNewGrain
    split
    · rfl
    · dsimp only
      split <;> rfl
  have triggerNewGrain_delayBuffers : ∀ (st : State) (channel : Nat) (grainSize : Int) (spray : ℝ)
      (reverse : Bool) (randomization : ℝ),
      (triggerNewGrain st channel grainSize spray reverse randomization).delayBuffers
        = st.delayBuffers := by
    intro st channel grainSize spray reverse randomization
    unfold triggerNewGrain
    split
    · rfl
    · dsimp only
      split <;> rfl
  have processActiveGrains_delayWriteIndex : ∀ (st : State) (channel : Nat)
      (delayBuffer : Int → ℝ),
      (processActiveGrains st channel delayBuffer).2.delayWriteIndex = st.delayWriteIndex := by
    intro st channel delayBuffer
    exact
      rfl
  have processActiveGrains_delayBuffers : ∀ (st : State) (channel : Nat) (delayBuffer : Int → ℝ),
      (processActiveGrains st channel delayBuffer).2.delayBuffers = st.delayBuffers := by
    intro st channel delayBuffer
    exact
      rfl
  have retrigger_delayWriteIndex : ∀ (L : BlockLocals) (channel : Nat) (st : State),
      (retrigger L channel st).delayWriteIndex = st.delayWriteIndex := by
    intro L channel st
    unfold retrigger
    exact triggerNewGrain_delayWriteIndex _ _ _ _ _ _
  have retrigger_delayBuffers : ∀ (L : BlockLocals) (channel : Nat) (st : State),
      (retrigger L channel st).delayBuffers = st.delayBuffers := by
    intro L channel st
    unfold retrigger
    exact triggerNewGrain_delayBuffers _ _ _ _ _ _
  have tapSample_delayWriteIndex : ∀ (L : BlockLocals) (channel : Nat) (st : State),
      (tapSample L channel st).2.delayWriteIndex = st.delayWriteIndex := by
    intro L channel st
    unfold tapSample
    by_cases h1 : L.grainDensity > 0.1
    · rw [if_pos h1]
      dsimp only
      rw [processActiveGrains_delayWriteIndex]
      split_ifs
      · exact retrigger_delayWriteIndex _ _ _
      · rfl
    · rw [if_neg h1]
  have tapSample_delayBuffers : ∀ (L : BlockLocals) (channel : Nat) (st : State),
      (tapSample L channel st).2.delayBuffers = st.delayBuffers := by
    intro L channel st
    unfold tapSample
    by_cases h1 : L.grainDensity > 0.1
    · rw [if_pos h1]
      dsimp only
      rw [processActiveGrains_delayBuffers]
      split_ifs
      · exact retrigger_delayBuffers _ _ _
      · rfl
    · rw [if_neg h1]
  have tanh_lt_one : ∀ (x : ℝ),
      Real.tanh x < 1 := by
    intro x
    rw [Real.tanh_eq_sinh_div_cosh, div_lt_one (Real.cosh_pos x)]
    exact Real.sinh_lt_cosh x
  have neg_one_lt_tanh : ∀ (x : ℝ),
      -1 < Real.tanh x := by
    intro x
    rw [Real.tanh_eq_sinh_div_cosh, lt_div_iff₀ (Real.cosh_pos x)]
    have h := Real.sinh_lt_cosh (-x)
    rw [Real.sinh_neg, Real.cosh_neg] at h
    linarith
  have feedbackProcessing_abs_le_one : ∀ (inputSample delayedSample feedback : ℝ),
      |feedbackProcessing inputSample delayedSample feedback| ≤ 1 := by
    intro inputSample delayedSample feedback
    unfold feedbackProcessing
    dsimp only
    have hlo : (-1 : ℝ) ≤ jlimit (-1) 1 (inputSample + delayedSample * feedback) :=
      jlimit_ge _ _ _ (by norm_num)
    have hhi : jlimit (-1) 1 (inputSample + delayedSample * feedback) ≤ (1 : ℝ) :=
      jlimit_le _ _ _ (by norm_num)
    split_ifs with h1 h2
    · have ht1 := tanh_lt_one ((jlimit (-1) 1 (inputSample + delayedSample * feedback) - 0.95) * 10)
      have ht2 :=
        neg_one_lt_tanh ((jlimit (-1) 1 (inputSample + delayedSample * feedback) - 0.95) * 10)
      rw [abs_le]
      constructor <;> linarith
    · have ht1 := tanh_lt_one ((jlimit (-1) 1 (inputSample + delayedSample * feedback) + 0.95) * 10)
      have ht2 :=
        neg_one_lt_tanh ((jlimit (-1) 1 (inputSample + delayedSample * feedback) + 0.95) * 10)
      rw [abs_le]
      constructor <;> linarith
    · rw [abs_le]
      exact ⟨hlo, hhi⟩
  have processSample_delayBuffers : ∀ (L : BlockLocals) (channel : Nat) (st : State)
      (inputSample : ℝ),
      (processSample L channel st inputSample).2.delayBuffers
        = Function.update st.delayBuffers channel
            (Function.update (st.delayBuffers channel) (st.delayWriteIndex channel)
              (feedbackProcessing inputSample
                (applyEQFiltering (tapSample L channel st).2 (tapSample L channel st).1 channel
                  L.eqHigh L.eqLow).1 L.feedback)) := by
    intro L channel st inputSample
    unfold processSample
    dsimp only
    have h1 : (applyEQFiltering (tapSample L channel st).2 (tapSample L channel st).1 channel
        L.eqHigh L.eqLow).2.delayBuffers = st.delayBuffers := by
      unfold applyEQFiltering
      exact tapSample_delayBuffers L channel st
    have h2 : (applyEQFiltering (tapSample L channel st).2 (tapSample L channel st).1 channel
        L.eqHigh L.eqLow).2.delayWriteIndex = st.delayWriteIndex := by
      unfold applyEQFiltering
      exact tapSample_delayWriteIndex L channel st
    rw [h1, h2]
  have h : (processSample L channel st inputSample).2.delayBuffers channel
      (st.delayWriteIndex channel)
      = feedbackProcessing inputSample
          (applyEQFiltering (tapSample L channel st).2 (tapSample L channel st).1 channel
            L.eqHigh L.eqLow).1 L.feedback := by
    rw [processSample_delayBuffers, Function.update_same, Function.update_same]
  refine ⟨h, ?_, fun tap feedback => feedbackProcessing_abs_le_one _ _ _⟩
  rw [h]
  exact feedbackProcessing_abs_le_one _ _ _

/-! ## LFO phase and value -/

/-- C6 (as stated, refuted). The claim admits a host tempo of 120 BPM, a sample rate of 1 and
a block size of 167772160: the phase 0 is in `[0, 1)`, the frequency is 2, and the statement
`phase += ...` stores 335544320 in the `float` member. At that magnitude binary32 values are
32 apart, `335544320 - 1.0f` rounds back to 335544320, the loop condition `phase >= 1.0f`
stays true and the wrap loop of `updateLFO` does not end with any number of iterations. -/
theorem updateLFO_wrap_loop_counterexample :
    0 ≤ longBlockState.lfoState.phase ∧ longBlockState.lfoState.phase < 1
    ∧ updateLFOFrequencyF32 (syncDivisionParameters 2) longBlockState = 2
    ∧ 0 < longBlockState.currentSampleRate ∧ 0 ≤ longBlockState.currentBufferSize
    ∧ incrementedPhaseF32 (syncDivisionParameters 2) longBlockState = 335544320
    ∧ roundF32 (335544320 - 1) = 335544320
    ∧ ∀ fuel : Nat, updateLFOF32 fuel (syncDivisionParameters 2) longBlockState = none := by
  have wrapPhaseF32_succ : ∀ (fuel : Nat) (phase : ℝ),
      wrapPhaseF32 (fuel + 1) phase
        = if phase ≥ 1 then wrapPhaseF32 fuel (roundF32 (phase - 1)) else some phase := by
    intro fuel phase
    exact
      rfl
  have roundHalfEven_of_near : ∀ (y : ℝ) (m : Int) (h : |y - (m : ℝ)| < 1 / 2),
      roundHalfEven y = m := by
    intro y m h
    rw [abs_lt] at h
    unfold roundHalfEven
    by_cases hm : (m : ℝ) ≤ y
    · have hf : ⌊y⌋ = m := by
        rw [Int.floor_eq_iff]
        constructor
        · exact hm
        · linarith
      rw [hf, if_pos (by linarith)]
    · have hf : ⌊y⌋ = m - 1 := by
        rw [Int.floor_eq_iff]
        push_cast
        constructor <;> linarith
      rw [hf]
      push_cast
      rw [if_neg (by linarith), if_pos (by linarith)]
      ring
  have f32Exponent_eq : ∀ (x : ℝ) (k : Int) (hk : -126 ≤ k) (h1 : (2 : ℝ) ^ k ≤ |x|)
      (h2 : |x| < (2 : ℝ) ^ (k + 1)),
      f32Exponent x = k := by
    intro x k hk h1 h2
    have hpos : 0 < |x| := lt_of_lt_of_le (zpow_pos (by norm_num) k) h1
    have hl : Int.log 2 |x| = k := by
      apply le_antisymm
      · have := (Int.lt_zpow_iff_log_lt (b := 2) (by norm_num) hpos (x := k + 1)).mp
          (by exact_mod_cast h2)
        omega
      · exact (Int.zpow_le_iff_le_log (b := 2) (by norm_num) hpos).mp (by exact_mod_cast h1)
    unfold f32Exponent
    rw [hl]
    exact max_eq_left hk
  have roundF32_eq : ∀ (x : ℝ) (k m : Int) (hk : -126 ≤ k) (h1 : (2 : ℝ) ^ k ≤ |x|)
      (h2 : |x| < (2 : ℝ) ^ (k + 1))
      (h3 : |x - (m : ℝ) * (2 : ℝ) ^ (k - 23)| < (2 : ℝ) ^ (k - 23) / 2),
      roundF32 x = (m : ℝ) * (2 : ℝ) ^ (k - 23) := by
    intro x k m hk h1 h2 h3
    have hu : (0 : ℝ) < (2 : ℝ) ^ (k - 23) := zpow_pos (by norm_num) _
    unfold roundF32 f32Ulp
    rw [f32Exponent_eq x k hk h1 h2]
    rw [roundHalfEven_of_near _ m]
    have he : x / (2 : ℝ) ^ (k - 23) - (m : ℝ)
        = (x - (m : ℝ) * (2 : ℝ) ^ (k - 23)) / (2 : ℝ) ^ (k - 23) := by
      rw [sub_div, mul_div_assoc, div_self (ne_of_gt hu), mul_one]
    rw [he, abs_div, abs_of_pos hu, div_lt_iff₀ hu]
    linarith
  have roundF32_pos : ∀ (x : ℝ) (k m : Int) (hk : -126 ≤ k) (h1 : (2 : ℝ) ^ k ≤ x)
      (h2 : x < (2 : ℝ) ^ (k + 1)) (h3 : ((m : ℝ) - 1 / 2) * (2 : ℝ) ^ (k - 23) < x)
      (h4 : x < ((m : ℝ) + 1 / 2) * (2 : ℝ) ^ (k - 23)),
      roundF32 x = (m : ℝ) * (2 : ℝ) ^ (k - 23) := by
    intro x k m hk h1 h2 h3 h4
    have hx : 0 < x := lt_of_lt_of_le (zpow_pos (by norm_num) k) h1
    apply roundF32_eq x k m hk
    · rw [abs_of_pos hx]
      exact h1
    · rw [abs_of_pos hx]
      exact h2
    · rw [abs_lt]
      constructor <;> linarith
  have wrapPhaseF32_stuck : ∀ (fuel : Nat),
      wrapPhaseF32 fuel 335544320 = none := by
    intro fuel
    have hr : roundF32 (335544320 - 1) = 335544320 := by
      have := roundF32_pos (335544320 - 1) 28 10485760 (by norm_num) (by norm_num) (by norm_num)
        (by norm_num) (by norm_num)
      rw [this]
      norm_num
    induction fuel with
    | zero => rfl
    | succ n ih =>
      rw [wrapPhaseF32_succ, if_pos (by norm_num), hr]
      exact ih
  have roundF32_two :
      roundF32 2 = 2 := by
    have := roundF32_pos 2 1 8388608 (by norm_num) (by norm_num) (by norm_num) (by norm_num)
      (by norm_num)
    rw [this]
    norm_num
  have roundF32_large :
      roundF32 335544320 = 335544320 := by
    have := roundF32_pos 335544320 28 10485760 (by norm_num) (by norm_num) (by norm_num)
      (by norm_num) (by norm_num)
    rw [this]
    norm_num
  have roundF32_large_sub_one :
      roundF32 (335544320 - 1) = 335544320 := by
    have := roundF32_pos (335544320 - 1) 28 10485760 (by norm_num) (by norm_num) (by norm_num)
      (by norm_num) (by norm_num)
    rw [this]
    norm_num
  have updateLFOFrequencyF32_sync : ∀ (st : State) (h : st.getPlayHead = some ⟨some ⟨some 120⟩⟩),
      updateLFOFrequencyF32 (syncDivisionParameters 2) st = 2 := by
    intro st h
    have hsync : syncDivisionParameters 2 "lfoTempoSync" = 1 := by
      unfold syncDivisionParameters; simp
    have hdiv : syncDivisionParameters 2 "lfoSyncDivision" = 2 := by
      unfold syncDivisionParameters; simp
    unfold updateLFOFrequencyF32
    dsimp only
    rw [if_pos (decide_eq_true (by rw [hsync]; norm_num)), hdiv, h]
    dsimp only
    have h60 : (120 : ℝ) / 60 = 2 := by norm_num
    rw [h60, roundF32_two, if_neg (by norm_num), if_neg (by norm_num), div_one, roundF32_two]
  have longBlock_incrementedPhase :
      incrementedPhaseF32 (syncDivisionParameters 2) longBlockState = 335544320 := by
    unfold incrementedPhaseF32
    rw [updateLFOFrequencyF32_sync longBlockState rfl]
    have h : longBlockState.lfoState.phase
        + 2 * (1 / longBlockState.currentSampleRate) * (longBlockState.currentBufferSize : ℝ)
        = 335544320 := by
      unfold longBlockState prepareToPlay
      norm_num
    rw [h, roundF32_large]
  refine ⟨?_, ?_, updateLFOFrequencyF32_sync longBlockState rfl, ?_, ?_,
    longBlock_incrementedPhase, roundF32_large_sub_one, ?_⟩
  · unfold longBlockState prepareToPlay
    norm_num
  · unfold longBlockState prepareToPlay
    norm_num
  · unfold longBlockState prepareToPlay
    norm_num
  · unfold longBlockState prepareToPlay
    norm_num
  · intro fuel
    unfold updateLFOF32
    rw [longBlock_incrementedPhase, wrapPhaseF32_stuck fuel]

/-- C6 (amended). For a phase `>= 0` (so for every phase in `[0, 1)`), a frequency `>= 0`
after the frequency update, a sample rate `> 0` and a block size `>= 0`, whenever the value
that `phase += frequency * (1.0f / sampleRate) * blockSize` stores in the `float` member is at
most `2 ^ 24 = 16777216`, the wrap loop of `updateLFO` ends (within the integer part of the
stored value plus one tests of its condition, and with any larger bound) and `updateLFO`
leaves the phase in `[0, 1)`, equal to the fractional part of the stored value: every
subtraction of `1.0f` is exact there. The loop does so from every binary32 value in
`[0, 2 ^ 24]`, however the stored value was rounded. The frequency is `>= 0` in free-running
mode for every rate control `>= 0`, and in tempo-synced mode for every host BPM `>= 0`. -/
theorem updateLFO_phase_binary32 (p : Parameters) (st : State)
    (hp0 : 0 ≤ st.lfoState.phase) (hf : 0 ≤ updateLFOFrequencyF32 p st)
    (hsr : 0 < st.currentSampleRate) (hb : 0 ≤ st.currentBufferSize)
    (h24 : incrementedPhaseF32 p st ≤ 16777216) :
    (∀ fuel : Nat, ⌊incrementedPhaseF32 p st⌋₊ < fuel →
      ∃ st2 : State, updateLFOF32 fuel p st = some st2
        ∧ st2.lfoState.phase = Int.fract (incrementedPhaseF32 p st)
        ∧ 0 ≤ st2.lfoState.phase ∧ st2.lfoState.phase < 1
        ∧ st2.lfoState.frequency = updateLFOFrequencyF32 p st)
    ∧ (∀ (v : ℝ) (fuel : Nat), IsF32 v → 0 ≤ v → v ≤ 16777216 → ⌊v⌋₊ < fuel →
        wrapPhaseF32 fuel v = some (Int.fract v))
    ∧ IsF32 (incrementedPhaseF32 p st) ∧ 0 ≤ incrementedPhaseF32 p st
    ∧ (¬ p "lfoTempoSync" > 0.5 → 0 ≤ p "lfoRate" → 0 ≤ updateLFOFrequencyF32 p st)
    ∧ (∀ bpm : ℝ, p "lfoTempoSync" > 0.5 → st.getPlayHead = some ⟨some ⟨some bpm⟩⟩ →
        0 ≤ bpm → 0 ≤ updateLFOFrequencyF32 p st) := by
  have wrapPhaseF32_succ : ∀ (fuel : Nat) (phase : ℝ),
      wrapPhaseF32 (fuel + 1) phase
        = if phase ≥ 1 then wrapPhaseF32 fuel (roundF32 (phase - 1)) else some phase := by
    intro fuel phase
    exact
      rfl
  have roundHalfEven_of_near : ∀ (y : ℝ) (m : Int) (h : |y - (m : ℝ)| < 1 / 2),
      roundHalfEven y = m := by
    intro y m h
    rw [abs_lt] at h
    unfold roundHalfEven
    by_cases hm : (m : ℝ) ≤ y
    · have hf : ⌊y⌋ = m := by
        rw [Int.floor_eq_iff]
        constructor
        · exact hm
        · linarith
      rw [hf, if_pos (by linarith)]
    · have hf : ⌊y⌋ = m - 1 := by
        rw [Int.floor_eq_iff]
        push_cast
        constructor <;> linarith
      rw [hf]
      push_cast
      rw [if_neg (by linarith), if_pos (by linarith)]
      ring
  have f32Exponent_eq : ∀ (x : ℝ) (k : Int) (hk : -126 ≤ k) (h1 : (2 : ℝ) ^ k ≤ |x|)
      (h2 : |x| < (2 : ℝ) ^ (k + 1)),
      f32Exponent x = k := by
    intro x k hk h1 h2
    have hpos : 0 < |x| := lt_of_lt_of_le (zpow_pos (by norm_num) k) h1
    have hl : Int.log 2 |x| = k := by
      apply le_antisymm
      · have := (Int.lt_zpow_iff_log_lt (b := 2) (by norm_num) hpos (x := k + 1)).mp
          (by exact_mod_cast h2)
        omega
      · exact (Int.zpow_le_iff_le_log (b := 2) (by norm_num) hpos).mp (by exact_mod_cast h1)
    unfold f32Exponent
    rw [hl]
    exact max_eq_left hk
  have roundF32_eq : ∀ (x : ℝ) (k m : Int) (hk : -126 ≤ k) (h1 : (2 : ℝ) ^ k ≤ |x|)
      (h2 : |x| < (2 : ℝ) ^ (k + 1))
      (h3 : |x - (m : ℝ) * (2 : ℝ) ^ (k - 23)| < (2 : ℝ) ^ (k - 23) / 2),
      roundF32 x = (m : ℝ) * (2 : ℝ) ^ (k - 23) := by
    intro x k m hk h1 h2 h3
    have hu : (0 : ℝ) < (2 : ℝ) ^ (k - 23) := zpow_pos (by norm_num) _
    unfold roundF32 f32Ulp
    rw [f32Exponent_eq x k hk h1 h2]
    rw [roundHalfEven_of_near _ m]
    have he : x / (2 : ℝ) ^ (k - 23) - (m : ℝ)
        = (x - (m : ℝ) * (2 : ℝ) ^ (k - 23)) / (2 : ℝ) ^ (k - 23) := by
      rw [sub_div, mul_div_assoc, div_self (ne_of_gt hu), mul_one]
    rw [he, abs_div, abs_of_pos hu, div_lt_iff₀ hu]
    linarith
  have roundF32_pos : ∀ (x : ℝ) (k m : Int) (hk : -126 ≤ k) (h1 : (2 : ℝ) ^ k ≤ x)
      (h2 : x < (2 : ℝ) ^ (k + 1)) (h3 : ((m : ℝ) - 1 / 2) * (2 : ℝ) ^ (k - 23) < x)
      (h4 : x < ((m : ℝ) + 1 / 2) * (2 : ℝ) ^ (k - 23)),
      roundF32 x = (m : ℝ) * (2 : ℝ) ^ (k - 23) := by
    intro x k m hk h1 h2 h3 h4
    have hx : 0 < x := lt_of_lt_of_le (zpow_pos (by norm_num) k) h1
    apply roundF32_eq x k m hk
    · rw [abs_of_pos hx]
      exact h1
    · rw [abs_of_pos hx]
      exact h2
    · rw [abs_lt]
      constructor <;> linarith
  have f32_tenth :
      roundF32 0.1 = 13421773 / 134217728 := by
    have := roundF32_pos 0.1 (-4) 13421773 (by norm_num) (by norm_num) (by norm_num) (by norm_num)
      (by norm_num)
    rw [this]
    norm_num
  have f32Ulp_pos : ∀ (x : ℝ),
      0 < f32Ulp x := by
    intro x
    exact
      zpow_pos (by norm_num) _
  have f32Exponent_ge : ∀ (x : ℝ),
      -126 ≤ f32Exponent x := by
    intro x
    exact
      le_max_right _ _
  have zpow_split : ∀ (a b : Int) (h : b ≤ a),
      (2 : ℝ) ^ a = (((2 : Int) ^ (a - b).toNat : Int) : ℝ) * (2 : ℝ) ^ b := by
    intro a b h
    push_cast
    rw [← zpow_natCast, Int.toNat_of_nonneg (by omega), ← zpow_add₀ (by norm_num)]
    congr 1
    omega
  have isF32_zero :
      IsF32 0 := by
    exact
      ⟨0, by simp⟩
  have isF32_of_multiple : ∀ (r : ℝ) (M k : Int) (hr : r = (M : ℝ) * (2 : ℝ) ^ (k - 23))
      (hk : f32Exponent r ≤ k),
      IsF32 r := by
    intro r M k hr hk
    unfold IsF32 f32Ulp
    generalize f32Exponent r = e at hk
    refine ⟨M * (2 : Int) ^ (k - e).toNat, ?_⟩
    rw [hr, zpow_split (k - 23) (e - 23) (by omega)]
    have he : (k - 23 - (e - 23)).toNat = (k - e).toNat := by
      congr 1
      omega
    rw [he]
    push_cast
    ring
  have roundHalfEven_intCast : ∀ (m : Int),
      roundHalfEven (m : ℝ) = m := by
    intro m
    exact
      roundHalfEven_of_near _ m (by simp)
  have roundF32_of_isF32 : ∀ (y : ℝ) (h : IsF32 y),
      roundF32 y = y := by
    intro y h
    obtain ⟨m, hm⟩ := h
    unfold roundF32
    have hd : y / f32Ulp y = (m : ℝ) := by
      rw [div_eq_iff (ne_of_gt (f32Ulp_pos y))]
      exact hm
    rw [hd, roundHalfEven_intCast]
    exact hm.symm
  have f32Exponent_le_of_lt : ∀ (x : ℝ) (k : Int) (hk : -126 ≤ k) (hx : x ≠ 0)
      (h : |x| < (2 : ℝ) ^ (k + 1)),
      f32Exponent x ≤ k := by
    intro x k hk hx h
    unfold f32Exponent
    apply max_le _ hk
    have hpos : 0 < |x| := abs_pos.mpr hx
    have := (Int.lt_zpow_iff_log_lt (b := 2) (by norm_num) hpos (x := k + 1)).mp
      (by exact_mod_cast h)
    omega
  have abs_lt_zpow_f32Exponent : ∀ (x : ℝ),
      |x| < (2 : ℝ) ^ (f32Exponent x + 1) := by
    intro x
    have h1 : |x| < ((2 : ℕ) : ℝ) ^ (Int.log 2 |x| + 1) :=
      Int.lt_zpow_succ_log_self (by norm_num) _
    have h2 : (2 : ℝ) ^ (Int.log 2 |x| + 1) ≤ (2 : ℝ) ^ (f32Exponent x + 1) :=
      zpow_le_zpow_right₀ (by norm_num) (by unfold f32Exponent; have := le_max_left (Int.log 2 |x|) (-126); omega)
    exact lt_of_lt_of_le (by exact_mod_cast h1) h2
  have isF32_sub_one : ∀ (v : ℝ) (hv : IsF32 v) (h1 : 1 ≤ v) (h2 : v ≤ 16777216),
      IsF32 (v - 1) := by
    intro v hv h1 h2
    by_cases hz : v - 1 = 0
    · rw [hz]
      exact isF32_zero
    · have hv0 : v ≠ 0 := by
        intro h
        rw [h] at h1
        norm_num at h1
      have hpos : 0 < v - 1 := lt_of_le_of_ne (by linarith) (Ne.symm hz)
      have habs : |v - 1| < (2 : ℝ) ^ ((23 : Int) + 1) := by
        rw [abs_of_pos hpos]
        norm_num
        linarith
      have he23 : f32Exponent (v - 1) ≤ 23 := f32Exponent_le_of_lt _ 23 (by norm_num) hz habs
      have hmono : f32Exponent (v - 1) ≤ f32Exponent v := by
        apply f32Exponent_le_of_lt _ _ (f32Exponent_ge v) hz
        have := abs_lt_zpow_f32Exponent v
        rw [abs_of_pos hpos]
        rw [abs_of_pos (by linarith)] at this
        linarith
      obtain ⟨m, hm⟩ := hv
      unfold f32Ulp at hm
      unfold IsF32 f32Ulp
      generalize f32Exponent (v - 1) = e at he23 hmono
      generalize f32Exponent v = ev at hm hmono
      refine ⟨m * (2 : Int) ^ (ev - e).toNat - (2 : Int) ^ (23 - e).toNat, ?_⟩
      have h1e : (1 : ℝ) = (((2 : Int) ^ (23 - e).toNat : Int) : ℝ) * (2 : ℝ) ^ (e - 23) := by
        have := zpow_split 0 (e - 23) (by omega)
        rw [zpow_zero] at this
        have he : (0 - (e - 23)).toNat = (23 - e).toNat := by
          congr 1
          omega
        rw [he] at this
        exact this
      have h2e := zpow_split (ev - 23) (e - 23) (by omega)
      have he2 : (ev - 23 - (e - 23)).toNat = (ev - e).toNat := by
        congr 1
        omega
      rw [he2] at h2e
      rw [hm, h2e]
      push_cast
      push_cast at h1e
      nth_rewrite 1 [h1e]
      ring
  have wrapPhaseF32_exact : ∀ (fuel : Nat),
      ∀ v : ℝ, IsF32 v → 0 ≤ v → v ≤ 16777216 → ⌊v⌋₊ < fuel →
        wrapPhaseF32 fuel v = some (Int.fract v) := by
    intro fuel
    induction fuel with
    | zero =>
      intro v _ _ _ hfuel
      exact absurd hfuel (Nat.not_lt_zero _)
    | succ n ih =>
      intro v hv h0 h24 hfuel
      rw [wrapPhaseF32_succ]
      by_cases hx : v ≥ 1
      · rw [if_pos hx]
        have hfl : ⌊v - 1⌋₊ = ⌊v⌋₊ - 1 := Nat.floor_sub_one v
        have hpos : 1 ≤ ⌊v⌋₊ := Nat.le_floor (by simpa using hx)
        have hsub := isF32_sub_one v hv hx h24
        rw [roundF32_of_isF32 _ hsub, ih (v - 1) hsub (by linarith) (by linarith) (by omega)]
        congr 1
        exact Int.fract_sub_one v
      · rw [if_neg hx]
        congr 1
        exact (Int.fract_eq_self.mpr ⟨h0, lt_of_not_ge hx⟩).symm
  have roundHalfEven_near : ∀ (y : ℝ),
      |((roundHalfEven y : Int) : ℝ) - y| ≤ 1 / 2 := by
    intro y
    have h1 := Int.floor_le y
    have h2 := Int.lt_floor_add_one y
    unfold roundHalfEven
    rw [abs_le]
    split_ifs with ha hb hc
    · constructor <;> linarith
    · push_cast
      constructor <;> linarith
    · constructor <;> linarith
    · push_cast
      constructor <;> linarith
  have roundHalfEven_nonneg : ∀ (y : ℝ) (h : 0 ≤ y),
      0 ≤ roundHalfEven y := by
    intro y h
    have h0 : 0 ≤ ⌊y⌋ := Int.floor_nonneg.mpr h
    unfold roundHalfEven
    split_ifs <;> omega
  have roundF32_nonneg : ∀ (x : ℝ) (h : 0 ≤ x),
      0 ≤ roundF32 x := by
    intro x h
    unfold roundF32
    apply mul_nonneg _ (le_of_lt (f32Ulp_pos x))
    exact_mod_cast roundHalfEven_nonneg _ (div_nonneg h (le_of_lt (f32Ulp_pos x)))
  have isF32_roundF32 : ∀ (x : ℝ),
      IsF32 (roundF32 x) := by
    intro x
    have hu : (0 : ℝ) < (2 : ℝ) ^ (f32Exponent x - 23) := zpow_pos (by norm_num) _
    have hk := f32Exponent_ge x
    have hx := abs_lt_zpow_f32Exponent x
    have hnear := roundHalfEven_near (x / f32Ulp x)
    unfold roundF32
    unfold f32Ulp at hnear ⊢
    generalize f32Exponent x = k at hu hk hx hnear
    generalize roundHalfEven (x / (2 : ℝ) ^ (k - 23)) = M at hnear
    have hsplit : (2 : ℝ) ^ (k + 1) = 16777216 * (2 : ℝ) ^ (k - 23) := by
      have := zpow_split (k + 1) (k - 23) (by omega)
      have he : (k + 1 - (k - 23)).toNat = 24 := by
        have : k + 1 - (k - 23) = 24 := by omega
        rw [this]
        rfl
      rw [he] at this
      rw [this]
      norm_num
    have hxu : |x / (2 : ℝ) ^ (k - 23)| < 16777216 := by
      rw [abs_div, abs_of_pos hu, div_lt_iff₀ hu, ← hsplit]
      exact hx
    have hM : |(M : ℝ)| < 16777216 + 1 := by
      rw [abs_lt] at hxu ⊢
      rw [abs_le] at hnear
      constructor <;> linarith
    have hMi : |M| ≤ 16777216 := by
      have : |M| < 16777216 + 1 := by exact_mod_cast hM
      omega
    by_cases hM0 : M = 0
    · rw [hM0]
      simp only [Int.cast_zero, zero_mul]
      exact isF32_zero
    · by_cases hmax : |M| = 16777216
      · have hM2 : M = 2 * (M / 2) := by
          rcases abs_eq (by norm_num : (0 : Int) ≤ 16777216) |>.mp hmax with h | h <;> rw [h] <;> rfl
        apply isF32_of_multiple _ (M / 2) (k + 1)
        · have hz : (2 : ℝ) ^ (k + 1 - 23) = 2 * (2 : ℝ) ^ (k - 23) := by
            have : k + 1 - 23 = (k - 23) + 1 := by omega
            rw [this, zpow_add_one₀ (by norm_num)]
            ring
          rw [hz]
          nth_rewrite 1 [hM2]
          push_cast
          ring
        · apply f32Exponent_le_of_lt _ _ (by omega)
          · exact mul_ne_zero (by exact_mod_cast hM0) (ne_of_gt hu)
          · have habs : |(M : ℝ)| = 16777216 := by exact_mod_cast hmax
            rw [abs_mul, abs_of_pos hu, habs, ← hsplit]
            exact zpow_lt_zpow_right₀ (by norm_num) (by omega)
      · apply isF32_of_multiple _ M k rfl
        apply f32Exponent_le_of_lt _ _ hk
        · exact mul_ne_zero (by exact_mod_cast hM0) (ne_of_gt hu)
        · have hlt : |M| < 16777216 := lt_of_le_of_ne hMi hmax
          have habs : |(M : ℝ)| < 16777216 := by exact_mod_cast hlt
          rw [abs_mul, abs_of_pos hu, hsplit]
          exact mul_lt_mul_of_pos_right habs hu
  have jmapF32_nonneg : ∀ (v t : ℝ) (hv : 0 ≤ v) (ht0 : 0 ≤ t) (ht1 : t ≤ 10),
      0 ≤ jmapF32 v 0 100 t 10 := by
    intro v t hv ht0 ht1
    unfold jmapF32
    apply roundF32_nonneg
    apply add_nonneg ht0
    apply roundF32_nonneg
    apply div_nonneg
    · apply roundF32_nonneg
      apply mul_nonneg
      · exact roundF32_nonneg _ (by linarith)
      · exact roundF32_nonneg _ (by linarith)
    · exact roundF32_nonneg _ (by norm_num)
  have hisf : IsF32 (incrementedPhaseF32 p st) := by
    unfold incrementedPhaseF32
    exact isF32_roundF32 _
  have hnn : 0 ≤ incrementedPhaseF32 p st := by
    unfold incrementedPhaseF32
    apply roundF32_nonneg
    apply add_nonneg hp0
    apply mul_nonneg (mul_nonneg hf (div_nonneg (by norm_num) (le_of_lt hsr)))
    exact_mod_cast hb
  refine ⟨?_, fun v fuel hv h0 h1 hfuel => wrapPhaseF32_exact fuel v hv h0 h1 hfuel,
    hisf, hnn, ?_, ?_⟩
  · intro fuel hfuel
    have hwrap := wrapPhaseF32_exact fuel _ hisf hnn h24 hfuel
    unfold updateLFOF32
    rw [hwrap]
    exact ⟨_, rfl, rfl, Int.fract_nonneg _, Int.fract_lt_one _, rfl⟩
  · intro hsync hrate
    unfold updateLFOFrequencyF32
    simp only [hsync, decide_False, Bool.false_eq_true, if_false]
    apply jmapF32_nonneg _ _ hrate (roundF32_nonneg _ (by norm_num))
    rw [f32_tenth]
    norm_num
  · intro bpm hsync hhead hbpm
    unfold updateLFOFrequencyF32
    simp only [hsync, decide_True, if_true, hhead]
    apply roundF32_nonneg
    apply div_nonneg (roundF32_nonneg _ (div_nonneg hbpm (by norm_num)))
    split_ifs <;> norm_num

theorem updateLFO_phase_binary32_witness :
    incrementedPhaseF32 (syncDivisionParameters 2) oneSecondBlockState = 2
    ∧ ∃ st2 : State, updateLFOF32 3 (syncDivisionParameters 2) oneSecondBlockState = some st2
      ∧ st2.lfoState.phase
        = Int.fract (incrementedPhaseF32 (syncDivisionParameters 2) oneSecondBlockState)
      ∧ 0 ≤ st2.lfoState.phase ∧ st2.lfoState.phase < 1
      ∧ st2.lfoState.frequency
        = updateLFOFrequencyF32 (syncDivisionParameters 2) oneSecondBlockState := by
  have roundHalfEven_of_near : ∀ (y : ℝ) (m : Int) (h : |y - (m : ℝ)| < 1 / 2),
      roundHalfEven y = m := by
    intro y m h
    rw [abs_lt] at h
    unfold roundHalfEven
    by_cases hm : (m : ℝ) ≤ y
    · have hf : ⌊y⌋ = m := by
        rw [Int.floor_eq_iff]
        constructor
        · exact hm
        · linarith
      rw [hf, if_pos (by linarith)]
    · have hf : ⌊y⌋ = m - 1 := by
        rw [Int.floor_eq_iff]
        push_cast
        constructor <;> linarith
      rw [hf]
      push_cast
      rw [if_neg (by linarith), if_pos (by linarith)]
      ring
  have f32Exponent_eq : ∀ (x : ℝ) (k : Int) (hk : -126 ≤ k) (h1 : (2 : ℝ) ^ k ≤ |x|)
      (h2 : |x| < (2 : ℝ) ^ (k + 1)),
      f32Exponent x = k := by
    intro x k hk h1 h2
    have hpos : 0 < |x| := lt_of_lt_of_le (zpow_pos (by norm_num) k) h1
    have hl : Int.log 2 |x| = k := by
      apply le_antisymm
      · have := (Int.lt_zpow_iff_log_lt (b := 2) (by norm_num) hpos (x := k + 1)).mp
          (by exact_mod_cast h2)
        omega
      · exact (Int.zpow_le_iff_le_log (b := 2) (by norm_num) hpos).mp (by exact_mod_cast h1)
    unfold f32Exponent
    rw [hl]
    exact max_eq_left hk
  have roundF32_eq : ∀ (x : ℝ) (k m : Int) (hk : -126 ≤ k) (h1 : (2 : ℝ) ^ k ≤ |x|)
      (h2 : |x| < (2 : ℝ) ^ (k + 1))
      (h3 : |x - (m : ℝ) * (2 : ℝ) ^ (k - 23)| < (2 : ℝ) ^ (k - 23) / 2),
      roundF32 x = (m : ℝ) * (2 : ℝ) ^ (k - 23) := by
    intro x k m hk h1 h2 h3
    have hu : (0 : ℝ) < (2 : ℝ) ^ (k - 23) := zpow_pos (by norm_num) _
    unfold roundF32 f32Ulp
    rw [f32Exponent_eq x k hk h1 h2]
    rw [roundHalfEven_of_near _ m]
    have he : x / (2 : ℝ) ^ (k - 23) - (m : ℝ)
        = (x - (m : ℝ) * (2 : ℝ) ^ (k - 23)) / (2 : ℝ) ^ (k - 23) := by
      rw [sub_div, mul_div_assoc, div_self (ne_of_gt hu), mul_one]
    rw [he, abs_div, abs_of_pos hu, div_lt_iff₀ hu]
    linarith
  have roundF32_pos : ∀ (x : ℝ) (k m : Int) (hk : -126 ≤ k) (h1 : (2 : ℝ) ^ k ≤ x)
      (h2 : x < (2 : ℝ) ^ (k + 1)) (h3 : ((m : ℝ) - 1 / 2) * (2 : ℝ) ^ (k - 23) < x)
      (h4 : x < ((m : ℝ) + 1 / 2) * (2 : ℝ) ^ (k - 23)),
      roundF32 x = (m : ℝ) * (2 : ℝ) ^ (k - 23) := by
    intro x k m hk h1 h2 h3 h4
    have hx : 0 < x := lt_of_lt_of_le (zpow_pos (by norm_num) k) h1
    apply roundF32_eq x k m hk
    · rw [abs_of_pos hx]
      exact h1
    · rw [abs_of_pos hx]
      exact h2
    · rw [abs_lt]
      constructor <;> linarith
  have roundF32_two :
      roundF32 2 = 2 := by
    have := roundF32_pos 2 1 8388608 (by norm_num) (by norm_num) (by norm_num) (by norm_num)
      (by norm_num)
    rw [this]
    norm_num
  have updateLFOFrequencyF32_sync : ∀ (st : State) (h : st.getPlayHead = some ⟨some ⟨some 120⟩⟩),
      updateLFOFrequencyF32 (syncDivisionParameters 2) st = 2 := by
    intro st h
    have hsync : syncDivisionParameters 2 "lfoTempoSync" = 1 := by
      unfold syncDivisionParameters; simp
    have hdiv : syncDivisionParameters 2 "lfoSyncDivision" = 2 := by
      unfold syncDivisionParameters; simp
    unfold updateLFOFrequencyF32
    dsimp only
    rw [if_pos (decide_eq_true (by rw [hsync]; norm_num)), hdiv, h]
    dsimp only
    have h60 : (120 : ℝ) / 60 = 2 := by norm_num
    rw [h60, roundF32_two, if_neg (by norm_num), if_neg (by norm_num), div_one, roundF32_two]
  have oneSecondBlock_incrementedPhase :
      incrementedPhaseF32 (syncDivisionParameters 2) oneSecondBlockState = 2 := by
    unfold incrementedPhaseF32
    rw [updateLFOFrequencyF32_sync oneSecondBlockState rfl]
    have h : oneSecondBlockState.lfoState.phase
        + 2 * (1 / oneSecondBlockState.currentSampleRate)
          * (oneSecondBlockState.currentBufferSize : ℝ) = 2 := by
      unfold oneSecondBlockState prepareToPlay
      norm_num
    rw [h, roundF32_two]
  exact
    ⟨oneSecondBlock_incrementedPhase,
      (updateLFO_phase_binary32 (syncDivisionParameters 2) oneSecondBlockState
        (by unfold oneSecondBlockState prepareToPlay; norm_num)
        (by rw [updateLFOFrequencyF32_sync oneSecondBlockState rfl]; norm_num)
        (by unfold oneSecondBlockState prepareToPlay; norm_num)
        (by unfold oneSecondBlockState prepareToPlay; norm_num)
        (by rw [oneSecondBlock_incrementedPhase]; norm_num)).1 3
        (by rw [oneSecondBlock_incrementedPhase]; norm_num)⟩

/-- C7. For every phase in `[0, 1)`, whatever the waveform control (sine below 0.5, the
piecewise-linear triangle otherwise), `getLFOValue` returns a value in `[-1, 1]` when bipolar
is set and a value in `[0, 1]` when bipolar is not set. -/
theorem getLFOValue_range (p : Parameters) (st : State) (hp0 : 0 ≤ st.lfoState.phase)
    (hp1 : st.lfoState.phase < 1) :
    (p "lfoBipolar" > 0.5 → -1 ≤ getLFOValue p st ∧ getLFOValue p st ≤ 1)
    ∧ (¬ p "lfoBipolar" > 0.5 → 0 ≤ getLFOValue p st ∧ getLFOValue p st ≤ 1) := by
  have hsin1 := Real.sin_le_one (st.lfoState.phase * 2 * Real.pi)
  have hsin2 := Real.neg_one_le_sin (st.lfoState.phase * 2 * Real.pi)
  constructor
  · intro hb
    unfold getLFOValue
    simp only [hb, decide_True, Bool.not_true, Bool.false_eq_true, if_false]
    split_ifs <;> constructor <;> linarith
  · intro hb
    unfold getLFOValue
    simp only [hb, decide_False, Bool.not_false, if_true]
    split_ifs <;> constructor <;> linarith

theorem getLFOValue_range_witness :
    0 ≤ getLFOValue (fun _ => 0) (constructed zeroRandom 48000)
    ∧ getLFOValue (fun _ => 0) (constructed zeroRandom 48000) ≤ 1 :=
  (getLFOValue_range (fun _ => 0) (constructed zeroRandom 48000)
    (by unfold constructed; simp) (by unfold constructed; simp)).2 (by norm_num)

/-- C8. For every pan position (so for every one in `[-1, 1]`), the gains of `processPanning`,
`leftGain = cos ((p + 1) * 0.25 * pi)` and `rightGain = sin ((p + 1) * 0.25 * pi)`, satisfy
`leftGain ^ 2 + rightGain ^ 2 = 1`. -/
theorem panGains_equal_power (panPos : ℝ) :
    (panGains panPos).1 = Real.cos ((panPos + 1) * 0.25 * Real.pi)
    ∧ (panGains panPos).2 = Real.sin ((panPos + 1) * 0.25 * Real.pi)
    ∧ (panGains panPos).1 ^ 2 + (panGains panPos).2 ^ 2 = 1 :=
  ⟨rfl, rfl, Real.cos_sq_add_sin_sq _⟩

/-! ## The retrigger interval -/

/-- C10 (as stated, refuted). With grain size 2880 samples and the binary32 density 0.75,
which is above `0.1f` and at most 4, the density factor `jmap (0.75f, 0.1f, 4, 0.1f, 4)` is
`12582913 / 16777216 = 0.75000006`, not 0.75; the base interval is then 1919 and a sample
that triggers schedules the next trigger 1919 samples later, whatever the generator
returns, while `max (1, floor (2880 * 0.5 / 0.75))` is 1920. -/
theorem retrigger_interval_counterexample :
    roundF32 0.1 < 0.75 ∧ (0.75 : ℝ) ≤ 4 ∧ IsF32 0.75
    ∧ densityFactorF32 0.75 = 12582913 / 16777216
    ∧ densityFactorF32 0.75 ≠ 0.75
    ∧ baseIntervalF32 2880 0.75 = 1919
    ∧ (∀ (nextFloat : ℝ) (countdown : Int), countdown - 1 ≤ 0 →
        countdownStepF32 2880 0.75 0 nextFloat countdown = (true, 1919))
    ∧ max 1 ⌊((2880 : Int) : ℝ) * 0.5 / 0.75⌋ = 1920 := by
  have roundHalfEven_of_near : ∀ (y : ℝ) (m : Int) (h : |y - (m : ℝ)| < 1 / 2),
      roundHalfEven y = m := by
    intro y m h
    rw [abs_lt] at h
    unfold roundHalfEven
    by_cases hm : (m : ℝ) ≤ y
    · have hf : ⌊y⌋ = m := by
        rw [Int.floor_eq_iff]
        constructor
        · exact hm
        · linarith
      rw [hf, if_pos (by linarith)]
    · have hf : ⌊y⌋ = m - 1 := by
        rw [Int.floor_eq_iff]
        push_cast
        constructor <;> linarith
      rw [hf]
      push_cast
      rw [if_neg (by linarith), if_pos (by linarith)]
      ring
  have f32Exponent_eq : ∀ (x : ℝ) (k : Int) (hk : -126 ≤ k) (h1 : (2 : ℝ) ^ k ≤ |x|)
      (h2 : |x| < (2 : ℝ) ^ (k + 1)),
      f32Exponent x = k := by
    intro x k hk h1 h2
    have hpos : 0 < |x| := lt_of_lt_of_le (zpow_pos (by norm_num) k) h1
    have hl : Int.log 2 |x| = k := by
      apply le_antisymm
      · have := (Int.lt_zpow_iff_log_lt (b := 2) (by norm_num) hpos (x := k + 1)).mp
          (by exact_mod_cast h2)
        omega
      · exact (Int.zpow_le_iff_le_log (b := 2) (by norm_num) hpos).mp (by exact_mod_cast h1)
    unfold f32Exponent
    rw [hl]
    exact max_eq_left hk
  have roundF32_eq : ∀ (x : ℝ) (k m : Int) (hk : -126 ≤ k) (h1 : (2 : ℝ) ^ k ≤ |x|)
      (h2 : |x| < (2 : ℝ) ^ (k + 1))
      (h3 : |x - (m : ℝ) * (2 : ℝ) ^ (k - 23)| < (2 : ℝ) ^ (k - 23) / 2),
      roundF32 x = (m : ℝ) * (2 : ℝ) ^ (k - 23) := by
    intro x k m hk h1 h2 h3
    have hu : (0 : ℝ) < (2 : ℝ) ^ (k - 23) := zpow_pos (by norm_num) _
    unfold roundF32 f32Ulp
    rw [f32Exponent_eq x k hk h1 h2]
    rw [roundHalfEven_of_near _ m]
    have he : x / (2 : ℝ) ^ (k - 23) - (m : ℝ)
        = (x - (m : ℝ) * (2 : ℝ) ^ (k - 23)) / (2 : ℝ) ^ (k - 23) := by
      rw [sub_div, mul_div_assoc, div_self (ne_of_gt hu), mul_one]
    rw [he, abs_div, abs_of_pos hu, div_lt_iff₀ hu]
    linarith
  have roundF32_pos : ∀ (x : ℝ) (k m : Int) (hk : -126 ≤ k) (h1 : (2 : ℝ) ^ k ≤ x)
      (h2 : x < (2 : ℝ) ^ (k + 1)) (h3 : ((m : ℝ) - 1 / 2) * (2 : ℝ) ^ (k - 23) < x)
      (h4 : x < ((m : ℝ) + 1 / 2) * (2 : ℝ) ^ (k - 23)),
      roundF32 x = (m : ℝ) * (2 : ℝ) ^ (k - 23) := by
    intro x k m hk h1 h2 h3 h4
    have hx : 0 < x := lt_of_lt_of_le (zpow_pos (by norm_num) k) h1
    apply roundF32_eq x k m hk
    · rw [abs_of_pos hx]
      exact h1
    · rw [abs_of_pos hx]
      exact h2
    · rw [abs_lt]
      constructor <;> linarith
  have f32_tenth :
      roundF32 0.1 = 13421773 / 134217728 := by
    have := roundF32_pos 0.1 (-4) 13421773 (by norm_num) (by norm_num) (by norm_num) (by norm_num)
      (by norm_num)
    rw [this]
    norm_num
  have densityFactorF32_three_quarters :
      densityFactorF32 0.75 = 12582913 / 16777216 := by
    unfold densityFactorF32 jmapF32
    rw [f32_tenth]
    have ha : roundF32 (4 - 13421773 / 134217728) = 16357786 / 4194304 := by
      have := roundF32_pos (4 - 13421773 / 134217728) 1 16357786 (by norm_num) (by norm_num)
        (by norm_num) (by norm_num) (by norm_num)
      rw [this]
      norm_num
    have hb : roundF32 (0.75 - 13421773 / 134217728) = 10905190 / 16777216 := by
      have := roundF32_pos (0.75 - 13421773 / 134217728) (-1) 10905190 (by norm_num) (by norm_num)
        (by norm_num) (by norm_num) (by norm_num)
      rw [this]
      norm_num
    rw [ha, hb]
    have hc : roundF32 (16357786 / 4194304 * (10905190 / 16777216)) = 10632561 / 4194304 := by
      have := roundF32_pos (16357786 / 4194304 * (10905190 / 16777216)) 1 10632561 (by norm_num)
        (by norm_num) (by norm_num) (by norm_num) (by norm_num)
      rw [this]
      norm_num
    rw [hc]
    have he : roundF32 (10632561 / 4194304 / (16357786 / 4194304)) = 10905191 / 16777216 := by
      have := roundF32_pos (10632561 / 4194304 / (16357786 / 4194304)) (-1) 10905191 (by norm_num)
        (by norm_num) (by norm_num) (by norm_num) (by norm_num)
      rw [this]
      norm_num
    rw [he]
    have hd : roundF32 (13421773 / 134217728 + 10905191 / 16777216) = 12582913 / 16777216 := by
      have := roundF32_pos (13421773 / 134217728 + 10905191 / 16777216) (-1) 12582913 (by norm_num)
        (by norm_num) (by norm_num) (by norm_num) (by norm_num)
      rw [this]
      norm_num
    exact hd
  have f32Ulp_pos : ∀ (x : ℝ),
      0 < f32Ulp x := by
    intro x
    exact
      zpow_pos (by norm_num) _
  have zpow_split : ∀ (a b : Int) (h : b ≤ a),
      (2 : ℝ) ^ a = (((2 : Int) ^ (a - b).toNat : Int) : ℝ) * (2 : ℝ) ^ b := by
    intro a b h
    push_cast
    rw [← zpow_natCast, Int.toNat_of_nonneg (by omega), ← zpow_add₀ (by norm_num)]
    congr 1
    omega
  have isF32_zero :
      IsF32 0 := by
    exact
      ⟨0, by simp⟩
  have isF32_of_multiple : ∀ (r : ℝ) (M k : Int) (hr : r = (M : ℝ) * (2 : ℝ) ^ (k - 23))
      (hk : f32Exponent r ≤ k),
      IsF32 r := by
    intro r M k hr hk
    unfold IsF32 f32Ulp
    generalize f32Exponent r = e at hk
    refine ⟨M * (2 : Int) ^ (k - e).toNat, ?_⟩
    rw [hr, zpow_split (k - 23) (e - 23) (by omega)]
    have he : (k - 23 - (e - 23)).toNat = (k - e).toNat := by
      congr 1
      omega
    rw [he]
    push_cast
    ring
  have roundHalfEven_intCast : ∀ (m : Int),
      roundHalfEven (m : ℝ) = m := by
    intro m
    exact
      roundHalfEven_of_near _ m (by simp)
  have roundF32_of_isF32 : ∀ (y : ℝ) (h : IsF32 y),
      roundF32 y = y := by
    intro y h
    obtain ⟨m, hm⟩ := h
    unfold roundF32
    have hd : y / f32Ulp y = (m : ℝ) := by
      rw [div_eq_iff (ne_of_gt (f32Ulp_pos y))]
      exact hm
    rw [hd, roundHalfEven_intCast]
    exact hm.symm
  have f32Exponent_le_of_lt : ∀ (x : ℝ) (k : Int) (hk : -126 ≤ k) (hx : x ≠ 0)
      (h : |x| < (2 : ℝ) ^ (k + 1)),
      f32Exponent x ≤ k := by
    intro x k hk hx h
    unfold f32Exponent
    apply max_le _ hk
    have hpos : 0 < |x| := abs_pos.mpr hx
    have := (Int.lt_zpow_iff_log_lt (b := 2) (by norm_num) hpos (x := k + 1)).mp
      (by exact_mod_cast h)
    omega
  have roundF32_zero :
      roundF32 0 = 0 := by
    exact
      roundF32_of_isF32 0 isF32_zero
  have f32_tenth_lt :
      roundF32 0.1 < 0.75 := by
    rw [f32_tenth]
    norm_num
  have isF32_three_quarters :
      IsF32 0.75 := by
    apply isF32_of_multiple 0.75 12582912 (-1) (by norm_num)
    apply f32Exponent_le_of_lt _ _ (by norm_num) (by norm_num)
    rw [abs_of_pos (by norm_num)]
    norm_num
  have baseIntervalF32_example :
      baseIntervalF32 2880 0.75 = 1919 := by
    unfold baseIntervalF32
    rw [densityFactorF32_three_quarters]
    have hs : roundF32 ((2880 : Int) : ℝ) = 2880 := by
      have := roundF32_pos ((2880 : Int) : ℝ) 11 11796480 (by norm_num) (by norm_num)
        (by norm_num) (by norm_num) (by norm_num)
      rw [this]
      norm_num
    rw [hs]
    have hh : roundF32 (2880 * 0.5) = 1440 := by
      have := roundF32_pos (2880 * 0.5) 10 11796480 (by norm_num) (by norm_num)
        (by norm_num) (by norm_num) (by norm_num)
      rw [this]
      norm_num
    rw [hh]
    have hq : roundF32 (1440 / (12582913 / 16777216)) = 15728639 / 8192 := by
      have := roundF32_pos (1440 / (12582913 / 16777216)) 10 15728639 (by norm_num)
        (by norm_num) (by norm_num) (by norm_num) (by norm_num)
      rw [this]
      norm_num
    rw [hq]
    unfold toInt
    rw [if_pos (by norm_num)]
    rw [Int.floor_eq_iff]
    norm_num
  have randomVariationF32_zero : ∀ (baseInterval : Int) (nextFloat : ℝ),
      randomVariationF32 baseInterval 0 nextFloat = 0 := by
    intro baseInterval nextFloat
    unfold randomVariationF32
    rw [mul_zero, roundF32_zero, zero_mul, roundF32_zero]
    unfold toInt
    rw [if_pos (le_refl _)]
    exact Int.floor_zero
  have countdownStepF32_trigger : ∀ (s : Int) (d : ℝ) (hd : roundF32 0.1 < d) (nextFloat : ℝ)
      (countdown : Int) (h : countdown - 1 ≤ 0),
      countdownStepF32 s d 0 nextFloat countdown = (true, jmax 1 (baseIntervalF32 s d)) := by
    intro s d hd nextFloat countdown h
    unfold countdownStepF32
    rw [if_pos hd, if_pos h, randomVariationF32_zero, add_zero]
  refine ⟨f32_tenth_lt, by norm_num, isF32_three_quarters, densityFactorF32_three_quarters,
    ?_, baseIntervalF32_example, ?_, ?_⟩
  · rw [densityFactorF32_three_quarters]
    norm_num
  · intro nextFloat countdown h
    rw [countdownStepF32_trigger 2880 0.75 f32_tenth_lt nextFloat countdown h,
      baseIntervalF32_example]
    rfl
  · have hfl : ⌊((2880 : Int) : ℝ) * 0.5 / 0.75⌋ = 1920 := by
      rw [Int.floor_eq_iff]
      norm_num
    rw [hfl]
    rfl

/-- C10 (amended). With randomization 0, a grain size `s` in samples (so every one in
`[64, 8192]`) and a grain density `d` above `0.1f` (so every one in `(0.1f, 4]`) held
constant: a sample that triggers schedules the countdown
`N = jmax (1, baseInterval)` with `baseInterval = (int) (s * 0.5f / densityFactor)` and
`densityFactor` the single-precision result of `jmap (d, 0.1f, 4, 0.1f, 4)`, whatever the
random generator returns; `N` is at least 1; a sample that does not trigger decrements the
countdown; and from the countdown `N` the next `N - 1` samples of the channel do not
trigger and the `N`-th does and schedules `N` again, so successive triggers are exactly `N`
processed samples apart. -/
theorem retrigger_interval_binary32 (s : Int) (d : ℝ) (hd : roundF32 0.1 < d) :
    (∀ (nextFloat : ℝ) (countdown : Int), countdown - 1 ≤ 0 →
        countdownStepF32 s d 0 nextFloat countdown = (true, jmax 1 (baseIntervalF32 s d)))
    ∧ (∀ (randomization nextFloat : ℝ) (countdown : Int), ¬ countdown - 1 ≤ 0 →
        countdownStepF32 s d randomization nextFloat countdown = (false, countdown - 1))
    ∧ 1 ≤ jmax 1 (baseIntervalF32 s d)
    ∧ jmax 1 (baseIntervalF32 s d) = max 1 (baseIntervalF32 s d)
    ∧ (∀ draws : List ℝ, (draws.length : Int) = jmax 1 (baseIntervalF32 s d) →
        triggerTraceF32 s d 0 (jmax 1 (baseIntervalF32 s d)) draws
          = (List.replicate (draws.length - 1) false ++ [true],
              jmax 1 (baseIntervalF32 s d))) := by
  have triggerTraceF32_nil : ∀ (grainSizeSamples : Int) (grainDensity randomization : ℝ)
      (countdown : Int),
      triggerTraceF32 grainSizeSamples grainDensity randomization countdown [] = ([], countdown) := by
    intro grainSizeSamples grainDensity randomization countdown
    exact
      rfl
  have triggerTraceF32_cons : ∀ (grainSizeSamples : Int) (grainDensity randomization : ℝ)
      (countdown : Int) (nextFloat : ℝ) (rest : List ℝ),
      triggerTraceF32 grainSizeSamples grainDensity randomization countdown (nextFloat :: rest)
        = ((countdownStepF32 grainSizeSamples grainDensity randomization nextFloat countdown).1
            :: (triggerTraceF32 grainSizeSamples grainDensity randomization
              (countdownStepF32 grainSizeSamples grainDensity randomization nextFloat
                countdown).2 rest).1,
          (triggerTraceF32 grainSizeSamples grainDensity randomization
            (countdownStepF32 grainSizeSamples grainDensity randomization nextFloat countdown).2
            rest).2) := by
    intro grainSizeSamples grainDensity randomization countdown nextFloat rest
    exact
      rfl
  have roundHalfEven_of_near : ∀ (y : ℝ) (m : Int) (h : |y - (m : ℝ)| < 1 / 2),
      roundHalfEven y = m := by
    intro y m h
    rw [abs_lt] at h
    unfold roundHalfEven
    by_cases hm : (m : ℝ) ≤ y
    · have hf : ⌊y⌋ = m := by
        rw [Int.floor_eq_iff]
        constructor
        · exact hm
        · linarith
      rw [hf, if_pos (by linarith)]
    · have hf : ⌊y⌋ = m - 1 := by
        rw [Int.floor_eq_iff]
        push_cast
        constructor <;> linarith
      rw [hf]
      push_cast
      rw [if_neg (by linarith), if_pos (by linarith)]
      ring
  have f32Ulp_pos : ∀ (x : ℝ),
      0 < f32Ulp x := by
    intro x
    exact
      zpow_pos (by norm_num) _
  have isF32_zero :
      IsF32 0 := by
    exact
      ⟨0, by simp⟩
  have roundHalfEven_intCast : ∀ (m : Int),
      roundHalfEven (m : ℝ) = m := by
    intro m
    exact
      roundHalfEven_of_near _ m (by simp)
  have roundF32_of_isF32 : ∀ (y : ℝ) (h : IsF32 y),
      roundF32 y = y := by
    intro y h
    obtain ⟨m, hm⟩ := h
    unfold roundF32
    have hd : y / f32Ulp y = (m : ℝ) := by
      rw [div_eq_iff (ne_of_gt (f32Ulp_pos y))]
      exact hm
    rw [hd, roundHalfEven_intCast]
    exact hm.symm
  have roundF32_zero :
      roundF32 0 = 0 := by
    exact
      roundF32_of_isF32 0 isF32_zero
  have randomVariationF32_zero : ∀ (baseInterval : Int) (nextFloat : ℝ),
      randomVariationF32 baseInterval 0 nextFloat = 0 := by
    intro baseInterval nextFloat
    unfold randomVariationF32
    rw [mul_zero, roundF32_zero, zero_mul, roundF32_zero]
    unfold toInt
    rw [if_pos (le_refl _)]
    exact Int.floor_zero
  have countdownStepF32_trigger : ∀ (s : Int) (d : ℝ) (hd : roundF32 0.1 < d) (nextFloat : ℝ)
      (countdown : Int) (h : countdown - 1 ≤ 0),
      countdownStepF32 s d 0 nextFloat countdown = (true, jmax 1 (baseIntervalF32 s d)) := by
    intro s d hd nextFloat countdown h
    unfold countdownStepF32
    rw [if_pos hd, if_pos h, randomVariationF32_zero, add_zero]
  have countdownStepF32_wait : ∀ (s : Int) (d : ℝ) (hd : roundF32 0.1 < d)
      (randomization nextFloat : ℝ) (countdown : Int) (h : ¬ countdown - 1 ≤ 0),
      countdownStepF32 s d randomization nextFloat countdown = (false, countdown - 1) := by
    intro s d hd randomization nextFloat countdown h
    unfold countdownStepF32
    rw [if_pos hd, if_neg h]
  have triggerTraceF32_countdown : ∀ (s : Int) (d : ℝ) (hd : roundF32 0.1 < d) (m : Nat),
      ∀ (countdown : Int) (draws : List ℝ), countdown = (m : Int) + 1 →
        draws.length = m + 1 →
        triggerTraceF32 s d 0 countdown draws
          = (List.replicate m false ++ [true], jmax 1 (baseIntervalF32 s d)) := by
    intro s d hd m
    induction m with
    | zero =>
      intro countdown draws hc hlen
      match draws, hlen with
      | [nextFloat], _ =>
        rw [triggerTraceF32_cons, countdownStepF32_trigger s d hd nextFloat countdown (by omega),
          triggerTraceF32_nil]
        rfl
    | succ n ih =>
      intro countdown draws hc hlen
      match draws, hlen with
      | nextFloat :: rest, hlen =>
        rw [triggerTraceF32_cons,
          countdownStepF32_wait s d hd 0 nextFloat countdown (by omega)]
        dsimp only
        rw [ih (countdown - 1) rest (by push_cast at hc; omega) (by simpa using hlen)]
        rfl
  have jmax_one_le : ∀ (b : Int),
      1 ≤ jmax 1 b := by
    intro b
    unfold jmax
    split_ifs with h
    · exact le_of_lt h
    · exact le_refl _
  refine ⟨fun nextFloat countdown h => countdownStepF32_trigger s d hd nextFloat countdown h,
    fun randomization nextFloat countdown h =>
      countdownStepF32_wait s d hd randomization nextFloat countdown h,
    jmax_one_le _, ?_, ?_⟩
  · unfold jmax
    split_ifs with h
    · exact (max_eq_right (le_of_lt h)).symm
    · exact (max_eq_left (not_lt.mp h)).symm
  · intro draws hlen
    have hpos : 1 ≤ draws.length := by
      have : (1 : Int) ≤ (draws.length : Int) := by rw [hlen]; exact jmax_one_le _
      exact_mod_cast this
    apply triggerTraceF32_countdown s d hd (draws.length - 1)
    · rw [← hlen]
      push_cast [Nat.cast_sub hpos]
      ring
    · omega

theorem retrigger_interval_binary32_witness :
    (∀ (nextFloat : ℝ) (countdown : Int), countdown - 1 ≤ 0 →
        countdownStepF32 2880 0.75 0 nextFloat countdown
          = (true, jmax 1 (baseIntervalF32 2880 0.75)))
    ∧ 1 ≤ jmax 1 (baseIntervalF32 2880 0.75) := by
  have roundHalfEven_of_near : ∀ (y : ℝ) (m : Int) (h : |y - (m : ℝ)| < 1 / 2),
      roundHalfEven y = m := by
    intro y m h
    rw [abs_lt] at h
    unfold roundHalfEven
    by_cases hm : (m : ℝ) ≤ y
    · have hf : ⌊y⌋ = m := by
        rw [Int.floor_eq_iff]
        constructor
        · exact hm
        · linarith
      rw [hf, if_pos (by linarith)]
    · have hf : ⌊y⌋ = m - 1 := by
        rw [Int.floor_eq_iff]
        push_cast
        constructor <;> linarith
      rw [hf]
      push_cast
      rw [if_neg (by linarith), if_pos (by linarith)]
      ring
  have f32Exponent_eq : ∀ (x : ℝ) (k : Int) (hk : -126 ≤ k) (h1 : (2 : ℝ) ^ k ≤ |x|)
      (h2 : |x| < (2 : ℝ) ^ (k + 1)),
      f32Exponent x = k := by
    intro x k hk h1 h2
    have hpos : 0 < |x| := lt_of_lt_of_le (zpow_pos (by norm_num) k) h1
    have hl : Int.log 2 |x| = k := by
      apply le_antisymm
      · have := (Int.lt_zpow_iff_log_lt (b := 2) (by norm_num) hpos (x := k + 1)).mp
          (by exact_mod_cast h2)
        omega
      · exact (Int.zpow_le_iff_le_log (b := 2) (by norm_num) hpos).mp (by exact_mod_cast h1)
    unfold f32Exponent
    rw [hl]
    exact max_eq_left hk
  have roundF32_eq : ∀ (x : ℝ) (k m : Int) (hk : -126 ≤ k) (h1 : (2 : ℝ) ^ k ≤ |x|)
      (h2 : |x| < (2 : ℝ) ^ (k + 1))
      (h3 : |x - (m : ℝ) * (2 : ℝ) ^ (k - 23)| < (2 : ℝ) ^ (k - 23) / 2),
      roundF32 x = (m : ℝ) * (2 : ℝ) ^ (k - 23) := by
    intro x k m hk h1 h2 h3
    have hu : (0 : ℝ) < (2 : ℝ) ^ (k - 23) := zpow_pos (by norm_num) _
    unfold roundF32 f32Ulp
    rw [f32Exponent_eq x k hk h1 h2]
    rw [roundHalfEven_of_near _ m]
    have he : x / (2 : ℝ) ^ (k - 23) - (m : ℝ)
        = (x - (m : ℝ) * (2 : ℝ) ^ (k - 23)) / (2 : ℝ) ^ (k - 23) := by
      rw [sub_div, mul_div_assoc, div_self (ne_of_gt hu), mul_one]
    rw [he, abs_div, abs_of_pos hu, div_lt_iff₀ hu]
    linarith
  have roundF32_pos : ∀ (x : ℝ) (k m : Int) (hk : -126 ≤ k) (h1 : (2 : ℝ) ^ k ≤ x)
      (h2 : x < (2 : ℝ) ^ (k + 1)) (h3 : ((m : ℝ) - 1 / 2) * (2 : ℝ) ^ (k - 23) < x)
      (h4 : x < ((m : ℝ) + 1 / 2) * (2 : ℝ) ^ (k - 23)),
      roundF32 x = (m : ℝ) * (2 : ℝ) ^ (k - 23) := by
    intro x k m hk h1 h2 h3 h4
    have hx : 0 < x := lt_of_lt_of_le (zpow_pos (by norm_num) k) h1
    apply roundF32_eq x k m hk
    · rw [abs_of_pos hx]
      exact h1
    · rw [abs_of_pos hx]
      exact h2
    · rw [abs_lt]
      constructor <;> linarith
  have f32_tenth :
      roundF32 0.1 = 13421773 / 134217728 := by
    have := roundF32_pos 0.1 (-4) 13421773 (by norm_num) (by norm_num) (by norm_num) (by norm_num)
      (by norm_num)
    rw [this]
    norm_num
  have f32_tenth_lt :
      roundF32 0.1 < 0.75 := by
    rw [f32_tenth]
    norm_num
  exact
    ⟨(retrigger_interval_binary32 2880 0.75 f32_tenth_lt).1,
      (retrigger_interval_binary32 2880 0.75 f32_tenth_lt).2.2.1⟩

/-! ## The plain tap before the delay line wraps -/

/-- C9. Scenario A on the code (48 kHz, delayTime 400 ms so `delaySamples = 19200`, feedback
0.35, mix 35 %, grainDensity 0.1, stereoWidth 0, state after `prepareToPlay`): for a unit
impulse at t = 0 on both channels, the feedback sample written at t = 0 exceeds 0.95, yet the
output of the delay stage is `1 * (1 - 0.35)` at t = 0 and `0` at every later sample up to
and including t = 400 ms (sample 19200): the tap mixed in there is `0`, not the sample written
`delaySamples` earlier. -/
theorem processBlock_plainTap_scenarioA :
    (readLocals scenarioAParameters scenarioAState 2).delaySamples = 19200
    ∧ 0.95 < (processSample (readLocals scenarioAParameters scenarioAState 2) 0
        scenarioAState 1).2.delayBuffers 0 0
    ∧ (processBlockDelay scenarioAParameters scenarioAState [impulse, impulse]).1
      = [(1 - 35 / 100) :: List.replicate 19200 0, (1 - 35 / 100) :: List.replicate 19200 0] := by
  have processChannel_cons : ∀ (L : BlockLocals) (channel : Nat) (st : State) (x : ℝ)
      (xs : List ℝ),
      processChannel L channel st (x :: xs)
        = ((processSample L channel st x).1
            :: (processChannel L channel (processSample L channel st x).2 xs).1,
          (processChannel L channel (processSample L channel st x).2 xs).2) := by
    intro L channel st x xs
    exact
      rfl
  have processChannels_nil : ∀ (L : BlockLocals) (channel : Nat) (st : State),
      processChannels L channel st [] = ([], st) := by
    intro L channel st
    exact
      rfl
  have processChannels_cons : ∀ (L : BlockLocals) (channel : Nat) (st : State) (c : List ℝ)
      (cs : List (List ℝ)),
      processChannels L channel st (c :: cs)
        = ((processChannel L channel st c).1
            :: (processChannels L (channel + 1) (processChannel L channel st c).2 cs).1,
          (processChannels L (channel + 1) (processChannel L channel st c).2 cs).2) := by
    intro L channel st c cs
    exact
      rfl
  have triggerNewGrain_delayWriteIndex : ∀ (st : State) (channel : Nat) (grainSize : Int)
      (spray : ℝ) (reverse : Bool) (randomization : ℝ),
      (triggerNewGrain st channel grainSize spray reverse randomization).delayWriteIndex
        = st.delayWriteIndex := by
    intro st channel grainSize spray reverse randomization
    unfold triggerNewGrain
    split
    · rfl
    · dsimp only
      split <;> rfl
  have triggerNewGrain_delayBuffers : ∀ (st : State) (channel : Nat) (grainSize : Int) (spray : ℝ)
      (reverse : Bool) (randomization : ℝ),
      (triggerNewGrain st channel grainSize spray reverse randomization).delayBuffers
        = st.delayBuffers := by
    intro st channel grainSize spray reverse randomization
    unfold triggerNewGrain
    split
    · rfl
    · dsimp only
      split <;> rfl
  have processActiveGrains_delayWriteIndex : ∀ (st : State) (channel : Nat)
      (delayBuffer : Int → ℝ),
      (processActiveGrains st channel delayBuffer).2.delayWriteIndex = st.delayWriteIndex := by
    intro st channel delayBuffer
    exact
      rfl
  have processActiveGrains_delayBuffers : ∀ (st : State) (channel : Nat) (delayBuffer : Int → ℝ),
      (processActiveGrains st channel delayBuffer).2.delayBuffers = st.delayBuffers := by
    intro st channel delayBuffer
    exact
      rfl
  have retrigger_delayWriteIndex : ∀ (L : BlockLocals) (channel : Nat) (st : State),
      (retrigger L channel st).delayWriteIndex = st.delayWriteIndex := by
    intro L channel st
    unfold retrigger
    exact triggerNewGrain_delayWriteIndex _ _ _ _ _ _
  have retrigger_delayBuffers : ∀ (L : BlockLocals) (channel : Nat) (st : State),
      (retrigger L channel st).delayBuffers = st.delayBuffers := by
    intro L channel st
    unfold retrigger
    exact triggerNewGrain_delayBuffers _ _ _ _ _ _
  have tapSample_delayWriteIndex : ∀ (L : BlockLocals) (channel : Nat) (st : State),
      (tapSample L channel st).2.delayWriteIndex = st.delayWriteIndex := by
    intro L channel st
    unfold tapSample
    by_cases h1 : L.grainDensity > 0.1
    · rw [if_pos h1]
      dsimp only
      rw [processActiveGrains_delayWriteIndex]
      split_ifs
      · exact retrigger_delayWriteIndex _ _ _
      · rfl
    · rw [if_neg h1]
  have tapSample_delayBuffers : ∀ (L : BlockLocals) (channel : Nat) (st : State),
      (tapSample L channel st).2.delayBuffers = st.delayBuffers := by
    intro L channel st
    unfold tapSample
    by_cases h1 : L.grainDensity > 0.1
    · rw [if_pos h1]
      dsimp only
      rw [processActiveGrains_delayBuffers]
      split_ifs
      · exact retrigger_delayBuffers _ _ _
      · rfl
    · rw [if_neg h1]
  have processSample_delayWriteIndex : ∀ (L : BlockLocals) (channel : Nat) (st : State)
      (inputSample : ℝ),
      (processSample L channel st inputSample).2.delayWriteIndex
        = Function.update st.delayWriteIndex channel
            ((st.delayWriteIndex channel + 1).tmod maxDelayTime) := by
    intro L channel st inputSample
    unfold processSample applyEQFiltering
    simp only [tapSample_delayWriteIndex]
  have processChannel_delayWriteIndex_other : ∀ (L : BlockLocals) (channel other : Nat)
      (hne : other ≠ channel) (st : State) (xs : List ℝ),
      (processChannel L channel st xs).2.delayWriteIndex other = st.delayWriteIndex other := by
    intro L channel other hne st xs
    induction xs generalizing st with
    | nil => rfl
    | cons x xs ih =>
      rw [processChannel_cons]
      dsimp only
      rw [ih, processSample_delayWriteIndex, Function.update_noteq hne]
  have processSample_delayBuffers : ∀ (L : BlockLocals) (channel : Nat) (st : State)
      (inputSample : ℝ),
      (processSample L channel st inputSample).2.delayBuffers
        = Function.update st.delayBuffers channel
            (Function.update (st.delayBuffers channel) (st.delayWriteIndex channel)
              (feedbackProcessing inputSample
                (applyEQFiltering (tapSample L channel st).2 (tapSample L channel st).1 channel
                  L.eqHigh L.eqLow).1 L.feedback)) := by
    intro L channel st inputSample
    unfold processSample
    dsimp only
    have h1 : (applyEQFiltering (tapSample L channel st).2 (tapSample L channel st).1 channel
        L.eqHigh L.eqLow).2.delayBuffers = st.delayBuffers := by
      unfold applyEQFiltering
      exact tapSample_delayBuffers L channel st
    have h2 : (applyEQFiltering (tapSample L channel st).2 (tapSample L channel st).1 channel
        L.eqHigh L.eqLow).2.delayWriteIndex = st.delayWriteIndex := by
      unfold applyEQFiltering
      exact tapSample_delayWriteIndex L channel st
    rw [h1, h2]
  have toInt_of_nonneg : ∀ (x : ℝ) (h : 0 ≤ x),
      toInt x = ⌊x⌋ := by
    intro x h
    unfold toInt
    rw [if_pos h]
  have triggerNewGrain_highCutState : ∀ (st : State) (channel : Nat) (grainSize : Int) (spray : ℝ)
      (reverse : Bool) (randomization : ℝ),
      (triggerNewGrain st channel grainSize spray reverse randomization).highCutState
        = st.highCutState := by
    intro st channel grainSize spray reverse randomization
    unfold triggerNewGrain
    split
    · rfl
    · dsimp only
      split <;> rfl
  have triggerNewGrain_lowCutState : ∀ (st : State) (channel : Nat) (grainSize : Int) (spray : ℝ)
      (reverse : Bool) (randomization : ℝ),
      (triggerNewGrain st channel grainSize spray reverse randomization).lowCutState
        = st.lowCutState := by
    intro st channel grainSize spray reverse randomization
    unfold triggerNewGrain
    split
    · rfl
    · dsimp only
      split <;> rfl
  have tapSample_highCutState : ∀ (L : BlockLocals) (channel : Nat) (st : State),
      (tapSample L channel st).2.highCutState = st.highCutState := by
    intro L channel st
    unfold tapSample
    by_cases h1 : L.grainDensity > 0.1
    · rw [if_pos h1]
      dsimp only
      unfold processActiveGrains
      dsimp only
      split_ifs
      · unfold retrigger
        exact triggerNewGrain_highCutState _ _ _ _ _ _
      · rfl
    · rw [if_neg h1]
  have tapSample_lowCutState : ∀ (L : BlockLocals) (channel : Nat) (st : State),
      (tapSample L channel st).2.lowCutState = st.lowCutState := by
    intro L channel st
    unfold tapSample
    by_cases h1 : L.grainDensity > 0.1
    · rw [if_pos h1]
      dsimp only
      unfold processActiveGrains
      dsimp only
      split_ifs
      · unfold retrigger
        exact triggerNewGrain_lowCutState _ _ _ _ _ _
      · rfl
    · rw [if_neg h1]
  have processSample_fresh_other : ∀ (L : BlockLocals) (channel other : Nat)
      (hne : other ≠ channel) (st : State) (inputSample : ℝ) (hf : Fresh st other),
      Fresh (processSample L channel st inputSample).2 other := by
    intro L channel other hne st inputSample hf
    obtain ⟨h0, hbuf, hhigh, hlow⟩ := hf
    have hidx : (processSample L channel st inputSample).2.delayWriteIndex other
        = st.delayWriteIndex other := by
      rw [processSample_delayWriteIndex, Function.update_noteq hne]
    have hb : (processSample L channel st inputSample).2.delayBuffers other
        = st.delayBuffers other := by
      rw [processSample_delayBuffers, Function.update_noteq hne]
    have hh : (processSample L channel st inputSample).2.highCutState other
        = st.highCutState other := by
      unfold processSample applyEQFiltering
      dsimp only
      rw [Function.update_noteq hne, tapSample_highCutState]
    have hl : (processSample L channel st inputSample).2.lowCutState other
        = st.lowCutState other := by
      unfold processSample applyEQFiltering
      dsimp only
      rw [Function.update_noteq hne, tapSample_lowCutState]
    refine ⟨?_, ?_, ?_, ?_⟩
    · rw [hidx]; exact h0
    · intro j hj
      rw [hb]
      rw [hidx] at hj
      exact hbuf j hj
    · rw [hh]; exact hhigh
    · rw [hl]; exact hlow
  have processChannel_fresh_other : ∀ (L : BlockLocals) (channel other : Nat)
      (hne : other ≠ channel) (st : State) (xs : List ℝ) (hf : Fresh st other),
      Fresh (processChannel L channel st xs).2 other := by
    intro L channel other hne st xs hf
    induction xs generalizing st with
    | nil => exact hf
    | cons x xs ih =>
      rw [processChannel_cons]
      exact ih _ (processSample_fresh_other L channel other hne st x hf)
  have processSample_plainTap_output : ∀ (L : BlockLocals) (channel : Nat) (st : State)
      (inputSample : ℝ) (hd : ¬ L.grainDensity > 0.1)
      (hx : ¬ (L.numChannels = 2 ∧ L.stereoWidth > 0)) (hf : Fresh st channel),
      (processSample L channel st inputSample).1 = inputSample * (1 - L.mix) := by
    intro L channel st inputSample hd hx hf
    obtain ⟨_, hbuf, hhigh, hlow⟩ := hf
    have htap : st.delayBuffers channel (st.delayWriteIndex channel) = 0 := hbuf _ (le_refl _)
    unfold processSample
    dsimp only
    unfold crossFeed
    rw [if_neg hx]
    unfold applyEQFiltering tapSample
    rw [if_neg hd]
    dsimp only
    rw [htap, hhigh, hlow]
    ring
  have processSample_plainTap_fresh : ∀ (L : BlockLocals) (channel : Nat) (st : State)
      (inputSample : ℝ) (hd : ¬ L.grainDensity > 0.1) (hf : Fresh st channel)
      (hlt : st.delayWriteIndex channel + 1 < maxDelayTime),
      Fresh (processSample L channel st inputSample).2 channel
      ∧ (processSample L channel st inputSample).2.delayWriteIndex channel
        = st.delayWriteIndex channel + 1 := by
    intro L channel st inputSample hd hf hlt
    obtain ⟨h0, hbuf, hhigh, hlow⟩ := hf
    have htap : st.delayBuffers channel (st.delayWriteIndex channel) = 0 := hbuf _ (le_refl _)
    have hidx : (processSample L channel st inputSample).2.delayWriteIndex channel
        = st.delayWriteIndex channel + 1 := by
      rw [processSample_delayWriteIndex, Function.update_same]
      exact Int.tmod_eq_of_lt (by omega) hlt
    refine ⟨⟨?_, ?_, ?_, ?_⟩, hidx⟩
    · rw [hidx]; omega
    · intro j hj
      rw [hidx] at hj
      rw [processSample_delayBuffers, Function.update_same,
        Function.update_noteq (by omega : j ≠ st.delayWriteIndex channel)]
      exact hbuf j (by omega)
    · unfold processSample applyEQFiltering tapSample
      rw [if_neg hd]
      dsimp only
      rw [Function.update_same, htap, hhigh]
      ring
    · unfold processSample applyEQFiltering tapSample
      rw [if_neg hd]
      dsimp only
      rw [Function.update_same, htap, hhigh, hlow]
      ring
  have processChannel_plainTap_output : ∀ (L : BlockLocals) (channel : Nat)
      (hd : ¬ L.grainDensity > 0.1) (hx : ¬ (L.numChannels = 2 ∧ L.stereoWidth > 0)) (xs : List ℝ),
      ∀ st : State, Fresh st channel →
        st.delayWriteIndex channel + (xs.length : Int) ≤ maxDelayTime →
        (processChannel L channel st xs).1 = xs.map (fun x => x * (1 - L.mix)) := by
    intro L channel hd hx xs
    induction xs with
    | nil => intro st _ _; rfl
    | cons x xs ih =>
      intro st hf hlen
      rw [processChannel_cons, List.map_cons]
      dsimp only
      rw [processSample_plainTap_output L channel st x hd hx hf]
      congr 1
      cases xs with
      | nil => rfl
      | cons y ys =>
        have hlt : st.delayWriteIndex channel + 1 < maxDelayTime := by
          simp only [List.length_cons] at hlen
          push_cast at hlen
          omega
        obtain ⟨hf2, hidx⟩ := processSample_plainTap_fresh L channel st x hd hf hlt
        apply ih _ hf2
        rw [hidx]
        simp only [List.length_cons] at hlen ⊢
        push_cast at hlen ⊢
        omega
  have scenarioAState_fresh : ∀ (channel : Nat),
      Fresh scenarioAState channel := by
    intro channel
    unfold Fresh scenarioAState prepareToPlay constructed
    dsimp only
    refine ⟨?_, ?_, ?_, ?_⟩
    · split_ifs <;> exact le_refl _
    · intro j _
      split_ifs <;> rfl
    · split_ifs <;> rfl
    · split_ifs <;> rfl
  have scenarioAState_delayWriteIndex : ∀ (channel : Nat),
      scenarioAState.delayWriteIndex channel = 0 := by
    intro channel
    unfold scenarioAState prepareToPlay constructed
    dsimp only
    split_ifs <;> rfl
  have scenarioA_delaySamples :
      (readLocals scenarioAParameters scenarioAState 2).delaySamples = 19200 := by
    have hsr : scenarioAState.getSampleRate = 48000 := rfl
    have hdt : scenarioAParameters "delayTime" = 400 := by unfold scenarioAParameters; simp
    have hfl : toInt ((400 : ℝ) * 48000 / 1000) = 19200 := by
      rw [toInt_of_nonneg _ (by norm_num)]
      have : (400 : ℝ) * 48000 / 1000 = ((19200 : Int) : ℝ) := by norm_num
      rw [this, Int.floor_intCast]
    unfold readLocals
    dsimp only
    rw [hsr, hdt, hfl]
    decide
  have hmix : (readLocals scenarioAParameters scenarioAState 2).mix = 35 / 100 := by
    unfold readLocals scenarioAParameters
    simp
  have hd : ¬ (readLocals scenarioAParameters scenarioAState 2).grainDensity > 0.1 := by
    unfold readLocals scenarioAParameters
    simp
  have hx : ¬ ((readLocals scenarioAParameters scenarioAState 2).numChannels = 2
      ∧ (readLocals scenarioAParameters scenarioAState 2).stereoWidth > 0) := by
    unfold readLocals scenarioAParameters
    simp
  have hfb : (readLocals scenarioAParameters scenarioAState 2).feedback = 0.35 := by
    unfold readLocals scenarioAParameters
    simp
  have hmap : impulse.map (fun x => x * (1 - (35 / 100 : ℝ)))
      = (1 - 35 / 100) :: List.replicate 19200 0 := by
    unfold impulse
    rw [List.map_cons, List.map_replicate, one_mul, zero_mul]
  have hlen : (impulse.length : Int) ≤ maxDelayTime := by
    unfold impulse
    rw [List.length_cons, List.length_replicate]
    decide
  refine ⟨scenarioA_delaySamples, ?_, ?_⟩
  · obtain ⟨_, hbuf, hhigh, hlow⟩ := scenarioAState_fresh 0
    have htap : scenarioAState.delayBuffers 0 (scenarioAState.delayWriteIndex 0) = 0 :=
      hbuf _ (le_refl _)
    have hwritten : (processSample (readLocals scenarioAParameters scenarioAState 2) 0
        scenarioAState 1).2.delayBuffers 0 0 = feedbackProcessing 1 0 0.35 := by
      rw [processSample_delayBuffers, Function.update_same, scenarioAState_delayWriteIndex,
        Function.update_same, hfb]
      congr 1
      unfold applyEQFiltering tapSample
      rw [if_neg hd]
      dsimp only
      rw [htap, hhigh, hlow]
      ring
    rw [hwritten]
    have hpos : 0 < Real.tanh (((1 : ℝ) - 0.95) * 10) := by
      rw [Real.tanh_eq_sinh_div_cosh]
      exact div_pos (Real.sinh_pos_iff.mpr (by norm_num)) (Real.cosh_pos _)
    have hlim : jlimit (-1 : ℝ) 1 (1 + 0 * 0.35) = 1 := by
      unfold jlimit
      norm_num
    unfold feedbackProcessing
    dsimp only
    rw [hlim, if_pos (by norm_num), if_pos (by norm_num)]
    linarith
  · unfold processBlockDelay
    rw [List.length_cons, List.length_singleton, processChannels_cons, processChannels_cons,
      processChannels_nil]
    dsimp only
    rw [processChannel_plainTap_output _ 0 hd hx impulse scenarioAState (scenarioAState_fresh 0)
        (by rw [scenarioAState_delayWriteIndex, zero_add]; exact hlen),
      processChannel_plainTap_output _ 1 hd hx impulse _
        (processChannel_fresh_other _ 0 1 (by decide) _ _ (scenarioAState_fresh 1))
        (by
          rw [processChannel_delayWriteIndex_other _ 0 1 (by decide),
            scenarioAState_delayWriteIndex, zero_add]
          exact hlen),
      hmix, hmap]

/-! ## The grain envelope at the ends of a grain -/

/-- C11 (as stated, refuted). A forward grain of size 32 at position 31 is at its last
processed sample: the step deactivates it. The envelope that `processActiveGrains` applies
to it is not 0, and on a delay buffer holding 1 everywhere the returned output, which is
that envelope times the amplitude 1, is not 0. -/
theorem grainEnvelope_last_sample_counterexample :
    (lastSampleState.activeGrains 0 0).position = (lastSampleState.activeGrains 0 0).size - 1
    ∧ ((processActiveGrains lastSampleState 0 (fun _ => 1)).2.activeGrains 0 0).isActive = false
    ∧ grainEnvelope (lastSampleState.activeGrains 0 0) ≠ 0
    ∧ (processActiveGrains lastSampleState 0 (fun _ => 1)).1 ≠ 0 := by
  have foldl_grainLoopBody_snd : ∀ (delayBuffer : Int → ℝ) (l : List Nat) (hl : l.Nodup)
      (acc : ℝ × (Nat → Grain)) (j : Nat),
      (l.foldl (grainLoopBody delayBuffer) acc).2 j
        = if j ∈ l ∧ (acc.2 j).isActive = true then grainAdvance (acc.2 j) else acc.2 j := by
    intro delayBuffer l hl acc j
    induction l generalizing acc with
    | nil => simp
    | cons a l ih =>
      have hnd := List.nodup_cons.mp hl
      rw [List.foldl_cons, ih hnd.2]
      by_cases hja : j = a
      · subst hja
        have hnot : j ∉ l := hnd.1
        by_cases hact : (acc.2 j).isActive = true
        · unfold grainLoopBody
          simp [hnot, hact]
        · unfold grainLoopBody
          simp [hnot, hact]
      · have hsame : (grainLoopBody delayBuffer acc a).2 j = acc.2 j := by
          unfold grainLoopBody
          dsimp only
          split
          · rfl
          · simp [Function.update_noteq hja]
        rw [hsame]
        simp [hja]
  have processActiveGrains_grain : ∀ (st : State) (channel : Nat) (delayBuffer : Int → ℝ)
      (i : Nat),
      (processActiveGrains st channel delayBuffer).2.activeGrains channel i
        = if i < maxGrains ∧ (st.activeGrains channel i).isActive = true
          then grainAdvance (st.activeGrains channel i) else st.activeGrains channel i := by
    intro st channel delayBuffer i
    unfold processActiveGrains
    simp only [Function.update_same]
    rw [foldl_grainLoopBody_snd delayBuffer _ (List.nodup_range _)]
    simp [List.mem_range]
  have cos_lt_one_of_pos_of_lt : ∀ (x : ℝ) (h0 : 0 < x) (h1 : x < 2 * Real.pi),
      Real.cos x < 1 := by
    intro x h0 h1
    apply lt_of_le_of_ne (Real.cos_le_one x)
    intro h
    have := (Real.cos_eq_one_iff_of_lt_of_lt (by linarith [Real.pi_pos]) h1).mp h
    linarith
  have grainEnvelope_pos : ∀ (g : Grain) (h0 : 0 < g.position) (h1 : g.position < g.size),
      0 < grainEnvelope g := by
    intro g h0 h1
    have hs : (1 : Int) ≤ g.size := by omega
    have hmax : jmax 1 g.size = g.size := by
      unfold jmax
      split_ifs with h
      · rfl
      · omega
    have hsize : (0 : ℝ) < (g.size : ℝ) := by exact_mod_cast (by omega : 0 < g.size)
    have hpos : (0 : ℝ) < (g.position : ℝ) := by exact_mod_cast h0
    have hlt : (g.position : ℝ) < (g.size : ℝ) := by exact_mod_cast h1
    unfold grainEnvelope
    dsimp only
    rw [hmax]
    have hx0 : 0 < 2 * Real.pi * ((g.position : ℝ) / (g.size : ℝ)) :=
      mul_pos (by linarith [Real.pi_pos]) (div_pos hpos hsize)
    have hx1 : 2 * Real.pi * ((g.position : ℝ) / (g.size : ℝ)) < 2 * Real.pi := by
      have : (g.position : ℝ) / (g.size : ℝ) < 1 := (div_lt_one hsize).mpr hlt
      nlinarith [Real.pi_pos]
    have := cos_lt_one_of_pos_of_lt _ hx0 hx1
    linarith
  have foldl_grainLoopBody_fst : ∀ (delayBuffer : Int → ℝ) (l : List Nat) (hl : l.Nodup)
      (acc : ℝ × (Nat → Grain)),
      (l.foldl (grainLoopBody delayBuffer) acc).1
        = acc.1 + (l.map (fun i =>
            if (acc.2 i).isActive = true
            then delayBuffer (grainReadPos (acc.2 i)) * grainEnvelope (acc.2 i) * (acc.2 i).amplitude
            else 0)).sum := by
    intro delayBuffer l hl acc
    induction l generalizing acc with
    | nil => simp
    | cons a l ih =>
      have hnd := List.nodup_cons.mp hl
      rw [List.foldl_cons, ih hnd.2, List.map_cons, List.sum_cons]
      have hsame : ∀ i ∈ l, (grainLoopBody delayBuffer acc a).2 i = acc.2 i := by
        intro i hi
        have hia : i ≠ a := fun h => hnd.1 (h ▸ hi)
        unfold grainLoopBody
        dsimp only
        split
        · rfl
        · exact Function.update_noteq hia _ _
      have hmap : l.map (fun i =>
            if ((grainLoopBody delayBuffer acc a).2 i).isActive = true
            then delayBuffer (grainReadPos ((grainLoopBody delayBuffer acc a).2 i))
              * grainEnvelope ((grainLoopBody delayBuffer acc a).2 i)
              * ((grainLoopBody delayBuffer acc a).2 i).amplitude
            else 0)
          = l.map (fun i =>
            if (acc.2 i).isActive = true
            then delayBuffer (grainReadPos (acc.2 i)) * grainEnvelope (acc.2 i) * (acc.2 i).amplitude
            else 0) := by
        apply List.map_congr_left
        intro i hi
        rw [hsame i hi]
      rw [hmap]
      have hfst : (grainLoopBody delayBuffer acc a).1
          = acc.1 + (if (acc.2 a).isActive = true
            then delayBuffer (grainReadPos (acc.2 a)) * grainEnvelope (acc.2 a) * (acc.2 a).amplitude
            else 0) := by
        unfold grainLoopBody
        dsimp only
        by_cases hact : (acc.2 a).isActive = true
        · simp [hact]
        · simp [hact]
      rw [hfst, add_assoc]
  have processActiveGrains_output : ∀ (st : State) (channel : Nat) (delayBuffer : Int → ℝ),
      (processActiveGrains st channel delayBuffer).1
        = ((List.range maxGrains).map (fun i =>
            if (st.activeGrains channel i).isActive = true
            then delayBuffer (grainReadPos (st.activeGrains channel i))
              * grainEnvelope (st.activeGrains channel i) * (st.activeGrains channel i).amplitude
            else 0)).sum := by
    intro st channel delayBuffer
    unfold processActiveGrains
    dsimp only
    rw [foldl_grainLoopBody_fst delayBuffer _ (List.nodup_range _), zero_add]
  have lastSampleState_grain :
      lastSampleState.activeGrains 0 0 = { size := 32, position := 31, isActive := true } := by
    unfold lastSampleState
    simp
  have lastSampleState_grain_other : ∀ (i : Nat),
      (lastSampleState.activeGrains 0 (i + 1)).isActive = false := by
    intro i
    unfold lastSampleState
    simp
  have henv : 0 < grainEnvelope (lastSampleState.activeGrains 0 0) := by
    apply grainEnvelope_pos
    · rw [lastSampleState_grain]; decide
    · rw [lastSampleState_grain]; decide
  refine ⟨?_, ?_, ne_of_gt henv, ?_⟩
  · rw [lastSampleState_grain]; decide
  · rw [processActiveGrains_grain, lastSampleState_grain]
    unfold maxGrains grainAdvance
    simp
  · rw [processActiveGrains_output, show maxGrains = 31 + 1 from rfl, List.range_succ_eq_map,
      List.map_cons, List.sum_cons, List.map_map]
    have htail : (List.map
        ((fun i =>
          if (lastSampleState.activeGrains 0 i).isActive = true
          then (fun _ : Int => (1 : ℝ)) (grainReadPos (lastSampleState.activeGrains 0 i))
            * grainEnvelope (lastSampleState.activeGrains 0 i)
            * (lastSampleState.activeGrains 0 i).amplitude
          else 0) ∘ Nat.succ) (List.range 31)).sum = 0 := by
      apply List.sum_eq_zero
      intro x hx
      rw [List.mem_map] at hx
      obtain ⟨i, _, rfl⟩ := hx
      simp [lastSampleState_grain_other]
    rw [htail, add_zero]
    have hact : (lastSampleState.activeGrains 0 0).isActive = true := by
      rw [lastSampleState_grain]
    have hamp : (lastSampleState.activeGrains 0 0).amplitude = 1 := by
      rw [lastSampleState_grain]
    rw [if_pos hact, hamp, one_mul, mul_one]
    exact ne_of_gt henv

/-- C11 (amended). For every grain of size at least 2 (sizes are in `[32, 16384]`), the
envelope that `processActiveGrains` applies is 0 at the first processed sample (position 0)
and strictly positive at every later processed sample (`0 < position < size`); at the last
processed sample (position `size - 1`) it is `0.5 * (1 - cos (2 * pi / size))`, the value it
has at position 1, which is not 0. -/
theorem grainEnvelope_boundary (g : Grain) (hs : 2 ≤ g.size) :
    grainEnvelope { g with position := 0 } = 0
    ∧ (∀ k : Int, 0 < k → k < g.size → 0 < grainEnvelope { g with position := k })
    ∧ grainEnvelope { g with position := g.size - 1 }
      = 0.5 * (1 - Real.cos (2 * Real.pi / (g.size : ℝ)))
    ∧ grainEnvelope { g with position := g.size - 1 } = grainEnvelope { g with position := 1 }
    ∧ 0 < grainEnvelope { g with position := g.size - 1 } := by
  have cos_lt_one_of_pos_of_lt : ∀ (x : ℝ) (h0 : 0 < x) (h1 : x < 2 * Real.pi),
      Real.cos x < 1 := by
    intro x h0 h1
    apply lt_of_le_of_ne (Real.cos_le_one x)
    intro h
    have := (Real.cos_eq_one_iff_of_lt_of_lt (by linarith [Real.pi_pos]) h1).mp h
    linarith
  have grainEnvelope_pos : ∀ (g : Grain) (h0 : 0 < g.position) (h1 : g.position < g.size),
      0 < grainEnvelope g := by
    intro g h0 h1
    have hs : (1 : Int) ≤ g.size := by omega
    have hmax : jmax 1 g.size = g.size := by
      unfold jmax
      split_ifs with h
      · rfl
      · omega
    have hsize : (0 : ℝ) < (g.size : ℝ) := by exact_mod_cast (by omega : 0 < g.size)
    have hpos : (0 : ℝ) < (g.position : ℝ) := by exact_mod_cast h0
    have hlt : (g.position : ℝ) < (g.size : ℝ) := by exact_mod_cast h1
    unfold grainEnvelope
    dsimp only
    rw [hmax]
    have hx0 : 0 < 2 * Real.pi * ((g.position : ℝ) / (g.size : ℝ)) :=
      mul_pos (by linarith [Real.pi_pos]) (div_pos hpos hsize)
    have hx1 : 2 * Real.pi * ((g.position : ℝ) / (g.size : ℝ)) < 2 * Real.pi := by
      have : (g.position : ℝ) / (g.size : ℝ) < 1 := (div_lt_one hsize).mpr hlt
      nlinarith [Real.pi_pos]
    have := cos_lt_one_of_pos_of_lt _ hx0 hx1
    linarith
  have hmax : jmax 1 g.size = g.size := by
    unfold jmax
    split_ifs with h
    · rfl
    · omega
  have hsize : (g.size : ℝ) ≠ 0 := by
    have : (0 : ℝ) < (g.size : ℝ) := by exact_mod_cast (by omega : 0 < g.size)
    exact ne_of_gt this
  have hlast : grainEnvelope { g with position := g.size - 1 }
      = 0.5 * (1 - Real.cos (2 * Real.pi / (g.size : ℝ))) := by
    unfold grainEnvelope
    dsimp only
    rw [hmax]
    have : 2 * Real.pi * (((g.size - 1 : Int) : ℝ) / (g.size : ℝ))
        = 2 * Real.pi - 2 * Real.pi / (g.size : ℝ) := by
      push_cast
      field_simp
      ring
    rw [this, Real.cos_two_pi_sub]
  have hone : grainEnvelope { g with position := 1 }
      = 0.5 * (1 - Real.cos (2 * Real.pi / (g.size : ℝ))) := by
    unfold grainEnvelope
    dsimp only
    rw [hmax]
    have : 2 * Real.pi * (((1 : Int) : ℝ) / (g.size : ℝ)) = 2 * Real.pi / (g.size : ℝ) := by
      push_cast
      field_simp
    rw [this]
  refine ⟨?_, ?_, hlast, ?_, ?_⟩
  · unfold grainEnvelope
    simp
  · intro k hk0 hk1
    exact grainEnvelope_pos { g with position := k } hk0 hk1
  · rw [hlast, hone]
  · exact grainEnvelope_pos { g with position := g.size - 1 }
      (by show 0 < g.size - 1; omega) (by show g.size - 1 < g.size; omega)

theorem grainEnvelope_boundary_witness :
    grainEnvelope { (lastSampleState.activeGrains 0 0) with position := 0 } = 0
    ∧ 0 < grainEnvelope { (lastSampleState.activeGrains 0 0) with
        position := (lastSampleState.activeGrains 0 0).size - 1 } := by
  have lastSampleState_grain :
      lastSampleState.activeGrains 0 0 = { size := 32, position := 31, isActive := true } := by
    unfold lastSampleState
    simp
  exact
    ⟨(grainEnvelope_boundary (lastSampleState.activeGrains 0 0)
        (by rw [lastSampleState_grain]; decide)).1,
      (grainEnvelope_boundary (lastSampleState.activeGrains 0 0)
        (by rw [lastSampleState_grain]; decide)).2.2.2.2⟩

/-! ## Pitch pass-through and centre pan -/

/-- C12. Whenever `|pitchSemitones + 12 * pitchOctaves| < 0.1`, `processPitchShift` returns
the buffer and the pitch members (pitch buffers, pitch write indices, pitch smoothers with
their targets) exactly as they were. -/
theorem processPitchShift_passthrough (p : Parameters) (ps : PitchState)
    (buffer : List (List ℝ)) (h : |p "pitchSemitones" + 12 * p "pitchOctaves"| < 0.1) :
    processPitchShift p ps buffer = (buffer, ps) := by
  unfold processPitchShift
  dsimp only
  rw [mul_comm (p "pitchOctaves") 12, if_pos h]

theorem processPitchShift_passthrough_witness :
    processPitchShift (fun _ => 0) (preparedPitch 48000) [[1, 2, 3], [4, 5, 6]]
      = ([[1, 2, 3], [4, 5, 6]], preparedPitch 48000) :=
  processPitchShift_passthrough (fun _ => 0) (preparedPitch 48000) [[1, 2, 3], [4, 5, 6]]
    (by norm_num)

/-- C13. With `panPosition = 0`, no LFO modulation of the pan (the LFO does not target the
pan or its depth is not positive) and the smoother `panSmoother[0]` at rest with target 0
(the state `prepareToPlay` leaves), `processPanning` uses `leftGain = rightGain = cos (pi / 4)`
for every sample pair: both output channels are `(L + R) * 0.5 * cos (pi / 4)`, the channels
after the second are untouched, and the smoother is left as it was. -/
theorem processPanning_centre (p : Parameters) (st : State) (pan : PanState)
    (left right : List ℝ) (others : List (List ℝ)) (hpan : p "panPosition" = 0)
    (hlfo : ¬ (p "lfoTarget" > 0.5 ∧ p "lfoDepth" > 0))
    (htarget : (pan.panSmoother 0).target = 0) (hrest : ¬ (pan.panSmoother 0).countdown > 0) :
    (panGains 0).1 = Real.cos (Real.pi / 4) ∧ (panGains 0).2 = Real.cos (Real.pi / 4)
    ∧ (processPanning p st pan (left :: right :: others)).1
      = (List.zip left right).map (fun x => (x.1 + x.2) * 0.5 * Real.cos (Real.pi / 4))
        :: (List.zip left right).map (fun x => (x.1 + x.2) * 0.5 * Real.cos (Real.pi / 4))
        :: others
    ∧ (processPanning p st pan (left :: right :: others)).2.panSmoother 0
      = pan.panSmoother 0 := by
  have panLoop_cons : ∀ (sm : SmoothedValue) (x : ℝ × ℝ) (xs : List (ℝ × ℝ)),
      panLoop sm (x :: xs)
        = (panSample sm.getNextValue.1 x.1 x.2 :: (panLoop sm.getNextValue.2 xs).1,
          (panLoop sm.getNextValue.2 xs).2) := by
    intro sm x xs
    exact
      rfl
  have panLoop_steady : ∀ (sm : SmoothedValue) (hc : ¬ sm.countdown > 0) (xs : List (ℝ × ℝ)),
      panLoop sm xs = (xs.map (fun x => panSample sm.target x.1 x.2), sm) := by
    intro sm hc xs
    induction xs with
    | nil => rfl
    | cons x xs ih =>
      have hnext : sm.getNextValue = (sm.target, sm) := by
        unfold SmoothedValue.getNextValue
        rw [if_pos hc]
      rw [panLoop_cons, hnext]
      dsimp only
      rw [ih]
      rfl
  have panGains_centre :
      (panGains 0).1 = Real.cos (Real.pi / 4) ∧ (panGains 0).2 = Real.cos (Real.pi / 4) := by
    have h : ((0 : ℝ) + 1) * 0.25 * Real.pi = Real.pi / 4 := by ring
    unfold panGains
    dsimp only
    rw [h, Real.sin_pi_div_four, Real.cos_pi_div_four]
    exact ⟨rfl, rfl⟩
  have hmod : modulatedPan p st / 100 = 0 := by
    unfold modulatedPan
    dsimp only
    rw [if_neg hlfo, hpan, zero_div]
  have hset : (pan.panSmoother 0).setTargetValue (modulatedPan p st / 100)
      = pan.panSmoother 0 := by
    unfold SmoothedValue.setTargetValue
    rw [hmod, htarget, if_pos rfl]
  have hloop := panLoop_steady (pan.panSmoother 0) hrest (List.zip left right)
  rw [htarget] at hloop
  obtain ⟨hl, hr⟩ := panGains_centre
  refine ⟨hl, hr, ?_, ?_⟩
  · unfold processPanning
    dsimp only
    rw [if_pos (by decide : 0 < 2), hset, hloop]
    dsimp only
    rw [List.map_map, List.map_map]
    congr 1
    · apply List.map_congr_left
      intro x _
      unfold panSample
      simp only [Function.comp, hl]
    · congr 1
      apply List.map_congr_left
      intro x _
      unfold panSample
      simp only [Function.comp, hr]
  · unfold processPanning
    dsimp only
    rw [if_pos (by decide : 0 < 2), hset, hloop, Function.update_same]

theorem processPanning_centre_witness :
    (processPanning (fun _ => 0) (constructed zeroRandom 48000) (preparedPan 48000)
        [[1, 0], [0, 1]]).1
      = [(List.zip [(1 : ℝ), 0] [(0 : ℝ), 1]).map
            (fun x => (x.1 + x.2) * 0.5 * Real.cos (Real.pi / 4)),
          (List.zip [(1 : ℝ), 0] [(0 : ℝ), 1]).map
            (fun x => (x.1 + x.2) * 0.5 * Real.cos (Real.pi / 4))] :=
  (processPanning_centre (fun _ => 0) (constructed zeroRandom 48000) (preparedPan 48000)
    [1, 0] [0, 1] [] rfl (by norm_num) rfl (by unfold preparedPan SmoothedValue.setCurrentAndTargetValue; simp)).2.2.1

/-! ## The filter stage -/

/-- C14. With the LFO on the cutoff (filterCutoff 70, lfoDepth 50, sine LFO at its peak
value 1), `processFilter` limits `70 + 1 * 50 * 1000` to 20000 and then maps that value as
if it were the 0 to 100 control: the cutoff it hands to the state-variable filter is
`20 + 19980 * 20000 / 100 = 3996020` Hz, above 20000 Hz. -/
theorem processFilter_cutoff_out_of_range :
    getLFOValue cutoffLfoParameters quarterPhaseState = 1
    ∧ modulatedCutoff cutoffLfoParameters quarterPhaseState = 20000
    ∧ (processFilter cutoffLfoParameters quarterPhaseState lowpassSettings).cutoffFrequency
      = 3996020
    ∧ (20000 : ℝ)
      < (processFilter cutoffLfoParameters quarterPhaseState lowpassSettings).cutoffFrequency := by
  have quarterPhase_getLFOValue :
      getLFOValue cutoffLfoParameters quarterPhaseState = 1 := by
    have hphase : quarterPhaseState.lfoState.phase = 0.25 := rfl
    have hangle : (0.25 : ℝ) * 2 * Real.pi = Real.pi / 2 := by ring
    have hw : cutoffLfoParameters "lfoWaveform" = 0 := by unfold cutoffLfoParameters; simp
    have hb : cutoffLfoParameters "lfoBipolar" = 1 := by unfold cutoffLfoParameters; simp
    unfold getLFOValue
    dsimp only
    rw [hw, hb, hphase, hangle, Real.sin_pi_div_two]
    norm_num
  have hc : cutoffLfoParameters "filterCutoff" = 70 := by unfold cutoffLfoParameters; simp
  have hd : cutoffLfoParameters "lfoDepth" = 50 := by unfold cutoffLfoParameters; simp
  have ht : cutoffLfoParameters "lfoTarget" = 0 := by unfold cutoffLfoParameters; simp
  have hmod : modulatedCutoff cutoffLfoParameters quarterPhaseState = 20000 := by
    unfold modulatedCutoff
    dsimp only
    rw [hc, hd, ht, quarterPhase_getLFOValue, if_pos (by norm_num)]
    unfold jlimit
    norm_num
  have hcut : (processFilter cutoffLfoParameters quarterPhaseState lowpassSettings).cutoffFrequency
      = 3996020 := by
    unfold processFilter
    dsimp only
    rw [hmod]
    unfold jmap
    norm_num
  refine ⟨quarterPhase_getLFOValue, hmod, hcut, ?_⟩
  rw [hcut]
  norm_num

/-- C15. The `switch` of `processFilter` is written as the claim says: on the rounded
`filterMode`, index 0 sets the filter type to lowpass, 1 to bandpass, 2 to highpass, and
every other index leaves the type as it was before the call. But no call of `processFilter`
reaches the `switch`: the five reads before it return a pointer, and for every parameter
state the lookup of `filterMode` returns the null pointer, which the statement before the
`switch` dereferences, so the call with its lookups has no result. -/
theorem processFilter_mode_null_lookup (values : Parameters) (st : State)
    (f : FilterSettings) :
    getRawParameterValue values "filterMode" = none
    ∧ processFilterLookup values st f = none
    ∧ (∀ id ∈ ["filterCutoff", "filterResonance", "filterType", "lfoDepth", "lfoTarget"],
        getRawParameterValue values id = some (values id))
    ∧ (roundToInt (values "filterMode") = 0 →
      (processFilter values st f).filterType = StateVariableTPTFilterType.lowpass)
    ∧ (roundToInt (values "filterMode") = 1 →
      (processFilter values st f).filterType = StateVariableTPTFilterType.bandpass)
    ∧ (roundToInt (values "filterMode") = 2 →
      (processFilter values st f).filterType = StateVariableTPTFilterType.highpass)
    ∧ (roundToInt (values "filterMode") ≠ 0 → roundToInt (values "filterMode") ≠ 1 →
      roundToInt (values "filterMode") ≠ 2 →
      (processFilter values st f).filterType = f.filterType) := by
  have hdecl : ∀ id ∈ ["filterCutoff", "filterResonance", "filterType", "lfoDepth",
      "lfoTarget"], getRawParameterValue values id = some (values id) := by
    intro id hid
    have hmem : id ∈ createParameterLayout := by
      revert id
      decide
    unfold getRawParameterValue
    rw [if_pos hmem]
  have hmode : getRawParameterValue values "filterMode" = none := by
    unfold getRawParameterValue
    rw [if_neg (by decide)]
  refine ⟨hmode, ?_, hdecl, ?_, ?_, ?_, ?_⟩
  · unfold processFilterLookup
    rw [hdecl "filterCutoff" (by decide), hdecl "filterResonance" (by decide),
      hdecl "filterType" (by decide), hdecl "lfoDepth" (by decide),
      hdecl "lfoTarget" (by decide), hmode]
    rfl
  · intro h
    unfold processFilter
    dsimp only
    rw [h, if_pos rfl]
  · intro h
    unfold processFilter
    dsimp only
    rw [h, if_neg (by decide), if_pos rfl]
  · intro h
    unfold processFilter
    dsimp only
    rw [h, if_neg (by decide), if_neg (by decide), if_pos rfl]
  · intro h0 h1 h2
    unfold processFilter
    dsimp only
    rw [if_neg h0, if_neg h1, if_neg h2]

/-! ## The LFO frequency without host tempo -/

/-- C16 (as stated, refuted). With tempo-sync enabled, the rate control at 25 and no play
head, `updateLFO` on a newly constructed processor returns with the frequency still at its
initial value 1, which is not the mapped rate `0.1 + 9.9 * 25 / 100 = 2.575`. -/
theorem updateLFO_no_fallback_counterexample :
    ∃ st2 : State, updateLFO 1 tempoSyncParameters (constructed zeroRandom 48000) = some st2
      ∧ st2.lfoState.frequency = 1
      ∧ st2.lfoState.frequency ≠ jmap (tempoSyncParameters "lfoRate") 0 100 0.1 10 := by
  have wrapPhase_cons : ∀ (fuel : Nat) (phase : ℝ),
      wrapPhase (fuel + 1) phase
        = if phase ≥ 1 then wrapPhase fuel (phase - 1) else some phase := by
    intro fuel phase
    exact
      rfl
  have hs : tempoSyncParameters "lfoTempoSync" = 1 := by unfold tempoSyncParameters; simp
  have hr : tempoSyncParameters "lfoRate" = 25 := by unfold tempoSyncParameters; simp
  have hfreq : updateLFOFrequency tempoSyncParameters (constructed zeroRandom 48000) = 1 := by
    unfold updateLFOFrequency
    dsimp only
    rw [if_pos (decide_eq_true (by rw [hs]; norm_num))]
    rfl
  have hwrap : wrapPhase 1 ((constructed zeroRandom 48000).lfoState.phase
      + updateLFOFrequency tempoSyncParameters (constructed zeroRandom 48000)
        * (1 / (constructed zeroRandom 48000).currentSampleRate)
        * (((constructed zeroRandom 48000).currentBufferSize : Int) : ℝ))
      = some (512 / 44100) := by
    rw [hfreq]
    have : (constructed zeroRandom 48000).lfoState.phase
        + 1 * (1 / (constructed zeroRandom 48000).currentSampleRate)
          * (((constructed zeroRandom 48000).currentBufferSize : Int) : ℝ) = 512 / 44100 := by
      unfold constructed
      simp
      norm_num
    rw [this, wrapPhase_cons, if_neg (by norm_num)]
  have hrun : updateLFO 1 tempoSyncParameters (constructed zeroRandom 48000)
      = some { constructed zeroRandom 48000 with
          lfoState := { (constructed zeroRandom 48000).lfoState with
            frequency := updateLFOFrequency tempoSyncParameters (constructed zeroRandom 48000)
            phase := 512 / 44100 } } := by
    unfold updateLFO
    dsimp only
    rw [hwrap]
  refine ⟨_, hrun, hfreq, ?_⟩
  show updateLFOFrequency tempoSyncParameters (constructed zeroRandom 48000) ≠ _
  rw [hfreq, hr]
  unfold jmap
  norm_num

/-- C16 (amended). When tempo-sync is enabled but host tempo information is not available (no
play head, no position, or no BPM), `updateLFO` leaves the LFO frequency at the value it had
before the call, whatever the rate control; the rate control mapped from 0–100 to 0.1–10 Hz is
used only when tempo-sync is disabled. -/
theorem updateLFO_frequency_without_tempo (p : Parameters) (st : State)
    (hhost : st.getPlayHead = none ∨ st.getPlayHead = some ⟨none⟩
      ∨ st.getPlayHead = some ⟨some ⟨none⟩⟩) :
    (p "lfoTempoSync" > 0.5 → updateLFOFrequency p st = st.lfoState.frequency)
    ∧ (p "lfoTempoSync" > 0.5 → ∀ (fuel : Nat) (st2 : State),
        updateLFO fuel p st = some st2 → st2.lfoState.frequency = st.lfoState.frequency)
    ∧ (¬ p "lfoTempoSync" > 0.5 → updateLFOFrequency p st = jmap (p "lfoRate") 0 100 0.1 10) := by
  have hkeep : p "lfoTempoSync" > 0.5 → updateLFOFrequency p st = st.lfoState.frequency := by
    intro hsync
    unfold updateLFOFrequency
    dsimp only
    rw [if_pos (by simpa using hsync)]
    rcases hhost with h | h | h <;> rw [h]
  refine ⟨hkeep, ?_, ?_⟩
  · intro hsync fuel st2 h
    unfold updateLFO at h
    dsimp only at h
    split at h
    · exact absurd h (by simp)
    · rw [← Option.some.inj h]
      exact hkeep hsync
  · intro hsync
    unfold updateLFOFrequency
    dsimp only
    rw [if_neg (by simpa using hsync)]

theorem updateLFO_frequency_without_tempo_witness :
    updateLFOFrequency tempoSyncParameters (constructed zeroRandom 48000)
      = (constructed zeroRandom 48000).lfoState.frequency :=
  (updateLFO_frequency_without_tempo tempoSyncParameters (constructed zeroRandom 48000)
    (Or.inl rfl)).1 (by unfold tempoSyncParameters; norm_num)

/-! ## The flanger feedback ramp -/

/-- C17. At 48 kHz `prepareToPlay` configures the feedback smoother for 960 steps (20 ms of
samples), but `processFlanger` draws one value per call, whatever the block length. After the
control goes from 0 to 40, the feedback handed to the flanger by the third call (with blocks
of 512 samples: 1536 samples, more than 960) is `3 * (0.4 / 960)`, not the target 0.4; the
target is reached at the 960th call. -/
theorem processFlanger_feedback_per_block :
    (preparedFlanger 48000).flangerFeedbackSmoother.stepsToTarget = 960
    ∧ ((processFlanger flangerParameters)^[3] (preparedFlanger 48000)).flanger.feedback
      = 3 * (0.4 / 960)
    ∧ ((processFlanger flangerParameters)^[3] (preparedFlanger 48000)).flanger.feedback
      ≠ flangerParameters "flangerFeedback" / 100
    ∧ ((processFlanger flangerParameters)^[960] (preparedFlanger 48000)).flanger.feedback
      = flangerParameters "flangerFeedback" / 100 := by
  have preparedFlanger_smoother : ∀ (sampleRate : ℝ),
      (preparedFlanger sampleRate).flangerFeedbackSmoother
        = { currentValue := 0, target := 0, step := 0, countdown := 0,
            stepsToTarget := ⌊0.02 * sampleRate⌋ } := by
    intro sampleRate
    unfold preparedFlanger SmoothedValue.reset SmoothedValue.resetSteps SmoothedValue.setCurrentAndTargetValue
    simp
  have processFlanger_smoother : ∀ (p : Parameters) (fs : FlangerState),
      (processFlanger p fs).flangerFeedbackSmoother
        = ((fs.flangerFeedbackSmoother.setTargetValue (p "flangerFeedback" / 100)).getNextValue).2 := by
    intro p fs
    exact
      rfl
  have processFlanger_feedback : ∀ (p : Parameters) (fs : FlangerState),
      (processFlanger p fs).flanger.feedback
        = ((fs.flangerFeedbackSmoother.setTargetValue (p "flangerFeedback" / 100)).getNextValue).1 := by
    intro p fs
    exact
      rfl
  have smoother_start : ∀ (t : ℝ) (N : Int) (ht0 : t ≠ 0) (hN : N - 1 > 0),
      (({ currentValue := 0, target := 0, step := 0, countdown := 0, stepsToTarget := N }
          : SmoothedValue).setTargetValue t).getNextValue
        = (((1 : Nat) : ℝ) * (t / (N : ℝ)),
            { currentValue := ((1 : Nat) : ℝ) * (t / (N : ℝ)), target := t, step := t / (N : ℝ),
              countdown := N - ((1 : Nat) : Int), stepsToTarget := N }) := by
    intro t N ht0 hN
    unfold SmoothedValue.setTargetValue
    dsimp only
    rw [if_neg ht0, if_neg (by omega)]
    unfold SmoothedValue.getNextValue
    dsimp only
    rw [if_neg (not_not.mpr (by omega)), if_pos hN]
    have hv : (0 : ℝ) + (t - 0) / (N : ℝ) = ((1 : Nat) : ℝ) * (t / (N : ℝ)) := by
      push_cast; ring
    have hd : (t - 0) / (N : ℝ) = t / (N : ℝ) := by ring
    rw [hv, hd]
    rfl
  have smoother_ramping : ∀ (t : ℝ) (N : Int) (k : Nat) (hc : N - (k : Int) - 1 > 0),
      (({ currentValue := (k : ℝ) * (t / (N : ℝ)), target := t, step := t / (N : ℝ),
            countdown := N - (k : Int), stepsToTarget := N } : SmoothedValue).setTargetValue
          t).getNextValue
        = (((k + 1 : Nat) : ℝ) * (t / (N : ℝ)),
            { currentValue := ((k + 1 : Nat) : ℝ) * (t / (N : ℝ)), target := t,
              step := t / (N : ℝ), countdown := N - ((k + 1 : Nat) : Int),
              stepsToTarget := N }) := by
    intro t N k hc
    unfold SmoothedValue.setTargetValue
    dsimp only
    rw [if_pos rfl]
    unfold SmoothedValue.getNextValue
    dsimp only
    rw [if_neg (not_not.mpr (by omega)), if_pos hc]
    have hv : (k : ℝ) * (t / (N : ℝ)) + t / (N : ℝ) = ((k + 1 : Nat) : ℝ) * (t / (N : ℝ)) := by
      push_cast; ring
    have hcd : N - (k : Int) - 1 = N - ((k + 1 : Nat) : Int) := by push_cast; ring
    rw [hv, hcd]
  have smoother_arrival : ∀ (t : ℝ) (N : Int) (k : Nat) (hc0 : N - (k : Int) > 0)
      (hc : ¬ N - (k : Int) - 1 > 0),
      ((({ currentValue := (k : ℝ) * (t / (N : ℝ)), target := t, step := t / (N : ℝ),
            countdown := N - (k : Int), stepsToTarget := N } : SmoothedValue).setTargetValue
          t).getNextValue).1 = t := by
    intro t N k hc0 hc
    unfold SmoothedValue.setTargetValue
    dsimp only
    rw [if_pos rfl]
    unfold SmoothedValue.getNextValue
    dsimp only
    rw [if_neg (not_not.mpr hc0), if_neg hc]
  have processFlanger_ramp : ∀ (p : Parameters) (sampleRate t : ℝ) (N : Int)
      (ht : p "flangerFeedback" / 100 = t) (ht0 : t ≠ 0) (hN : ⌊0.02 * sampleRate⌋ = N) (n : Nat)
      (h1 : 1 ≤ n) (hn : (n : Int) < N),
      ((processFlanger p)^[n] (preparedFlanger sampleRate)).flangerFeedbackSmoother
        = { currentValue := (n : ℝ) * (t / (N : ℝ)), target := t, step := t / (N : ℝ),
            countdown := N - (n : Int), stepsToTarget := N }
      ∧ ((processFlanger p)^[n] (preparedFlanger sampleRate)).flanger.feedback
        = (n : ℝ) * (t / (N : ℝ)) := by
    intro p sampleRate t N ht ht0 hN n h1 hn
    induction n with
    | zero => exact absurd h1 (by decide)
    | succ k ih =>
      rw [Function.iterate_succ_apply', processFlanger_smoother, processFlanger_feedback, ht]
      by_cases hk : k = 0
      · subst hk
        rw [Function.iterate_zero, id_eq, preparedFlanger_smoother, hN,
          smoother_start t N ht0 (by push_cast at hn; omega)]
        exact ⟨rfl, rfl⟩
      · have hk1 : 1 ≤ k := Nat.one_le_iff_ne_zero.mpr hk
        have hkN : (k : Int) < N := by push_cast at hn; omega
        obtain ⟨hsm, _⟩ := ih hk1 hkN
        rw [hsm, smoother_ramping t N k (by push_cast at hn; omega)]
        exact ⟨rfl, rfl⟩
  have processFlanger_ramp_end : ∀ (p : Parameters) (sampleRate t : ℝ) (N : Int)
      (ht : p "flangerFeedback" / 100 = t) (ht0 : t ≠ 0) (hN : ⌊0.02 * sampleRate⌋ = N) (n : Nat)
      (h1 : 1 ≤ n) (hn : ((n : Int) + 1) = N),
      ((processFlanger p)^[n + 1] (preparedFlanger sampleRate)).flanger.feedback = t := by
    intro p sampleRate t N ht ht0 hN n h1 hn
    rw [Function.iterate_succ_apply', processFlanger_feedback, ht]
    obtain ⟨hsm, _⟩ := processFlanger_ramp p sampleRate t N ht ht0 hN n h1 (by omega)
    rw [hsm]
    exact smoother_arrival t N n (by omega) (by omega)
  have floor_ramp_48000 :
      ⌊(0.02 : ℝ) * 48000⌋ = 960 := by
    have : (0.02 : ℝ) * 48000 = ((960 : Int) : ℝ) := by norm_num
    rw [this, Int.floor_intCast]
  have ht : flangerParameters "flangerFeedback" / 100 = 0.4 := by
    unfold flangerParameters
    simp
    norm_num
  have h3 := (processFlanger_ramp flangerParameters 48000 0.4 960 ht (by norm_num)
    floor_ramp_48000 3 (by decide) (by decide)).2
  have hend := processFlanger_ramp_end flangerParameters 48000 0.4 960 ht (by norm_num)
    floor_ramp_48000 959 (by decide) (by decide)
  refine ⟨?_, ?_, ?_, ?_⟩
  · rw [preparedFlanger_smoother, floor_ramp_48000]
  · rw [h3]; norm_num
  · rw [h3, ht]; norm_num
  · rw [hend, ht]

/-! ## Read indices of the delay buffers -/

/-- C18. For a write index in `[0, 192000)`, `delaySamples` in `[1, 191999]`, a grain size
argument in `[64, 8192]`, spray in `[0, 1]` and a draw of `nextFloat` in `[0, 1)`: the start
position of the grain that `triggerNewGrain` creates, the read index of `processActiveGrains`
(forward or reverse) for every grain with start position in `[0, 192000)`, size in
`[32, 16384]` and position in `[0, size)`, and the cross-feed read index of channel 0 and of
the other channel all lie in `[0, 192000)`; the cross-feed reads the other channel's buffer at
that index. -/
theorem delay_read_indices_in_bounds (L : BlockLocals) (st : State) (channel : Nat)
    (grainSize : Int) (spray : ℝ) (reverse : Bool) (randomization : ℝ) (i : Nat)
    (hw0 : 0 ≤ st.delayWriteIndex channel) (hw1 : st.delayWriteIndex channel < 192000)
    (hd0 : 1 ≤ L.delaySamples) (hd1 : L.delaySamples ≤ 191999)
    (hg0 : 64 ≤ grainSize) (hg1 : grainSize ≤ 8192)
    (hs0 : 0 ≤ spray) (hs1 : spray ≤ 1)
    (hr0 : 0 ≤ st.random.draws 0) (hr1 : st.random.draws 0 < 1)
    (hslot : firstInactive st channel = some i) :
    (0 ≤ ((triggerNewGrain st channel grainSize spray reverse randomization).activeGrains
          channel i).startPos
      ∧ ((triggerNewGrain st channel grainSize spray reverse randomization).activeGrains
          channel i).startPos < 192000)
    ∧ (∀ g : Grain, 0 ≤ g.startPos → g.startPos < 192000 → 32 ≤ g.size → g.size ≤ 16384 →
        0 ≤ g.position → g.position < g.size →
        0 ≤ grainReadPos g ∧ grainReadPos g < 192000)
    ∧ (0 ≤ crossFeedIndex L channel st ∧ crossFeedIndex L channel st < 192000)
    ∧ crossFeed L channel st
      = (if L.numChannels = 2 ∧ L.stereoWidth > 0 then
          st.delayBuffers (if channel = 0 then 1 else 0) (crossFeedIndex L channel st)
            * L.stereoWidth * 0.3
        else 0) := by
  have tmod_eq_emod_of_nonneg : ∀ (a : Int) (h : 0 ≤ a),
      a.tmod maxDelayTime = a % maxDelayTime := by
    intro a h
    exact
      Int.tmod_eq_emod h (by decide)
  have toInt_bounds : ∀ (x : ℝ) (a b : Int) (ha : a ≤ 0) (hb : 0 ≤ b) (hax : (a : ℝ) ≤ x)
      (hxb : x ≤ (b : ℝ)),
      a ≤ toInt x ∧ toInt x ≤ b := by
    intro x a b ha hb hax hxb
    unfold toInt
    split_ifs with h
    · constructor
      · exact le_trans ha (Int.floor_nonneg.mpr h)
      · exact Int.cast_le.mp (le_trans (Int.floor_le x) hxb)
    · have hx : x ≤ 0 := le_of_lt (not_le.mp h)
      constructor
      · exact Int.cast_le.mp (le_trans hax (Int.le_ceil x))
      · exact le_trans (Int.ceil_le.mpr (by simpa using hx)) hb
  have tmod_range : ∀ (a : Int) (h : 0 ≤ a),
      0 ≤ a.tmod maxDelayTime ∧ a.tmod maxDelayTime < 192000 := by
    intro a h
    rw [tmod_eq_emod_of_nonneg a h]
    exact ⟨Int.emod_nonneg _ (by decide), Int.emod_lt_of_pos _ (by decide)⟩
  have triggerNewGrain_startPos : ∀ (st : State) (channel : Nat) (grainSize : Int) (spray : ℝ)
      (reverse : Bool) (randomization : ℝ) (i : Nat) (h : firstInactive st channel = some i),
      ((triggerNewGrain st channel grainSize spray reverse randomization).activeGrains
          channel i).startPos
        = (st.delayWriteIndex channel - grainSize
            + toInt ((grainSize : ℝ) * (spray * (st.random.draws 0 * 2 - 1)))
            + maxDelayTime).tmod maxDelayTime := by
    intro st channel grainSize spray reverse randomization i h
    unfold triggerNewGrain
    rw [h]
    dsimp only
    split_ifs with hr
    · simp only [Function.update_same]
      rfl
    · simp only [Function.update_same]
      rfl
  have crossFeed_eq : ∀ (L : BlockLocals) (channel : Nat) (st : State),
      crossFeed L channel st
        = if L.numChannels = 2 ∧ L.stereoWidth > 0 then
            st.delayBuffers (if channel = 0 then 1 else 0) (crossFeedIndex L channel st)
              * L.stereoWidth * 0.3
          else 0 := by
    intro L channel st
    unfold crossFeed crossFeedIndex
    by_cases hc : channel = 0
    · simp only [hc, if_true]
    · simp only [hc, if_false]
  have hgR0 : (64 : ℝ) ≤ (grainSize : ℝ) := by exact_mod_cast hg0
  have hgR1 : (grainSize : ℝ) ≤ 8192 := by exact_mod_cast hg1
  have hdR0 : (1 : ℝ) ≤ (L.delaySamples : ℝ) := by exact_mod_cast hd0
  have hdR1 : (L.delaySamples : ℝ) ≤ 191999 := by exact_mod_cast hd1
  refine ⟨?_, ?_, ?_, crossFeed_eq L channel st⟩
  · rw [triggerNewGrain_startPos st channel grainSize spray reverse randomization i hslot]
    have hamt0 : -1 ≤ spray * (st.random.draws 0 * 2 - 1) := by nlinarith
    have hamt1 : spray * (st.random.draws 0 * 2 - 1) ≤ 1 := by nlinarith
    have hoff := toInt_bounds ((grainSize : ℝ) * (spray * (st.random.draws 0 * 2 - 1)))
      (-8192) 8192 (by decide) (by decide) (by push_cast; nlinarith) (by push_cast; nlinarith)
    exact tmod_range _ (by unfold maxDelayTime; omega)
  · intro g hs0' hs1' hz0 hz1 hp0 hp1
    unfold grainReadPos
    split_ifs
    · exact tmod_range _ (by unfold maxDelayTime; omega)
    · exact tmod_range _ (by omega)
  · unfold crossFeedIndex
    split_ifs
    · have hcd := toInt_bounds ((L.delaySamples : ℝ) * 0.7) 0 191999 (by decide) (by decide)
        (by push_cast; linarith) (by push_cast; linarith)
      exact tmod_range _ (by unfold maxDelayTime; omega)
    · have hcd := toInt_bounds ((L.delaySamples : ℝ) * 0.8) 0 191999 (by decide) (by decide)
        (by push_cast; linarith) (by push_cast; linarith)
      exact tmod_range _ (by unfold maxDelayTime; omega)

theorem delay_read_indices_in_bounds_witness :
    (0 ≤ ((triggerNewGrain (constructed zeroRandom 48000) 0 2880 0.1 false 0).activeGrains
          0 0).startPos
      ∧ ((triggerNewGrain (constructed zeroRandom 48000) 0 2880 0.1 false 0).activeGrains
          0 0).startPos < 192000)
    ∧ (0 ≤ crossFeedIndex scenarioB 0 (constructed zeroRandom 48000)
      ∧ crossFeedIndex scenarioB 0 (constructed zeroRandom 48000) < 192000) := by
  have h := delay_read_indices_in_bounds scenarioB (constructed zeroRandom 48000) 0 2880 0.1
    false 0 0 (by decide) (by decide) (by decide) (by decide) (by decide) (by decide)
    (by norm_num) (by norm_num) (by unfold constructed zeroRandom; simp)
    (by unfold constructed zeroRandom; simp) (by decide)
  exact ⟨h.1, h.2.2.1⟩

/-! ## Waveform capture and read-out -/

/-- C19. From a decimation counter of 0 and a write index in `[0, 512)`: after any number `n`
of calls of `captureWaveformData` the counter is `n mod 64` and the write index is the start
index plus `n / 64` modulo 512, so it stays in `[0, 512)`; the next call writes exactly when
it is a 64th call (`(n + 1) mod 64 = 0`): it then stores the combined RMS at the current
write index, advances the index by one modulo 512 and sets `hasNewData`; otherwise it leaves
the ring buffer, the write index and the flag as they are. The stored combined RMS is the
square root of the mean, over the channels, of each channel's mean square (the square of the
level `getRMSLevel` returns; 0 for a channel without samples): it is 1 for a stereo buffer of
ones and `sqrt (25 / 2)` for one channel of threes and one of fours. -/
theorem captureWaveformData_cadence (ws : WaveformState) (buffers : List (List (List ℝ)))
    (buffer : List (List ℝ)) (hc : ws.waveformDownsampleCounter = 0)
    (hw0 : 0 ≤ ws.waveformData.writeIndex) (hw1 : ws.waveformData.writeIndex < 512) :
    (captureWaveformDataRun ws buffers).waveformDownsampleCounter = (buffers.length : Int) % 64
    ∧ (captureWaveformDataRun ws buffers).waveformData.writeIndex
      = (ws.waveformData.writeIndex + (buffers.length : Int) / 64) % 512
    ∧ 0 ≤ (captureWaveformDataRun ws buffers).waveformData.writeIndex
    ∧ (captureWaveformDataRun ws buffers).waveformData.writeIndex < 512
    ∧ (((buffers.length : Int) + 1) % 64 = 0 →
        (captureWaveformData (captureWaveformDataRun ws buffers) buffer).waveformData
          = { buffer := Function.update (captureWaveformDataRun ws buffers).waveformData.buffer
                (captureWaveformDataRun ws buffers).waveformData.writeIndex
                (Real.sqrt ((buffer.map (fun channelData =>
                    if channelData.length = 0 then 0
                    else (channelData.map (fun x => x * x)).sum / (channelData.length : ℝ))).sum
                  / (buffer.length : ℝ)))
              writeIndex :=
                ((captureWaveformDataRun ws buffers).waveformData.writeIndex + 1) % 512
              hasNewData := true })
    ∧ (((buffers.length : Int) + 1) % 64 ≠ 0 →
        (captureWaveformData (captureWaveformDataRun ws buffers) buffer).waveformData
          = (captureWaveformDataRun ws buffers).waveformData)
    ∧ combinedRMS buffer
      = Real.sqrt ((buffer.map (fun channelData =>
            if channelData.length = 0 then 0
            else (channelData.map (fun x => x * x)).sum / (channelData.length : ℝ))).sum
          / (buffer.length : ℝ))
    ∧ combinedRMS [[1, 1], [1, 1]] = 1
    ∧ combinedRMS [[3, 3], [4, 4]] = Real.sqrt (25 / 2) := by
  have captureWaveformDataRun_nil : ∀ (ws : WaveformState),
      captureWaveformDataRun ws [] = ws := by
    intro ws
    exact
      rfl
  have captureWaveformDataRun_cons : ∀ (ws : WaveformState) (b : List (List ℝ))
      (bs : List (List (List ℝ))),
      captureWaveformDataRun ws (b :: bs)
        = captureWaveformDataRun (captureWaveformData ws b) bs := by
    intro ws b bs
    exact
      rfl
  have toSizeT_of_nonneg : ∀ (x : Int) (h0 : 0 ≤ x) (h1 : x < 2 ^ 64),
      toSizeT x = x := by
    intro x h0 h1
    unfold toSizeT
    exact Int.emod_eq_of_lt h0 h1
  have captureWaveformData_skip : ∀ (ws : WaveformState) (buffer : List (List ℝ))
      (h : ws.waveformDownsampleCounter + 1 < 64),
      captureWaveformData ws buffer
        = { ws with waveformDownsampleCounter := ws.waveformDownsampleCounter + 1 } := by
    intro ws buffer h
    unfold captureWaveformData
    rw [if_neg (by unfold waveformDownsampleRate; omega)]
  have captureWaveformData_write : ∀ (ws : WaveformState) (buffer : List (List ℝ))
      (h : 64 ≤ ws.waveformDownsampleCounter + 1) (hw0 : 0 ≤ ws.waveformData.writeIndex)
      (hw1 : ws.waveformData.writeIndex < 512),
      captureWaveformData ws buffer
        = { waveformDownsampleCounter := 0
            waveformData :=
              { buffer := Function.update ws.waveformData.buffer ws.waveformData.writeIndex
                  (combinedRMS buffer)
                writeIndex := (ws.waveformData.writeIndex + 1) % 512
                hasNewData := true } } := by
    intro ws buffer h hw0 hw1
    unfold captureWaveformData
    rw [if_pos (by unfold waveformDownsampleRate; omega)]
    dsimp only
    rw [toSizeT_of_nonneg _ (by omega) (by norm_num; omega)]
    rfl
  have captureWaveformDataRun_state : ∀ (buffers : List (List (List ℝ))),
      ∀ ws : WaveformState, 0 ≤ ws.waveformDownsampleCounter → ws.waveformDownsampleCounter < 64 →
        0 ≤ ws.waveformData.writeIndex → ws.waveformData.writeIndex < 512 →
        (captureWaveformDataRun ws buffers).waveformDownsampleCounter
          = (ws.waveformDownsampleCounter + (buffers.length : Int)) % 64
        ∧ (captureWaveformDataRun ws buffers).waveformData.writeIndex
          = (ws.waveformData.writeIndex
              + (ws.waveformDownsampleCounter + (buffers.length : Int)) / 64) % 512 := by
    intro buffers
    induction buffers with
    | nil =>
      intro ws hc0 hc1 hw0 hw1
      simp only [captureWaveformDataRun_cons, captureWaveformDataRun_nil, List.length_nil, Nat.cast_zero, add_zero]
      constructor <;> omega
    | cons b bs ih =>
      intro ws hc0 hc1 hw0 hw1
      rw [captureWaveformDataRun_cons, List.length_cons]
      by_cases hlast : 64 ≤ ws.waveformDownsampleCounter + 1
      · rw [captureWaveformData_write ws b hlast hw0 hw1]
        obtain ⟨h1, h2⟩ := ih
          { waveformDownsampleCounter := 0
            waveformData :=
              { buffer := Function.update ws.waveformData.buffer ws.waveformData.writeIndex
                  (combinedRMS b)
                writeIndex := (ws.waveformData.writeIndex + 1) % 512
                hasNewData := true } }
          (le_refl _) (by dsimp only; omega) (by dsimp only; omega) (by dsimp only; omega)
        rw [h1, h2]
        dsimp only
        push_cast
        constructor <;> omega
      · rw [captureWaveformData_skip ws b (by omega)]
        obtain ⟨h1, h2⟩ := ih
          { ws with waveformDownsampleCounter := ws.waveformDownsampleCounter + 1 }
          (by dsimp only; omega) (by dsimp only; omega) hw0 hw1
        rw [h1, h2]
        dsimp only
        push_cast
        constructor <;> omega
  have getRMSLevel_mul_self : ∀ (channelData : List ℝ),
      getRMSLevel channelData * getRMSLevel channelData
        = if channelData.length = 0 then 0
          else (channelData.map (fun x => x * x)).sum / (channelData.length : ℝ) := by
    intro channelData
    unfold getRMSLevel
    split_ifs with h
    · rw [mul_zero]
    · apply Real.mul_self_sqrt
      apply div_nonneg _ (Nat.cast_nonneg _)
      apply List.sum_nonneg
      intro y hy
      obtain ⟨x, _, hx⟩ := List.mem_map.mp hy
      rw [← hx]
      exact mul_self_nonneg x
  have foldl_add_eq_sum : ∀ (g : List ℝ → ℝ) (l : List (List ℝ)),
      ∀ init : ℝ, l.foldl (fun rms channelData => rms + g channelData) init
        = init + (l.map g).sum := by
    intro g l
    induction l with
    | nil =>
      intro init
      simp
    | cons c cs ih =>
      intro init
      rw [List.foldl_cons, ih, List.map_cons, List.sum_cons, add_assoc]
  have combinedRMS_eq : ∀ (buffer : List (List ℝ)),
      combinedRMS buffer
        = Real.sqrt ((buffer.map (fun channelData =>
              if channelData.length = 0 then 0
              else (channelData.map (fun x => x * x)).sum / (channelData.length : ℝ))).sum
            / (buffer.length : ℝ)) := by
    intro buffer
    unfold combinedRMS
    rw [foldl_add_eq_sum (fun channelData => getRMSLevel channelData * getRMSLevel channelData),
      zero_add]
    have hf : (fun channelData => getRMSLevel channelData * getRMSLevel channelData)
        = (fun channelData => if channelData.length = 0 then 0
            else (channelData.map (fun x => x * x)).sum / (channelData.length : ℝ)) :=
      funext getRMSLevel_mul_self
    rw [hf]
  obtain ⟨h1, h2⟩ := captureWaveformDataRun_state buffers ws (by omega) (by omega) hw0 hw1
  rw [hc, zero_add] at h1 h2
  have hr0 : 0 ≤ (captureWaveformDataRun ws buffers).waveformData.writeIndex := by
    rw [h2]; omega
  have hr1 : (captureWaveformDataRun ws buffers).waveformData.writeIndex < 512 := by
    rw [h2]; omega
  refine ⟨h1, h2, hr0, hr1, ?_, ?_, combinedRMS_eq buffer, ?_, ?_⟩
  · intro h64
    rw [captureWaveformData_write _ buffer (by rw [h1]; omega) hr0 hr1, combinedRMS_eq]
  · intro h64
    rw [captureWaveformData_skip _ buffer (by rw [h1]; omega)]
  · rw [combinedRMS_eq]
    simp only [List.map_cons, List.map_nil, List.sum_cons, List.sum_nil, List.length_cons,
      List.length_nil]
    norm_num
  · rw [combinedRMS_eq]
    simp only [List.map_cons, List.map_nil, List.sum_cons, List.sum_nil, List.length_cons,
      List.length_nil]
    norm_num

theorem captureWaveformData_cadence_witness :
    (captureWaveformDataRun constructedWaveform
        (List.replicate 64 [[1, 1], [1, 1]])).waveformData.writeIndex
      = (constructedWaveform.waveformData.writeIndex
          + (((List.replicate 64 [[(1 : ℝ), 1], [1, 1]]).length : Nat) : Int) / 64) % 512 :=
  (captureWaveformData_cadence constructedWaveform (List.replicate 64 [[1, 1], [1, 1]]) []
    rfl (by decide) (by decide)).2.1

/-- C20. With the write index in `[0, 512)`: when `hasNewData` is set, `timerCallback` copies
all 512 ring entries so that `display[i] = ring[(writeIndex + i) mod 512]` for every `i` in
`[0, 512)`, every source index being in `[0, 512)`, leaves the ring and its write index as
they are and clears the flag; the first element is the entry at the write index (the oldest,
the next to be overwritten) and the last element is the entry just before the write index,
which is the value stored by the latest writing call of `captureWaveformData`. When the flag
is not set, nothing is copied and nothing changes. -/
theorem timerCallback_chronological (wd : WaveformData) (displayBuffer : Int → ℝ)
    (hw0 : 0 ≤ wd.writeIndex) (hw1 : wd.writeIndex < 512) :
    (wd.hasNewData = true →
      (∀ i : Int, 0 ≤ i → i < 512 →
        (timerCallback wd displayBuffer).2 i = wd.buffer ((wd.writeIndex + i) % 512)
        ∧ sourceIndex wd.writeIndex i = (wd.writeIndex + i) % 512
        ∧ 0 ≤ sourceIndex wd.writeIndex i ∧ sourceIndex wd.writeIndex i < 512)
      ∧ (timerCallback wd displayBuffer).2 0 = wd.buffer wd.writeIndex
      ∧ (timerCallback wd displayBuffer).2 511 = wd.buffer ((wd.writeIndex + 511) % 512)
      ∧ (timerCallback wd displayBuffer).1
        = { buffer := wd.buffer, writeIndex := wd.writeIndex, hasNewData := false })
    ∧ (∀ (ws : WaveformState) (buffer : List (List ℝ)),
        64 ≤ ws.waveformDownsampleCounter + 1 → 0 ≤ ws.waveformData.writeIndex →
        ws.waveformData.writeIndex < 512 →
        (timerCallback (captureWaveformData ws buffer).waveformData displayBuffer).2 511
          = combinedRMS buffer)
    ∧ (wd.hasNewData = false → timerCallback wd displayBuffer = (wd, displayBuffer)) := by
  have toSizeT_of_nonneg : ∀ (x : Int) (h0 : 0 ≤ x) (h1 : x < 2 ^ 64),
      toSizeT x = x := by
    intro x h0 h1
    unfold toSizeT
    exact Int.emod_eq_of_lt h0 h1
  have captureWaveformData_write : ∀ (ws : WaveformState) (buffer : List (List ℝ))
      (h : 64 ≤ ws.waveformDownsampleCounter + 1) (hw0 : 0 ≤ ws.waveformData.writeIndex)
      (hw1 : ws.waveformData.writeIndex < 512),
      captureWaveformData ws buffer
        = { waveformDownsampleCounter := 0
            waveformData :=
              { buffer := Function.update ws.waveformData.buffer ws.waveformData.writeIndex
                  (combinedRMS buffer)
                writeIndex := (ws.waveformData.writeIndex + 1) % 512
                hasNewData := true } } := by
    intro ws buffer h hw0 hw1
    unfold captureWaveformData
    rw [if_pos (by unfold waveformDownsampleRate; omega)]
    dsimp only
    rw [toSizeT_of_nonneg _ (by omega) (by norm_num; omega)]
    rfl
  have sourceIndex_eq : ∀ (readIndex i : Int),
      sourceIndex readIndex i = (readIndex + i) % 512 := by
    intro readIndex i
    unfold sourceIndex toSizeT waveformBufferSize
    norm_num
    omega
  have foldl_copyLoopBody : ∀ (wd : WaveformData) (l : List Nat) (displayBuffer : Int → ℝ)
      (j : Int),
      (l.foldl (copyLoopBody wd) displayBuffer) j
        = if 0 ≤ j ∧ j.toNat ∈ l then wd.buffer (sourceIndex wd.writeIndex j)
          else displayBuffer j := by
    intro wd l displayBuffer j
    induction l generalizing displayBuffer with
    | nil => simp
    | cons a l ih =>
      rw [List.foldl_cons, ih]
      by_cases hmem : 0 ≤ j ∧ j.toNat ∈ l
      · rw [if_pos hmem, if_pos ⟨hmem.1, List.mem_cons_of_mem _ hmem.2⟩]
      · rw [if_neg hmem]
        unfold copyLoopBody
        by_cases hja : j = (a : Int)
        · subst hja
          rw [Function.update_same, if_pos ⟨by omega, by simp⟩]
        · rw [Function.update_noteq hja, if_neg]
          rintro ⟨h0, h1⟩
          rcases List.mem_cons.mp h1 with h | h
          · exact hja (by omega)
          · exact hmem ⟨h0, h⟩
  have timerCallback_display : ∀ (wd : WaveformData) (displayBuffer : Int → ℝ)
      (hnew : wd.hasNewData = true) (i : Int) (hi0 : 0 ≤ i) (hi1 : i < 512),
      (timerCallback wd displayBuffer).2 i = wd.buffer ((wd.writeIndex + i) % 512) := by
    intro wd displayBuffer hnew i hi0 hi1
    unfold timerCallback
    rw [if_pos hnew]
    dsimp only
    rw [foldl_copyLoopBody, if_pos, sourceIndex_eq]
    refine ⟨hi0, ?_⟩
    rw [List.mem_range]
    unfold waveformBufferSize
    omega
  refine ⟨?_, ?_, ?_⟩
  · intro hnew
    refine ⟨?_, ?_, ?_, ?_⟩
    · intro i hi0 hi1
      have hsrc := sourceIndex_eq wd.writeIndex i
      refine ⟨timerCallback_display wd displayBuffer hnew i hi0 hi1, hsrc, ?_, ?_⟩
      · rw [hsrc]; omega
      · rw [hsrc]; omega
    · rw [timerCallback_display wd displayBuffer hnew 0 (by decide) (by decide),
        add_zero, Int.emod_eq_of_lt hw0 hw1]
    · exact timerCallback_display wd displayBuffer hnew 511 (by decide) (by decide)
    · unfold timerCallback
      rw [if_pos hnew]
  · intro ws buffer hc h0 h1
    rw [captureWaveformData_write ws buffer hc h0 h1,
      timerCallback_display _ displayBuffer rfl 511 (by decide) (by decide)]
    dsimp only
    have hidx : ((ws.waveformData.writeIndex + 1) % 512 + 511) % 512
        = ws.waveformData.writeIndex := by omega
    rw [hidx, Function.update_same]
  · intro hnew
    unfold timerCallback
    rw [if_neg (by rw [hnew]; decide)]

theorem timerCallback_chronological_witness :
    (timerCallback rampWaveform (fun _ => 0)).2 0 = rampWaveform.buffer rampWaveform.writeIndex
    ∧ (timerCallback rampWaveform (fun _ => 0)).2 511
      = rampWaveform.buffer ((rampWaveform.writeIndex + 511) % 512) :=
  ⟨((timerCallback_chronological rampWaveform (fun _ => 0) (by decide) (by decide)).1
      rfl).2.1,
    ((timerCallback_chronological rampWaveform (fun _ => 0) (by decide) (by decide)).1
      rfl).2.2.1⟩

/-! ## Filter type, sync division and parameter identifiers -/

/-- C21. The filter type that `processFilter` sets does not depend on the `filterType`
parameter: changing that parameter to any value leaves the chosen type as it is (the
`switch` is on the rounded value read under the identifier `filterMode`). So the values 0,
50 and 100 that the editor's type selector writes all give the same type, and cannot give
lowpass, bandpass and highpass respectively. -/
theorem processFilter_ignores_filterType (p : Parameters) (st : State) (f : FilterSettings) :
    (∀ v : ℝ, (processFilter (Function.update p "filterType" v) st f).filterType
      = (processFilter p st f).filterType)
    ∧ (processFilter (Function.update p "filterType" 0) st f).filterType
      = (processFilter (Function.update p "filterType" 100) st f).filterType
    ∧ ¬ ((processFilter (Function.update p "filterType" 0) st f).filterType
          = StateVariableTPTFilterType.lowpass
        ∧ (processFilter (Function.update p "filterType" 50) st f).filterType
          = StateVariableTPTFilterType.bandpass
        ∧ (processFilter (Function.update p "filterType" 100) st f).filterType
          = StateVariableTPTFilterType.highpass) := by
  have key : ∀ v : ℝ, (processFilter (Function.update p "filterType" v) st f).filterType
      = (processFilter p st f).filterType := by
    intro v
    unfold processFilter
    dsimp only
    rw [Function.update_noteq (by decide : "filterMode" ≠ "filterType")]
  refine ⟨key, ?_, ?_⟩
  · rw [key, key]
  · rintro ⟨h0, h50, _⟩
    rw [key] at h0 h50
    rw [h0] at h50
    exact absurd h50 (by decide)

/-- C22. In tempo-sync mode with a host tempo of 120 BPM (2 beats per second): for
`lfoSyncDivision` 0 ('1/4 Note') `updateLFO` sets the frequency to `2 / 4 = 0.5` Hz, one cycle
per 4 beats and not per 1 beat; for 2 ('1 Bar') it sets `2 / 1 = 2` Hz, one cycle per beat and
not per 4 beats; only for 1 ('1/2 Note') does a cycle last the selected division, 2 beats. -/
theorem updateLFO_sync_division :
    updateLFOFrequency (syncDivisionParameters 0) hostTempoState = 0.5
    ∧ updateLFOFrequency (syncDivisionParameters 0) hostTempoState * 1 ≠ 120 / 60
    ∧ updateLFOFrequency (syncDivisionParameters 0) hostTempoState * 4 = 120 / 60
    ∧ updateLFOFrequency (syncDivisionParameters 2) hostTempoState = 2
    ∧ updateLFOFrequency (syncDivisionParameters 2) hostTempoState * 4 ≠ 120 / 60
    ∧ updateLFOFrequency (syncDivisionParameters 1) hostTempoState * 2 = 120 / 60 := by
  have hsync : ∀ d : ℝ, syncDivisionParameters d "lfoTempoSync" = 1 := by
    intro d; unfold syncDivisionParameters; simp
  have hdiv : ∀ d : ℝ, syncDivisionParameters d "lfoSyncDivision" = d := by
    intro d; unfold syncDivisionParameters; simp
  have hfreq : ∀ d : ℝ, updateLFOFrequency (syncDivisionParameters d) hostTempoState
      = 120 / 60 / (if d = 0 then 4 else (if d = 1 then 2 else 1)) := by
    intro d
    unfold updateLFOFrequency
    dsimp only
    rw [if_pos (decide_eq_true (by rw [hsync]; norm_num)), hdiv]
    rfl
  rw [hfreq 0, hfreq 1, hfreq 2]
  norm_num

/-- C25. Of the identifiers that the processor reads through `getRawParameterValue`, every one
is declared by `createParameterLayout` except `filterMode`, which `processFilter` reads and
dereferences: it is not declared, so its lookup yields the null pointer. -/
theorem parameterReads_undeclared :
    (∃ entry ∈ parameterReads, entry.1 = "processFilter" ∧ "filterMode" ∈ entry.2)
    ∧ "filterMode" ∉ createParameterLayout
    ∧ (∀ values : Parameters, getRawParameterValue values "filterMode" = none)
    ∧ (∀ entry ∈ parameterReads, ∀ id ∈ entry.2, id ≠ "filterMode" →
        id ∈ createParameterLayout) := by
  refine ⟨by decide, by decide, ?_, by decide⟩
  intro values
  unfold getRawParameterValue
  rw [if_neg (by decide)]

/-! ## The pitch shifter: indices and interpolation -/

/-- C24. With pitchSemitones -6 (pitch ratio `2 ^ (-6 / 12)`, inside `[1/8, 8]`) and the pitch
write index at 1025 (inside `(1024, 8192)`), the read position of `processPitchShift` is
`1025 - 1024 * sqrt 2`, between -424 and -423: the cast to `int` truncates it to -423, so the
interpolation fraction is negative (in `(-1, 0)`), not in `[0, 1)`; the read index is 7769 and
the next index 7770, and the weight `1 - fraction` of the first sample exceeds 1. -/
theorem pitchFraction_negative :
    1 / 8 ≤ pitchDownRatio ∧ pitchDownRatio ≤ 8
    ∧ toInt (pitchReadPos pitchDownRatio 1025) = -423
    ∧ pitchFraction pitchDownRatio 1025 < 0
    ∧ -1 < pitchFraction pitchDownRatio 1025
    ∧ 1 < 1 - pitchFraction pitchDownRatio 1025
    ∧ pitchReadIndex pitchDownRatio 1025 = 7769
    ∧ pitchNextIndex pitchDownRatio 1025 = 7770 := by
  have pitchRatio_range : ∀ (t : ℝ) (h : |t| ≤ 36),
      1 / 8 ≤ (2 : ℝ) ^ (t / 12) ∧ (2 : ℝ) ^ (t / 12) ≤ 8 := by
    intro t h
    obtain ⟨h0, h1⟩ := abs_le.mp h
    have hlo : (2 : ℝ) ^ (-(3 : ℝ)) ≤ (2 : ℝ) ^ (t / 12) :=
      Real.rpow_le_rpow_of_exponent_le (by norm_num) (by linarith)
    have hhi : (2 : ℝ) ^ (t / 12) ≤ (2 : ℝ) ^ (3 : ℝ) :=
      Real.rpow_le_rpow_of_exponent_le (by norm_num) (by linarith)
    have h8 : (2 : ℝ) ^ (3 : ℝ) = 8 := by
      rw [show (3 : ℝ) = ((3 : ℕ) : ℝ) by norm_num, Real.rpow_natCast]
      norm_num
    rw [Real.rpow_neg (by norm_num), h8] at hlo
    rw [h8] at hhi
    constructor
    · rw [one_div]; exact hlo
    · exact hhi
  have pitchDownRatio_inv :
      1 / pitchDownRatio = √2 := by
    unfold pitchDownRatio
    rw [show (((-6 : ℝ) + 0 * 12) / 12) = -(1 / 2) by norm_num, Real.rpow_neg (by norm_num),
      one_div, inv_inv, ← Real.sqrt_eq_rpow]
  have sqrt_two_bounds :
      (1448 : ℝ) / 1024 < √2 ∧ √2 < 1449 / 1024 := by
    constructor
    · rw [Real.lt_sqrt (by norm_num)]
      norm_num
    · rw [Real.sqrt_lt' (by norm_num)]
      norm_num
  have pitchDown_readPos :
      -424 < pitchReadPos pitchDownRatio 1025 ∧ pitchReadPos pitchDownRatio 1025 < -423 := by
    obtain ⟨h0, h1⟩ := sqrt_two_bounds
    unfold pitchReadPos pitchGrainSize
    rw [pitchDownRatio_inv]
    push_cast
    constructor <;> linarith
  obtain ⟨h0, h1⟩ := pitchDown_readPos
  have hrange := pitchRatio_range ((-6 : ℝ) + 0 * 12) (by norm_num [abs_le])
  have hcast : toInt (pitchReadPos pitchDownRatio 1025) = -423 := by
    unfold toInt
    rw [if_neg (by linarith), Int.ceil_eq_iff]
    push_cast
    constructor <;> linarith
  have hri : pitchReadIndex pitchDownRatio 1025 = 7769 := by
    unfold pitchReadIndex
    rw [hcast]
    decide
  refine ⟨hrange.1, hrange.2, hcast, ?_, ?_, ?_, hri, ?_⟩
  · unfold pitchFraction
    rw [hcast]
    push_cast
    linarith
  · unfold pitchFraction
    rw [hcast]
    push_cast
    linarith
  · unfold pitchFraction
    rw [hcast]
    push_cast
    linarith
  · unfold pitchNextIndex
    rw [hri]
    decide

/-! ## The EQ stage is bounded -/

/-- C30. For a sample rate `> 0` and `eqHigh`, `eqLow` that are `>= 0` (so for every value
in `[0, 100]`), both one-pole coefficients computed by `applyEQFiltering` lie strictly between
0 and 1; and for every `M` (necessarily `>= 0`), if `|sample| <= M` and both filter states of
the channel have magnitude at most `M` before the call, then both states have magnitude at
most `M` after the call and the returned value has magnitude at most `2 * M`. -/
theorem applyEQFiltering_bounded (st : State) (sample : ℝ) (channel : Nat) (highCut lowCut M : ℝ)
    (hsr : 0 < st.getSampleRate) (hh0 : 0 ≤ highCut) (hl0 : 0 ≤ lowCut)
    (hsample : |sample| ≤ M)
    (hhigh : |st.highCutState channel| ≤ M) (hlow : |st.lowCutState channel| ≤ M) :
    (0 < lpCoeff st highCut ∧ lpCoeff st highCut < 1)
    ∧ (0 < hpCoeff st lowCut ∧ hpCoeff st lowCut < 1)
    ∧ |(applyEQFiltering st sample channel highCut lowCut).2.highCutState channel| ≤ M
    ∧ |(applyEQFiltering st sample channel highCut lowCut).2.lowCutState channel| ≤ M
    ∧ |(applyEQFiltering st sample channel highCut lowCut).1| ≤ 2 * M := by
  have applyEQFiltering_eq : ∀ (st : State) (sample : ℝ) (channel : Nat) (highCut lowCut : ℝ),
      (applyEQFiltering st sample channel highCut lowCut).2.highCutState channel
        = lpCoeff st highCut * st.highCutState channel + (1 - lpCoeff st highCut) * sample
      ∧ (applyEQFiltering st sample channel highCut lowCut).2.lowCutState channel
        = hpCoeff st lowCut * st.lowCutState channel
          + (1 - hpCoeff st lowCut)
            * (applyEQFiltering st sample channel highCut lowCut).2.highCutState channel
      ∧ (applyEQFiltering st sample channel highCut lowCut).1
        = (applyEQFiltering st sample channel highCut lowCut).2.highCutState channel
          - (applyEQFiltering st sample channel highCut lowCut).2.lowCutState channel := by
    intro st sample channel highCut lowCut
    unfold applyEQFiltering lpCoeff hpCoeff
    dsimp only
    rw [Function.update_same, Function.update_same]
    exact ⟨rfl, rfl, rfl⟩
  have onePole_coefficient_range : ∀ (sampleRate freq : ℝ) (hsr : 0 < sampleRate) (hf : 0 < freq),
      0 < Real.exp (-2 * Real.pi * (freq / sampleRate))
      ∧ Real.exp (-2 * Real.pi * (freq / sampleRate)) < 1 := by
    intro sampleRate freq hsr hf
    refine ⟨Real.exp_pos _, ?_⟩
    rw [Real.exp_lt_one_iff]
    have : 0 < freq / sampleRate := div_pos hf hsr
    nlinarith [Real.pi_pos]
  have onePole_bounded : ∀ (c s x M : ℝ) (hc0 : 0 < c) (hc1 : c < 1) (hs : |s| ≤ M) (hx : |x| ≤ M),
      |c * s + (1 - c) * x| ≤ M := by
    intro c s x M hc0 hc1 hs hx
    rw [abs_le] at hs hx ⊢
    constructor <;> nlinarith
  have hfh : 0 < jmap highCut 0 100 200 20000 := by
    unfold jmap
    have : 0 ≤ (20000 - 200) * (highCut - 0) / (100 - 0) :=
      div_nonneg (mul_nonneg (by norm_num) (by linarith)) (by norm_num)
    linarith
  have hfl : 0 < jmap lowCut 0 100 10 1000 := by
    unfold jmap
    have : 0 ≤ (1000 - 10) * (lowCut - 0) / (100 - 0) :=
      div_nonneg (mul_nonneg (by norm_num) (by linarith)) (by norm_num)
    linarith
  have hlp : 0 < lpCoeff st highCut ∧ lpCoeff st highCut < 1 :=
    onePole_coefficient_range _ _ hsr hfh
  have hhp : 0 < hpCoeff st lowCut ∧ hpCoeff st lowCut < 1 :=
    onePole_coefficient_range _ _ hsr hfl
  obtain ⟨e1, e2, e3⟩ := applyEQFiltering_eq st sample channel highCut lowCut
  have b1 : |(applyEQFiltering st sample channel highCut lowCut).2.highCutState channel| ≤ M := by
    rw [e1]
    exact onePole_bounded _ _ _ _ hlp.1 hlp.2 hhigh hsample
  have b2 : |(applyEQFiltering st sample channel highCut lowCut).2.lowCutState channel| ≤ M := by
    rw [e2]
    exact onePole_bounded _ _ _ _ hhp.1 hhp.2 hlow b1
  refine ⟨hlp, hhp, b1, b2, ?_⟩
  rw [e3]
  have := abs_sub ((applyEQFiltering st sample channel highCut lowCut).2.highCutState channel)
    ((applyEQFiltering st sample channel highCut lowCut).2.lowCutState channel)
  linarith

theorem applyEQFiltering_bounded_witness :
    |(applyEQFiltering (constructed zeroRandom 48000) 1 0 80 10).1| ≤ 2 * 1 :=
  (applyEQFiltering_bounded (constructed zeroRandom 48000) 1 0 80 10 1
    (by unfold constructed; norm_num) (by norm_num) (by norm_num)
    (by norm_num) (by unfold constructed; norm_num) (by unfold constructed; norm_num)).2.2.2.2

/-! ## The plain tap: a delay of the whole buffer -/

/-- C26. On the plain-tap path (`grainDensity <= 0.1`), from a state whose write index is 0
and whose delay buffer of the channel is all zeros (the state `prepareToPlay` leaves): the
value tapped at processed sample number `k` of the channel is 0 while `k < 192000`, and from
then on it is exactly the feedback sample written at sample `k - 192000`. From any state with
the write index `w` in `[0, 192000)`, the first 192000 taps are the old buffer entries at
`(w + k) mod 192000`. The taps and the written samples are the same for every `delayTime` and
`delaySamples`, and a sample processed on another channel leaves the buffer and the write
index of this channel as they are. -/
theorem plainTap_delay_is_buffer_length (L : BlockLocals) (channel : Nat) (st : State)
    (xs : List ℝ) (k : Nat) (hd : ¬ L.grainDensity > 0.1) (hk : k < xs.length) :
    (st.delayWriteIndex channel = 0 → (∀ j : Int, st.delayBuffers channel j = 0) →
      ((tapWriteTrace L channel st xs).getD k (0, 0)).1
        = if k < 192000 then 0
          else ((tapWriteTrace L channel st xs).getD (k - 192000) (0, 0)).2)
    ∧ (0 ≤ st.delayWriteIndex channel → st.delayWriteIndex channel < 192000 →
      ((tapWriteTrace L channel st xs).getD k (0, 0)).1
        = if k < 192000
          then st.delayBuffers channel ((st.delayWriteIndex channel + (k : Int)) % 192000)
          else ((tapWriteTrace L channel st xs).getD (k - 192000) (0, 0)).2)
    ∧ (∀ (delayTime : ℝ) (delaySamples : Int),
        tapWriteTrace { L with delayTime := delayTime, delaySamples := delaySamples } channel st xs
          = tapWriteTrace L channel st xs)
    ∧ (∀ (other : Nat) (x : ℝ), channel ≠ other →
        (processSample L other st x).2.delayBuffers channel = st.delayBuffers channel
        ∧ (processSample L other st x).2.delayWriteIndex channel = st.delayWriteIndex channel)
    ∧ (∀ (sampleRate : ℝ) (samplesPerBlock : Int) (numOutputChannels : Nat),
        channel < numOutputChannels →
        (prepareToPlay st sampleRate samplesPerBlock numOutputChannels).delayWriteIndex channel = 0
        ∧ ∀ j : Int,
          (prepareToPlay st sampleRate samplesPerBlock numOutputChannels).delayBuffers channel j
            = 0) := by
  have tapWriteTrace_cons : ∀ (L : BlockLocals) (channel : Nat) (st : State) (x : ℝ) (xs : List ℝ),
      tapWriteTrace L channel st (x :: xs)
        = ((tapSample L channel st).1,
            (processSample L channel st x).2.delayBuffers channel (st.delayWriteIndex channel))
          :: tapWriteTrace L channel (processSample L channel st x).2 xs := by
    intro L channel st x xs
    exact
      rfl
  have tmod_eq_emod_of_nonneg : ∀ (a : Int) (h : 0 ≤ a),
      a.tmod maxDelayTime = a % maxDelayTime := by
    intro a h
    exact
      Int.tmod_eq_emod h (by decide)
  have triggerNewGrain_delayWriteIndex : ∀ (st : State) (channel : Nat) (grainSize : Int)
      (spray : ℝ) (reverse : Bool) (randomization : ℝ),
      (triggerNewGrain st channel grainSize spray reverse randomization).delayWriteIndex
        = st.delayWriteIndex := by
    intro st channel grainSize spray reverse randomization
    unfold triggerNewGrain
    split
    · rfl
    · dsimp only
      split <;> rfl
  have triggerNewGrain_delayBuffers : ∀ (st : State) (channel : Nat) (grainSize : Int) (spray : ℝ)
      (reverse : Bool) (randomization : ℝ),
      (triggerNewGrain st channel grainSize spray reverse randomization).delayBuffers
        = st.delayBuffers := by
    intro st channel grainSize spray reverse randomization
    unfold triggerNewGrain
    split
    · rfl
    · dsimp only
      split <;> rfl
  have processActiveGrains_delayWriteIndex : ∀ (st : State) (channel : Nat)
      (delayBuffer : Int → ℝ),
      (processActiveGrains st channel delayBuffer).2.delayWriteIndex = st.delayWriteIndex := by
    intro st channel delayBuffer
    exact
      rfl
  have processActiveGrains_delayBuffers : ∀ (st : State) (channel : Nat) (delayBuffer : Int → ℝ),
      (processActiveGrains st channel delayBuffer).2.delayBuffers = st.delayBuffers := by
    intro st channel delayBuffer
    exact
      rfl
  have retrigger_delayWriteIndex : ∀ (L : BlockLocals) (channel : Nat) (st : State),
      (retrigger L channel st).delayWriteIndex = st.delayWriteIndex := by
    intro L channel st
    unfold retrigger
    exact triggerNewGrain_delayWriteIndex _ _ _ _ _ _
  have retrigger_delayBuffers : ∀ (L : BlockLocals) (channel : Nat) (st : State),
      (retrigger L channel st).delayBuffers = st.delayBuffers := by
    intro L channel st
    unfold retrigger
    exact triggerNewGrain_delayBuffers _ _ _ _ _ _
  have tapSample_delayWriteIndex : ∀ (L : BlockLocals) (channel : Nat) (st : State),
      (tapSample L channel st).2.delayWriteIndex = st.delayWriteIndex := by
    intro L channel st
    unfold tapSample
    by_cases h1 : L.grainDensity > 0.1
    · rw [if_pos h1]
      dsimp only
      rw [processActiveGrains_delayWriteIndex]
      split_ifs
      · exact retrigger_delayWriteIndex _ _ _
      · rfl
    · rw [if_neg h1]
  have tapSample_delayBuffers : ∀ (L : BlockLocals) (channel : Nat) (st : State),
      (tapSample L channel st).2.delayBuffers = st.delayBuffers := by
    intro L channel st
    unfold tapSample
    by_cases h1 : L.grainDensity > 0.1
    · rw [if_pos h1]
      dsimp only
      rw [processActiveGrains_delayBuffers]
      split_ifs
      · exact retrigger_delayBuffers _ _ _
      · rfl
    · rw [if_neg h1]
  have processSample_delayWriteIndex : ∀ (L : BlockLocals) (channel : Nat) (st : State)
      (inputSample : ℝ),
      (processSample L channel st inputSample).2.delayWriteIndex
        = Function.update st.delayWriteIndex channel
            ((st.delayWriteIndex channel + 1).tmod maxDelayTime) := by
    intro L channel st inputSample
    unfold processSample applyEQFiltering
    simp only [tapSample_delayWriteIndex]
  have processSample_delayBuffers : ∀ (L : BlockLocals) (channel : Nat) (st : State)
      (inputSample : ℝ),
      (processSample L channel st inputSample).2.delayBuffers
        = Function.update st.delayBuffers channel
            (Function.update (st.delayBuffers channel) (st.delayWriteIndex channel)
              (feedbackProcessing inputSample
                (applyEQFiltering (tapSample L channel st).2 (tapSample L channel st).1 channel
                  L.eqHigh L.eqLow).1 L.feedback)) := by
    intro L channel st inputSample
    unfold processSample
    dsimp only
    have h1 : (applyEQFiltering (tapSample L channel st).2 (tapSample L channel st).1 channel
        L.eqHigh L.eqLow).2.delayBuffers = st.delayBuffers := by
      unfold applyEQFiltering
      exact tapSample_delayBuffers L channel st
    have h2 : (applyEQFiltering (tapSample L channel st).2 (tapSample L channel st).1 channel
        L.eqHigh L.eqLow).2.delayWriteIndex = st.delayWriteIndex := by
      unfold applyEQFiltering
      exact tapSample_delayWriteIndex L channel st
    rw [h1, h2]
  have tapSample_plain : ∀ (L : BlockLocals) (channel : Nat) (st : State)
      (hd : ¬ L.grainDensity > 0.1),
      tapSample L channel st = (st.delayBuffers channel (st.delayWriteIndex channel), st) := by
    intro L channel st hd
    unfold tapSample
    rw [if_neg hd]
  have tapWriteTrace_plain : ∀ (L : BlockLocals) (channel : Nat) (hd : ¬ L.grainDensity > 0.1)
      (xs : List ℝ),
      ∀ (st : State) (k : Nat), 0 ≤ st.delayWriteIndex channel →
        st.delayWriteIndex channel < maxDelayTime → k < xs.length →
        ((tapWriteTrace L channel st xs).getD k (0, 0)).1
          = if (k : Int) < maxDelayTime
            then st.delayBuffers channel ((st.delayWriteIndex channel + (k : Int)) % maxDelayTime)
            else ((tapWriteTrace L channel st xs).getD (k - 192000) (0, 0)).2 := by
    intro L channel hd xs
    induction xs with
    | nil => intro st k _ _ hk; exact absurd hk (Nat.not_lt_zero _)
    | cons x xs ih =>
      intro st k h0 h1 hk
      rw [tapWriteTrace_cons]
      have hw : (processSample L channel st x).2.delayWriteIndex channel
          = (st.delayWriteIndex channel + 1) % maxDelayTime := by
        rw [processSample_delayWriteIndex, Function.update_same,
          tmod_eq_emod_of_nonneg _ (by omega)]
      have hb : (processSample L channel st x).2.delayBuffers channel
          = Function.update (st.delayBuffers channel) (st.delayWriteIndex channel)
              ((processSample L channel st x).2.delayBuffers channel
                (st.delayWriteIndex channel)) := by
        rw [processSample_delayBuffers, Function.update_same, Function.update_same]
      cases k with
      | zero =>
        rw [List.getD_cons_zero, tapSample_plain L channel st hd]
        dsimp only
        rw [if_pos (by decide), Nat.cast_zero, add_zero, Int.emod_eq_of_lt h0 h1]
      | succ k =>
        rw [List.getD_cons_succ]
        have hk' : k < xs.length := by simpa using hk
        rw [ih (processSample L channel st x).2 k
          (by rw [hw]; exact Int.emod_nonneg _ (by decide))
          (by rw [hw]; exact Int.emod_lt_of_pos _ (by decide)) hk']
        unfold maxDelayTime at h1 hw ⊢
        by_cases hlt : ((k + 1 : Nat) : Int) < 192000
        · have hlt' : (k : Int) < 192000 := by push_cast at hlt; omega
          rw [if_pos hlt, if_pos hlt', hb, hw]
          have hne : ((st.delayWriteIndex channel + 1) % 192000 + (k : Int)) % 192000
              ≠ st.delayWriteIndex channel := by
            push_cast at hlt; omega
          rw [Function.update_noteq hne]
          congr 1
          push_cast
          omega
        · rw [if_neg hlt]
          by_cases hlt' : (k : Int) < 192000
          · have hk192 : k + 1 = 192000 := by push_cast at hlt; omega
            rw [if_pos hlt', hb, hw]
            have heq : ((st.delayWriteIndex channel + 1) % 192000 + (k : Int)) % 192000
                = st.delayWriteIndex channel := by
              have : (k : Int) = 191999 := by omega
              omega
            rw [heq, Function.update_same, hk192, Nat.sub_self, List.getD_cons_zero]
          · rw [if_neg hlt']
            have hsub : k + 1 - 192000 = (k - 192000) + 1 := by
              push_cast at hlt'; omega
            rw [hsub, List.getD_cons_succ]
  have tapWriteTrace_delayTime : ∀ (L : BlockLocals) (channel : Nat) (delayTime : ℝ)
      (delaySamples : Int) (xs : List ℝ),
      ∀ st : State,
        tapWriteTrace { L with delayTime := delayTime, delaySamples := delaySamples } channel st xs
          = tapWriteTrace L channel st xs := by
    intro L channel delayTime delaySamples xs
    induction xs with
    | nil => intro st; rfl
    | cons x xs ih =>
      intro st
      have hstate : (processSample { L with delayTime := delayTime, delaySamples := delaySamples }
          channel st x).2 = (processSample L channel st x).2 := rfl
      have htap : (tapSample { L with delayTime := delayTime, delaySamples := delaySamples }
          channel st).1 = (tapSample L channel st).1 := rfl
      rw [tapWriteTrace_cons, tapWriteTrace_cons, hstate, htap, ih]
  have hgen : 0 ≤ st.delayWriteIndex channel → st.delayWriteIndex channel < 192000 →
      ((tapWriteTrace L channel st xs).getD k (0, 0)).1
        = if k < 192000
          then st.delayBuffers channel ((st.delayWriteIndex channel + (k : Int)) % 192000)
          else ((tapWriteTrace L channel st xs).getD (k - 192000) (0, 0)).2 := by
    intro h0 h1
    have h := tapWriteTrace_plain L channel hd xs st k h0 h1 hk
    unfold maxDelayTime at h
    by_cases hlt : k < 192000
    · rw [if_pos (by exact_mod_cast hlt)] at h
      rw [if_pos hlt, h]
    · rw [if_neg (by exact_mod_cast hlt)] at h
      rw [if_neg hlt, h]
  refine ⟨?_, hgen, fun delayTime delaySamples =>
    tapWriteTrace_delayTime L channel delayTime delaySamples xs st, ?_, ?_⟩
  · intro hw hz
    rw [hgen (by omega) (by omega)]
    by_cases hlt : k < 192000
    · rw [if_pos hlt, if_pos hlt, hz]
    · rw [if_neg hlt, if_neg hlt]
  · intro other x hne
    constructor
    · rw [processSample_delayBuffers, Function.update_noteq hne]
    · rw [processSample_delayWriteIndex, Function.update_noteq hne]
  · intro sampleRate samplesPerBlock numOutputChannels hch
    unfold prepareToPlay
    simp [hch]

theorem plainTap_delay_is_buffer_length_witness :
    ((tapWriteTrace (readLocals scenarioAParameters scenarioAState 2) 0 scenarioAState
        impulse).getD 19200 (0, 0)).1
      = if 19200 < 192000 then 0
        else ((tapWriteTrace (readLocals scenarioAParameters scenarioAState 2) 0 scenarioAState
          impulse).getD (19200 - 192000) (0, 0)).2 := by
  have scenarioAState_delayWriteIndex : ∀ (channel : Nat),
      scenarioAState.delayWriteIndex channel = 0 := by
    intro channel
    unfold scenarioAState prepareToPlay constructed
    dsimp only
    split_ifs <;> rfl
  exact
    (plainTap_delay_is_buffer_length (readLocals scenarioAParameters scenarioAState 2) 0
      scenarioAState impulse 19200 (by unfold readLocals scenarioAParameters; simp)
      (by unfold impulse; rw [List.length_cons, List.length_replicate]; decide)).1
      (scenarioAState_delayWriteIndex 0) (fun j => by unfold scenarioAState prepareToPlay; simp)

/-! ## Forward grains read one grain length behind the write index -/

theorem jlimit_eq_self {α : Type} [LinearOrder α] (lo hi v : α) (h0 : lo ≤ v) (h1 : v ≤ hi) :
    jlimit lo hi v = v := by
  unfold jlimit
  rw [if_neg (not_lt.mpr h0), if_neg (not_lt.mpr h1)]

/-- C27. A forward grain that a sample of `processBlock` triggers (granular path, spray 0,
randomization 0, grain size `s` in `[64, 8192]`, write index in `[0, 192000)`, a free slot
`i`): when `processActiveGrains` is called in the sample that comes `k` samples after the
trigger, for every `k < s`, the grain in slot `i` is active with size `s` and position `k`,
and the index it reads is `(current write index - s) mod 192000`, which differs from the
write index. The delay buffer entry at that index holds the feedback sample written exactly
`s` processed samples earlier on the channel. -/
theorem forward_grain_fixed_delay (L : BlockLocals) (channel : Nat) (st : State) (i : Nat)
    (xs : List ℝ) (hd : L.grainDensity > 0.1) (hspray : L.grainSpray = 0)
    (hrand : L.randomization = 0) (hrev : L.reverseGrains = false)
    (hs0 : 64 ≤ L.grainSizeSamples) (hs1 : L.grainSizeSamples ≤ 8192)
    (hw0 : 0 ≤ st.delayWriteIndex channel) (hw1 : st.delayWriteIndex channel < 192000)
    (htrig : st.grainTriggerCountdown channel - 1 ≤ 0)
    (hslot : firstInactive st channel = some i) (hlen : (xs.length : Int) < L.grainSizeSamples) :
    (((preGrainState L channel (processChannel L channel st xs).2).activeGrains
          channel i).isActive = true
      ∧ ((preGrainState L channel (processChannel L channel st xs).2).activeGrains
          channel i).isReverse = false
      ∧ ((preGrainState L channel (processChannel L channel st xs).2).activeGrains
          channel i).size = L.grainSizeSamples
      ∧ ((preGrainState L channel (processChannel L channel st xs).2).activeGrains
          channel i).position = (xs.length : Int)
      ∧ grainReadPos ((preGrainState L channel (processChannel L channel st xs).2).activeGrains
          channel i)
        = ((processChannel L channel st xs).2.delayWriteIndex channel - L.grainSizeSamples)
            % 192000
      ∧ grainReadPos ((preGrainState L channel (processChannel L channel st xs).2).activeGrains
          channel i)
        ≠ (processChannel L channel st xs).2.delayWriteIndex channel)
    ∧ (∀ (a : State) (y : ℝ) (ys : List ℝ), 0 ≤ a.delayWriteIndex channel →
        a.delayWriteIndex channel < 192000 → (ys.length : Int) + 1 = L.grainSizeSamples →
        (preGrainState L channel (processChannel L channel a (y :: ys)).2).delayBuffers channel
            (((processChannel L channel a (y :: ys)).2.delayWriteIndex channel
              - L.grainSizeSamples) % 192000)
          = (processSample L channel a y).2.delayBuffers channel
              (a.delayWriteIndex channel)) := by
  have processChannel_nil : ∀ (L : BlockLocals) (channel : Nat) (st : State),
      processChannel L channel st [] = ([], st) := by
    intro L channel st
    exact
      rfl
  have processChannel_cons : ∀ (L : BlockLocals) (channel : Nat) (st : State) (x : ℝ)
      (xs : List ℝ),
      processChannel L channel st (x :: xs)
        = ((processSample L channel st x).1
            :: (processChannel L channel (processSample L channel st x).2 xs).1,
          (processChannel L channel (processSample L channel st x).2 xs).2) := by
    intro L channel st x xs
    exact
      rfl
  have tmod_eq_emod_of_nonneg : ∀ (a : Int) (h : 0 ≤ a),
      a.tmod maxDelayTime = a % maxDelayTime := by
    intro a h
    exact
      Int.tmod_eq_emod h (by decide)
  have firstInactive_lt : ∀ (st : State) (channel i : Nat) (h : firstInactive st channel = some i),
      i < maxGrains := by
    intro st channel i h
    have := List.mem_of_find?_eq_some h
    exact List.mem_range.mp this
  have firstInactive_inactive : ∀ (st : State) (channel i : Nat)
      (h : firstInactive st channel = some i),
      (st.activeGrains channel i).isActive = false := by
    intro st channel i h
    have := List.find?_some h
    simpa using this
  have triggerNewGrain_delayWriteIndex : ∀ (st : State) (channel : Nat) (grainSize : Int)
      (spray : ℝ) (reverse : Bool) (randomization : ℝ),
      (triggerNewGrain st channel grainSize spray reverse randomization).delayWriteIndex
        = st.delayWriteIndex := by
    intro st channel grainSize spray reverse randomization
    unfold triggerNewGrain
    split
    · rfl
    · dsimp only
      split <;> rfl
  have triggerNewGrain_delayBuffers : ∀ (st : State) (channel : Nat) (grainSize : Int) (spray : ℝ)
      (reverse : Bool) (randomization : ℝ),
      (triggerNewGrain st channel grainSize spray reverse randomization).delayBuffers
        = st.delayBuffers := by
    intro st channel grainSize spray reverse randomization
    unfold triggerNewGrain
    split
    · rfl
    · dsimp only
      split <;> rfl
  have foldl_grainLoopBody_snd : ∀ (delayBuffer : Int → ℝ) (l : List Nat) (hl : l.Nodup)
      (acc : ℝ × (Nat → Grain)) (j : Nat),
      (l.foldl (grainLoopBody delayBuffer) acc).2 j
        = if j ∈ l ∧ (acc.2 j).isActive = true then grainAdvance (acc.2 j) else acc.2 j := by
    intro delayBuffer l hl acc j
    induction l generalizing acc with
    | nil => simp
    | cons a l ih =>
      have hnd := List.nodup_cons.mp hl
      rw [List.foldl_cons, ih hnd.2]
      by_cases hja : j = a
      · subst hja
        have hnot : j ∉ l := hnd.1
        by_cases hact : (acc.2 j).isActive = true
        · unfold grainLoopBody
          simp [hnot, hact]
        · unfold grainLoopBody
          simp [hnot, hact]
      · have hsame : (grainLoopBody delayBuffer acc a).2 j = acc.2 j := by
          unfold grainLoopBody
          dsimp only
          split
          · rfl
          · simp [Function.update_noteq hja]
        rw [hsame]
        simp [hja]
  have processActiveGrains_grain : ∀ (st : State) (channel : Nat) (delayBuffer : Int → ℝ)
      (i : Nat),
      (processActiveGrains st channel delayBuffer).2.activeGrains channel i
        = if i < maxGrains ∧ (st.activeGrains channel i).isActive = true
          then grainAdvance (st.activeGrains channel i) else st.activeGrains channel i := by
    intro st channel delayBuffer i
    unfold processActiveGrains
    simp only [Function.update_same]
    rw [foldl_grainLoopBody_snd delayBuffer _ (List.nodup_range _)]
    simp [List.mem_range]
  have processActiveGrains_delayWriteIndex : ∀ (st : State) (channel : Nat)
      (delayBuffer : Int → ℝ),
      (processActiveGrains st channel delayBuffer).2.delayWriteIndex = st.delayWriteIndex := by
    intro st channel delayBuffer
    exact
      rfl
  have processActiveGrains_delayBuffers : ∀ (st : State) (channel : Nat) (delayBuffer : Int → ℝ),
      (processActiveGrains st channel delayBuffer).2.delayBuffers = st.delayBuffers := by
    intro st channel delayBuffer
    exact
      rfl
  have retrigger_delayWriteIndex : ∀ (L : BlockLocals) (channel : Nat) (st : State),
      (retrigger L channel st).delayWriteIndex = st.delayWriteIndex := by
    intro L channel st
    unfold retrigger
    exact triggerNewGrain_delayWriteIndex _ _ _ _ _ _
  have retrigger_delayBuffers : ∀ (L : BlockLocals) (channel : Nat) (st : State),
      (retrigger L channel st).delayBuffers = st.delayBuffers := by
    intro L channel st
    unfold retrigger
    exact triggerNewGrain_delayBuffers _ _ _ _ _ _
  have tapSample_delayWriteIndex : ∀ (L : BlockLocals) (channel : Nat) (st : State),
      (tapSample L channel st).2.delayWriteIndex = st.delayWriteIndex := by
    intro L channel st
    unfold tapSample
    by_cases h1 : L.grainDensity > 0.1
    · rw [if_pos h1]
      dsimp only
      rw [processActiveGrains_delayWriteIndex]
      split_ifs
      · exact retrigger_delayWriteIndex _ _ _
      · rfl
    · rw [if_neg h1]
  have tapSample_delayBuffers : ∀ (L : BlockLocals) (channel : Nat) (st : State),
      (tapSample L channel st).2.delayBuffers = st.delayBuffers := by
    intro L channel st
    unfold tapSample
    by_cases h1 : L.grainDensity > 0.1
    · rw [if_pos h1]
      dsimp only
      rw [processActiveGrains_delayBuffers]
      split_ifs
      · exact retrigger_delayBuffers _ _ _
      · rfl
    · rw [if_neg h1]
  have processSample_delayWriteIndex : ∀ (L : BlockLocals) (channel : Nat) (st : State)
      (inputSample : ℝ),
      (processSample L channel st inputSample).2.delayWriteIndex
        = Function.update st.delayWriteIndex channel
            ((st.delayWriteIndex channel + 1).tmod maxDelayTime) := by
    intro L channel st inputSample
    unfold processSample applyEQFiltering
    simp only [tapSample_delayWriteIndex]
  have processChannel_delayWriteIndex : ∀ (L : BlockLocals) (channel : Nat) (st : State)
      (xs : List ℝ) (h0 : 0 ≤ st.delayWriteIndex channel)
      (h1 : st.delayWriteIndex channel < maxDelayTime),
      (processChannel L channel st xs).2.delayWriteIndex channel
        = (st.delayWriteIndex channel + (xs.length : Int)) % maxDelayTime := by
    intro L channel st xs h0 h1
    induction xs generalizing st with
    | nil =>
      rw [processChannel_nil, List.length_nil, Nat.cast_zero, add_zero, Int.emod_eq_of_lt h0 h1]
    | cons x xs ih =>
      rw [processChannel_cons]
      dsimp only
      have hstep : (processSample L channel st x).2.delayWriteIndex channel
          = (st.delayWriteIndex channel + 1) % maxDelayTime := by
        rw [processSample_delayWriteIndex, Function.update_same,
          tmod_eq_emod_of_nonneg _ (by omega)]
      have hnonneg : 0 ≤ (processSample L channel st x).2.delayWriteIndex channel := by
        rw [hstep]; exact Int.emod_nonneg _ (by decide)
      have hlt : (processSample L channel st x).2.delayWriteIndex channel < maxDelayTime := by
        rw [hstep]; exact Int.emod_lt_of_pos _ (by decide)
      rw [ih _ hnonneg hlt, hstep, List.length_cons, Int.emod_add_emod]
      push_cast
      rw [add_assoc, add_comm (1 : Int)]
  have processSample_delayBuffers : ∀ (L : BlockLocals) (channel : Nat) (st : State)
      (inputSample : ℝ),
      (processSample L channel st inputSample).2.delayBuffers
        = Function.update st.delayBuffers channel
            (Function.update (st.delayBuffers channel) (st.delayWriteIndex channel)
              (feedbackProcessing inputSample
                (applyEQFiltering (tapSample L channel st).2 (tapSample L channel st).1 channel
                  L.eqHigh L.eqLow).1 L.feedback)) := by
    intro L channel st inputSample
    unfold processSample
    dsimp only
    have h1 : (applyEQFiltering (tapSample L channel st).2 (tapSample L channel st).1 channel
        L.eqHigh L.eqLow).2.delayBuffers = st.delayBuffers := by
      unfold applyEQFiltering
      exact tapSample_delayBuffers L channel st
    have h2 : (applyEQFiltering (tapSample L channel st).2 (tapSample L channel st).1 channel
        L.eqHigh L.eqLow).2.delayWriteIndex = st.delayWriteIndex := by
      unfold applyEQFiltering
      exact tapSample_delayWriteIndex L channel st
    rw [h1, h2]
  have tapSample_granular : ∀ (L : BlockLocals) (channel : Nat) (st : State)
      (hd : L.grainDensity > 0.1),
      tapSample L channel st
        = processActiveGrains (preGrainState L channel st) channel
            ((preGrainState L channel st).delayBuffers channel) := by
    intro L channel st hd
    unfold tapSample preGrainState
    rw [if_pos hd]
    dsimp only
    rw [Function.update_same]
  have processSample_activeGrains : ∀ (L : BlockLocals) (channel : Nat) (st : State) (x : ℝ)
      (hd : L.grainDensity > 0.1),
      (processSample L channel st x).2.activeGrains
        = (processActiveGrains (preGrainState L channel st) channel
            ((preGrainState L channel st).delayBuffers channel)).2.activeGrains := by
    intro L channel st x hd
    unfold processSample applyEQFiltering
    dsimp only
    rw [tapSample_granular L channel st hd]
  have triggerNewGrain_active_unchanged : ∀ (st : State) (channel : Nat) (grainSize : Int)
      (spray : ℝ) (reverse : Bool) (randomization : ℝ) (j : Nat)
      (hj : (st.activeGrains channel j).isActive = true),
      (triggerNewGrain st channel grainSize spray reverse randomization).activeGrains channel j
        = st.activeGrains channel j := by
    intro st channel grainSize spray reverse randomization j hj
    unfold triggerNewGrain
    split
    · rfl
    · rename_i i hi
      have hne : j ≠ i := by
        intro h
        rw [h, firstInactive_inactive st channel i hi] at hj
        exact absurd hj (by decide)
      dsimp only
      split_ifs
      · simp only [Function.update_same, Function.update_noteq hne]
      · simp only [Function.update_same, Function.update_noteq hne]
  have triggerNewGrain_created : ∀ (st : State) (channel : Nat) (grainSize : Int) (reverse : Bool)
      (i : Nat) (hi : firstInactive st channel = some i),
      (triggerNewGrain st channel grainSize 0 reverse 0).activeGrains channel i
        = { startPos := (st.delayWriteIndex channel - grainSize + maxDelayTime).tmod maxDelayTime
            size := jlimit 32 16384 grainSize
            position := 0
            isActive := true
            isReverse := reverse
            amplitude := 1 } := by
    intro st channel grainSize reverse i hi
    unfold triggerNewGrain
    rw [hi]
    dsimp only
    have hz : toInt ((grainSize : ℝ) * (0 * (st.random.nextFloat.1 * 2 - 1))) = 0 := by
      rw [zero_mul, mul_zero]
      unfold toInt
      simp
    rw [if_neg (lt_irrefl 0)]
    simp only [Function.update_same, hz, add_zero]
  have preGrainState_active_unchanged : ∀ (L : BlockLocals) (channel : Nat) (st : State) (j : Nat)
      (hj : (st.activeGrains channel j).isActive = true),
      (preGrainState L channel st).activeGrains channel j = st.activeGrains channel j := by
    intro L channel st j hj
    unfold preGrainState
    split_ifs
    · unfold retrigger
      dsimp only
      exact triggerNewGrain_active_unchanged _ channel _ _ _ _ j hj
    · rfl
  have preGrainState_created : ∀ (L : BlockLocals) (channel : Nat) (st : State) (i : Nat)
      (hspray : L.grainSpray = 0) (hrand : L.randomization = 0)
      (htrig : st.grainTriggerCountdown channel - 1 ≤ 0) (hi : firstInactive st channel = some i),
      (preGrainState L channel st).activeGrains channel i
        = { startPos :=
              (st.delayWriteIndex channel - L.grainSizeSamples + maxDelayTime).tmod maxDelayTime
            size := jlimit 32 16384 L.grainSizeSamples
            position := 0
            isActive := true
            isReverse := L.reverseGrains
            amplitude := 1 } := by
    intro L channel st i hspray hrand htrig hi
    unfold preGrainState
    rw [if_pos htrig]
    unfold retrigger
    dsimp only
    rw [hspray, hrand]
    exact triggerNewGrain_created _ channel _ _ i hi
  have preGrainState_delayBuffers : ∀ (L : BlockLocals) (channel : Nat) (st : State),
      (preGrainState L channel st).delayBuffers = st.delayBuffers := by
    intro L channel st
    unfold preGrainState
    split_ifs
    · exact retrigger_delayBuffers _ _ _
    · rfl
  have processSample_grain : ∀ (L : BlockLocals) (channel : Nat) (st : State) (x : ℝ) (i : Nat)
      (hd : L.grainDensity > 0.1) (hi : i < maxGrains)
      (hact : ((preGrainState L channel st).activeGrains channel i).isActive = true),
      (processSample L channel st x).2.activeGrains channel i
        = grainAdvance ((preGrainState L channel st).activeGrains channel i) := by
    intro L channel st x i hd hi hact
    rw [processSample_activeGrains L channel st x hd, processActiveGrains_grain,
      if_pos ⟨hi, hact⟩]
  have processSample_delayWriteIndex_same : ∀ (L : BlockLocals) (channel : Nat) (st : State)
      (x : ℝ) (h0 : 0 ≤ st.delayWriteIndex channel),
      (processSample L channel st x).2.delayWriteIndex channel
        = (st.delayWriteIndex channel + 1) % maxDelayTime := by
    intro L channel st x h0
    rw [processSample_delayWriteIndex, Function.update_same,
      tmod_eq_emod_of_nonneg _ (by omega)]
  have processChannel_buffer_persists : ∀ (L : BlockLocals) (channel : Nat) (j0 : Int)
      (ys : List ℝ),
      ∀ a : State, 0 ≤ a.delayWriteIndex channel → a.delayWriteIndex channel < 192000 →
        (∀ m : Nat, m < ys.length → (a.delayWriteIndex channel + (m : Int)) % 192000 ≠ j0) →
        (processChannel L channel a ys).2.delayBuffers channel j0 = a.delayBuffers channel j0 := by
    intro L channel j0 ys
    induction ys with
    | nil => intro a _ _ _; rfl
    | cons y ys ih =>
      intro a h0 h1 hne
      rw [processChannel_cons]
      dsimp only
      have hw := processSample_delayWriteIndex_same L channel a y h0
      unfold maxDelayTime at hw
      rw [ih (processSample L channel a y).2 (by rw [hw]; omega) (by rw [hw]; omega)]
      · rw [processSample_delayBuffers, Function.update_same, Function.update_noteq]
        have := hne 0 (by simp)
        simp only [Nat.cast_zero, add_zero] at this
        intro h
        apply this
        rw [h]
        omega
      · intro m hm
        have := hne (m + 1) (by simpa using hm)
        rw [hw]
        push_cast at this
        omega
  have grainAdvance_fields : ∀ (g : Grain) (h : g.position + 1 < g.size),
      (grainAdvance g).isActive = g.isActive ∧ (grainAdvance g).position = g.position + 1
      ∧ (grainAdvance g).startPos = g.startPos ∧ (grainAdvance g).size = g.size
      ∧ (grainAdvance g).isReverse = g.isReverse := by
    intro g h
    unfold grainAdvance
    rw [if_neg (by omega)]
    exact ⟨rfl, rfl, rfl, rfl, rfl⟩
  have processChannel_grain_run : ∀ (L : BlockLocals) (channel i : Nat)
      (hd : L.grainDensity > 0.1) (hi : i < maxGrains) (sp s : Int) (ys : List ℝ),
      ∀ (a : State) (p : Int), 0 ≤ a.delayWriteIndex channel →
        a.delayWriteIndex channel < 192000 →
        (a.activeGrains channel i).isActive = true → (a.activeGrains channel i).startPos = sp →
        (a.activeGrains channel i).size = s → (a.activeGrains channel i).position = p →
        (a.activeGrains channel i).isReverse = false → p + (ys.length : Int) < s →
        ((preGrainState L channel (processChannel L channel a ys).2).activeGrains
            channel i).isActive = true
        ∧ ((preGrainState L channel (processChannel L channel a ys).2).activeGrains
            channel i).startPos = sp
        ∧ ((preGrainState L channel (processChannel L channel a ys).2).activeGrains
            channel i).size = s
        ∧ ((preGrainState L channel (processChannel L channel a ys).2).activeGrains
            channel i).position = p + (ys.length : Int)
        ∧ ((preGrainState L channel (processChannel L channel a ys).2).activeGrains
            channel i).isReverse = false
        ∧ (processChannel L channel a ys).2.delayWriteIndex channel
          = (a.delayWriteIndex channel + (ys.length : Int)) % 192000 := by
    intro L channel i hd hi sp s ys
    induction ys with
    | nil =>
      intro a p h0 h1 hact hsp hs hp hrev _
      rw [processChannel_nil]
      dsimp only
      rw [preGrainState_active_unchanged L channel a i hact]
      refine ⟨hact, hsp, hs, ?_, hrev, ?_⟩
      · rw [hp]; simp
      · simp only [List.length_nil, Nat.cast_zero, add_zero]
        omega
    | cons y ys ih =>
      intro a p h0 h1 hact hsp hs hp hrev hlen
      rw [processChannel_cons]
      dsimp only
      have hpre := preGrainState_active_unchanged L channel a i hact
      have hgrain : (processSample L channel a y).2.activeGrains channel i
          = grainAdvance (a.activeGrains channel i) := by
        rw [processSample_grain L channel a y i hd hi (by rw [hpre]; exact hact), hpre]
      have hlen' : p + 1 + (ys.length : Int) < s := by
        simp only [List.length_cons] at hlen
        push_cast at hlen
        omega
      obtain ⟨f1, f2, f3, f4, f5⟩ := grainAdvance_fields (a.activeGrains channel i)
        (by rw [hp, hs]; omega)
      have hw := processSample_delayWriteIndex_same L channel a y h0
      unfold maxDelayTime at hw
      obtain ⟨r1, r2, r3, r4, r5, r6⟩ := ih (processSample L channel a y).2 (p + 1)
        (by rw [hw]; omega) (by rw [hw]; omega)
        (by rw [hgrain, f1]; exact hact) (by rw [hgrain, f3]; exact hsp)
        (by rw [hgrain, f4]; exact hs) (by rw [hgrain, f2, hp])
        (by rw [hgrain, f5]; exact hrev) hlen'
      refine ⟨r1, r2, r3, ?_, r5, ?_⟩
      · rw [r4, List.length_cons]; push_cast; ring
      · rw [r6, hw, List.length_cons]; push_cast; omega
  have hi : i < maxGrains := firstInactive_lt st channel i hslot
  have hcreated := preGrainState_created L channel st i hspray hrand htrig hslot
  rw [jlimit_eq_self _ _ _ (by omega) (by omega), hrev,
    tmod_eq_emod_of_nonneg _ (by unfold maxDelayTime; omega)] at hcreated
  unfold maxDelayTime at hcreated
  have hfields : ((preGrainState L channel (processChannel L channel st xs).2).activeGrains
          channel i).isActive = true
      ∧ ((preGrainState L channel (processChannel L channel st xs).2).activeGrains
          channel i).startPos
        = (st.delayWriteIndex channel - L.grainSizeSamples + 192000) % 192000
      ∧ ((preGrainState L channel (processChannel L channel st xs).2).activeGrains
          channel i).size = L.grainSizeSamples
      ∧ ((preGrainState L channel (processChannel L channel st xs).2).activeGrains
          channel i).position = (xs.length : Int)
      ∧ ((preGrainState L channel (processChannel L channel st xs).2).activeGrains
          channel i).isReverse = false
      ∧ (processChannel L channel st xs).2.delayWriteIndex channel
        = (st.delayWriteIndex channel + (xs.length : Int)) % 192000 := by
    cases xs with
    | nil =>
      rw [processChannel_nil]
      dsimp only
      rw [hcreated]
      refine ⟨rfl, rfl, rfl, rfl, rfl, ?_⟩
      simp only [List.length_nil, Nat.cast_zero, add_zero]
      omega
    | cons x ys =>
      rw [processChannel_cons]
      dsimp only
      have hgrain : (processSample L channel st x).2.activeGrains channel i
          = grainAdvance ((preGrainState L channel st).activeGrains channel i) :=
        processSample_grain L channel st x i hd hi (by rw [hcreated])
      obtain ⟨f1, f2, f3, f4, f5⟩ := grainAdvance_fields
        ((preGrainState L channel st).activeGrains channel i) (by rw [hcreated]; dsimp only; omega)
      rw [hcreated] at f1 f2 f3 f4 f5
      dsimp only at f1 f2 f3 f4 f5
      rw [← hcreated] at f1 f2 f3 f4 f5
      have hw := processSample_delayWriteIndex_same L channel st x hw0
      unfold maxDelayTime at hw
      have hlen' : (1 : Int) + (ys.length : Int) < L.grainSizeSamples := by
        simp only [List.length_cons] at hlen
        push_cast at hlen
        omega
      obtain ⟨r1, r2, r3, r4, r5, r6⟩ := processChannel_grain_run L channel i hd hi
        ((st.delayWriteIndex channel - L.grainSizeSamples + 192000) % 192000)
        L.grainSizeSamples ys (processSample L channel st x).2 1
        (by rw [hw]; omega) (by rw [hw]; omega)
        (by rw [hgrain, f1]) (by rw [hgrain, f3]) (by rw [hgrain, f4])
        (by rw [hgrain, f2]; norm_num) (by rw [hgrain, f5]) hlen'
      refine ⟨r1, r2, r3, ?_, r5, ?_⟩
      · rw [r4, List.length_cons]; push_cast; ring
      · rw [r6, hw, List.length_cons]; push_cast; omega
  obtain ⟨g1, g2, g3, g4, g5, g6⟩ := hfields
  have hread : grainReadPos
      ((preGrainState L channel (processChannel L channel st xs).2).activeGrains channel i)
      = ((st.delayWriteIndex channel - L.grainSizeSamples + 192000) % 192000
          + (xs.length : Int)) % 192000 := by
    unfold grainReadPos
    rw [g5, g2, g4]
    simp only [Bool.false_eq_true, if_false]
    exact tmod_eq_emod_of_nonneg _ (by omega)
  refine ⟨⟨g1, g5, g3, g4, ?_, ?_⟩, ?_⟩
  · rw [hread, g6]; omega
  · rw [hread, g6]; omega
  · intro a y ys ha0 ha1 hys
    have hw := processSample_delayWriteIndex_same L channel a y ha0
    unfold maxDelayTime at hw
    have hidx := processChannel_delayWriteIndex L channel a (y :: ys) ha0 ha1
    unfold maxDelayTime at hidx
    have htarget : ((processChannel L channel a (y :: ys)).2.delayWriteIndex channel
        - L.grainSizeSamples) % 192000 = a.delayWriteIndex channel := by
      rw [hidx, List.length_cons]
      push_cast
      omega
    rw [preGrainState_delayBuffers, htarget, processChannel_cons]
    dsimp only
    apply processChannel_buffer_persists L channel _ ys _ (by rw [hw]; omega) (by rw [hw]; omega)
    intro m hm
    rw [hw]
    have : (m : Int) < (ys.length : Int) := by exact_mod_cast hm
    omega

theorem forward_grain_fixed_delay_witness :
    grainReadPos ((preGrainState scenarioB 0
        (processChannel scenarioB 0 (constructed zeroRandom 48000) [1, 1, 1]).2).activeGrains 0 0)
      = ((processChannel scenarioB 0 (constructed zeroRandom 48000) [1, 1, 1]).2.delayWriteIndex 0
          - scenarioB.grainSizeSamples) % 192000 :=
  (forward_grain_fixed_delay scenarioB 0 (constructed zeroRandom 48000) 0 [1, 1, 1]
    (by unfold scenarioB; norm_num) rfl rfl rfl (by decide) (by decide) (by decide) (by decide)
    (by decide) (by decide) (by decide)).1.2.2.2.2.1

/-! ## Channel independence at zero stereo width -/

/-- C29 (channel independence at zero stereo width). With `stereoWidth = 0`, take two runs
of the delay/grain stage of `processBlock` with the same parameters, from states `a` and `b`
that agree on every member except the delay buffer and EQ states of channel `ch` (in
particular from the same state, which carries the same random draws), on buffers of the same
shape that differ only in the samples of channel `ch`. Then for every other channel `c` the
stage output, the delay buffer contents, the two EQ states and the grains are identical in
both runs, and the final states again agree on every member except the delay buffer and EQ
states of `ch`, so the statement carries over to any number of consecutive blocks. -/
theorem processBlock_channel_independence (p : Parameters) (ch : Nat) (a b : State)
    (bufA bufB : List (List ℝ)) (hw : p "stereoWidth" = 0) (h : AgreeExcept ch a b)
    (hlen : bufA.length = bufB.length)
    (hlens : ∀ k : Nat, (bufA.getD k []).length = (bufB.getD k []).length)
    (hsame : ∀ c : Nat, c ≠ ch → bufA.getD c [] = bufB.getD c []) :
    AgreeExcept ch a a
    ∧ (∀ c : Nat, c ≠ ch →
        (processBlockDelay p a bufA).1.getD c [] = (processBlockDelay p b bufB).1.getD c []
        ∧ (processBlockDelay p a bufA).2.delayBuffers c
            = (processBlockDelay p b bufB).2.delayBuffers c
        ∧ (processBlockDelay p a bufA).2.highCutState c
            = (processBlockDelay p b bufB).2.highCutState c
        ∧ (processBlockDelay p a bufA).2.lowCutState c
            = (processBlockDelay p b bufB).2.lowCutState c
        ∧ (processBlockDelay p a bufA).2.activeGrains c
            = (processBlockDelay p b bufB).2.activeGrains c
        ∧ (processBlockDelay p a bufA).2.delayWriteIndex c
            = (processBlockDelay p b bufB).2.delayWriteIndex c)
    ∧ AgreeExcept ch (processBlockDelay p a bufA).2 (processBlockDelay p b bufB).2 := by
  have processChannel_cons : ∀ (L : BlockLocals) (channel : Nat) (st : State) (x : ℝ)
      (xs : List ℝ),
      processChannel L channel st (x :: xs)
        = ((processSample L channel st x).1
            :: (processChannel L channel (processSample L channel st x).2 xs).1,
          (processChannel L channel (processSample L channel st x).2 xs).2) := by
    intro L channel st x xs
    exact
      rfl
  have processChannels_cons : ∀ (L : BlockLocals) (channel : Nat) (st : State) (c : List ℝ)
      (cs : List (List ℝ)),
      processChannels L channel st (c :: cs)
        = ((processChannel L channel st c).1
            :: (processChannels L (channel + 1) (processChannel L channel st c).2 cs).1,
          (processChannels L (channel + 1) (processChannel L channel st c).2 cs).2) := by
    intro L channel st c cs
    exact
      rfl
  have triggerNewGrain_delayWriteIndex : ∀ (st : State) (channel : Nat) (grainSize : Int)
      (spray : ℝ) (reverse : Bool) (randomization : ℝ),
      (triggerNewGrain st channel grainSize spray reverse randomization).delayWriteIndex
        = st.delayWriteIndex := by
    intro st channel grainSize spray reverse randomization
    unfold triggerNewGrain
    split
    · rfl
    · dsimp only
      split <;> rfl
  have triggerNewGrain_delayBuffers : ∀ (st : State) (channel : Nat) (grainSize : Int) (spray : ℝ)
      (reverse : Bool) (randomization : ℝ),
      (triggerNewGrain st channel grainSize spray reverse randomization).delayBuffers
        = st.delayBuffers := by
    intro st channel grainSize spray reverse randomization
    unfold triggerNewGrain
    split
    · rfl
    · dsimp only
      split <;> rfl
  have foldl_grainLoopBody_snd : ∀ (delayBuffer : Int → ℝ) (l : List Nat) (hl : l.Nodup)
      (acc : ℝ × (Nat → Grain)) (j : Nat),
      (l.foldl (grainLoopBody delayBuffer) acc).2 j
        = if j ∈ l ∧ (acc.2 j).isActive = true then grainAdvance (acc.2 j) else acc.2 j := by
    intro delayBuffer l hl acc j
    induction l generalizing acc with
    | nil => simp
    | cons a l ih =>
      have hnd := List.nodup_cons.mp hl
      rw [List.foldl_cons, ih hnd.2]
      by_cases hja : j = a
      · subst hja
        have hnot : j ∉ l := hnd.1
        by_cases hact : (acc.2 j).isActive = true
        · unfold grainLoopBody
          simp [hnot, hact]
        · unfold grainLoopBody
          simp [hnot, hact]
      · have hsame : (grainLoopBody delayBuffer acc a).2 j = acc.2 j := by
          unfold grainLoopBody
          dsimp only
          split
          · rfl
          · simp [Function.update_noteq hja]
        rw [hsame]
        simp [hja]
  have processActiveGrains_grain : ∀ (st : State) (channel : Nat) (delayBuffer : Int → ℝ)
      (i : Nat),
      (processActiveGrains st channel delayBuffer).2.activeGrains channel i
        = if i < maxGrains ∧ (st.activeGrains channel i).isActive = true
          then grainAdvance (st.activeGrains channel i) else st.activeGrains channel i := by
    intro st channel delayBuffer i
    unfold processActiveGrains
    simp only [Function.update_same]
    rw [foldl_grainLoopBody_snd delayBuffer _ (List.nodup_range _)]
    simp [List.mem_range]
  have processActiveGrains_delayWriteIndex : ∀ (st : State) (channel : Nat)
      (delayBuffer : Int → ℝ),
      (processActiveGrains st channel delayBuffer).2.delayWriteIndex = st.delayWriteIndex := by
    intro st channel delayBuffer
    exact
      rfl
  have processActiveGrains_delayBuffers : ∀ (st : State) (channel : Nat) (delayBuffer : Int → ℝ),
      (processActiveGrains st channel delayBuffer).2.delayBuffers = st.delayBuffers := by
    intro st channel delayBuffer
    exact
      rfl
  have retrigger_delayWriteIndex : ∀ (L : BlockLocals) (channel : Nat) (st : State),
      (retrigger L channel st).delayWriteIndex = st.delayWriteIndex := by
    intro L channel st
    unfold retrigger
    exact triggerNewGrain_delayWriteIndex _ _ _ _ _ _
  have retrigger_delayBuffers : ∀ (L : BlockLocals) (channel : Nat) (st : State),
      (retrigger L channel st).delayBuffers = st.delayBuffers := by
    intro L channel st
    unfold retrigger
    exact triggerNewGrain_delayBuffers _ _ _ _ _ _
  have tapSample_delayWriteIndex : ∀ (L : BlockLocals) (channel : Nat) (st : State),
      (tapSample L channel st).2.delayWriteIndex = st.delayWriteIndex := by
    intro L channel st
    unfold tapSample
    by_cases h1 : L.grainDensity > 0.1
    · rw [if_pos h1]
      dsimp only
      rw [processActiveGrains_delayWriteIndex]
      split_ifs
      · exact retrigger_delayWriteIndex _ _ _
      · rfl
    · rw [if_neg h1]
  have tapSample_delayBuffers : ∀ (L : BlockLocals) (channel : Nat) (st : State),
      (tapSample L channel st).2.delayBuffers = st.delayBuffers := by
    intro L channel st
    unfold tapSample
    by_cases h1 : L.grainDensity > 0.1
    · rw [if_pos h1]
      dsimp only
      rw [processActiveGrains_delayBuffers]
      split_ifs
      · exact retrigger_delayBuffers _ _ _
      · rfl
    · rw [if_neg h1]
  have processSample_delayBuffers : ∀ (L : BlockLocals) (channel : Nat) (st : State)
      (inputSample : ℝ),
      (processSample L channel st inputSample).2.delayBuffers
        = Function.update st.delayBuffers channel
            (Function.update (st.delayBuffers channel) (st.delayWriteIndex channel)
              (feedbackProcessing inputSample
                (applyEQFiltering (tapSample L channel st).2 (tapSample L channel st).1 channel
                  L.eqHigh L.eqLow).1 L.feedback)) := by
    intro L channel st inputSample
    unfold processSample
    dsimp only
    have h1 : (applyEQFiltering (tapSample L channel st).2 (tapSample L channel st).1 channel
        L.eqHigh L.eqLow).2.delayBuffers = st.delayBuffers := by
      unfold applyEQFiltering
      exact tapSample_delayBuffers L channel st
    have h2 : (applyEQFiltering (tapSample L channel st).2 (tapSample L channel st).1 channel
        L.eqHigh L.eqLow).2.delayWriteIndex = st.delayWriteIndex := by
      unfold applyEQFiltering
      exact tapSample_delayWriteIndex L channel st
    rw [h1, h2]
  have triggerNewGrain_highCutState : ∀ (st : State) (channel : Nat) (grainSize : Int) (spray : ℝ)
      (reverse : Bool) (randomization : ℝ),
      (triggerNewGrain st channel grainSize spray reverse randomization).highCutState
        = st.highCutState := by
    intro st channel grainSize spray reverse randomization
    unfold triggerNewGrain
    split
    · rfl
    · dsimp only
      split <;> rfl
  have triggerNewGrain_lowCutState : ∀ (st : State) (channel : Nat) (grainSize : Int) (spray : ℝ)
      (reverse : Bool) (randomization : ℝ),
      (triggerNewGrain st channel grainSize spray reverse randomization).lowCutState
        = st.lowCutState := by
    intro st channel grainSize spray reverse randomization
    unfold triggerNewGrain
    split
    · rfl
    · dsimp only
      split <;> rfl
  have tapSample_highCutState : ∀ (L : BlockLocals) (channel : Nat) (st : State),
      (tapSample L channel st).2.highCutState = st.highCutState := by
    intro L channel st
    unfold tapSample
    by_cases h1 : L.grainDensity > 0.1
    · rw [if_pos h1]
      dsimp only
      unfold processActiveGrains
      dsimp only
      split_ifs
      · unfold retrigger
        exact triggerNewGrain_highCutState _ _ _ _ _ _
      · rfl
    · rw [if_neg h1]
  have tapSample_lowCutState : ∀ (L : BlockLocals) (channel : Nat) (st : State),
      (tapSample L channel st).2.lowCutState = st.lowCutState := by
    intro L channel st
    unfold tapSample
    by_cases h1 : L.grainDensity > 0.1
    · rw [if_pos h1]
      dsimp only
      unfold processActiveGrains
      dsimp only
      split_ifs
      · unfold retrigger
        exact triggerNewGrain_lowCutState _ _ _ _ _ _
      · rfl
    · rw [if_neg h1]
  have foldl_grainLoopBody_fst : ∀ (delayBuffer : Int → ℝ) (l : List Nat) (hl : l.Nodup)
      (acc : ℝ × (Nat → Grain)),
      (l.foldl (grainLoopBody delayBuffer) acc).1
        = acc.1 + (l.map (fun i =>
            if (acc.2 i).isActive = true
            then delayBuffer (grainReadPos (acc.2 i)) * grainEnvelope (acc.2 i) * (acc.2 i).amplitude
            else 0)).sum := by
    intro delayBuffer l hl acc
    induction l generalizing acc with
    | nil => simp
    | cons a l ih =>
      have hnd := List.nodup_cons.mp hl
      rw [List.foldl_cons, ih hnd.2, List.map_cons, List.sum_cons]
      have hsame : ∀ i ∈ l, (grainLoopBody delayBuffer acc a).2 i = acc.2 i := by
        intro i hi
        have hia : i ≠ a := fun h => hnd.1 (h ▸ hi)
        unfold grainLoopBody
        dsimp only
        split
        · rfl
        · exact Function.update_noteq hia _ _
      have hmap : l.map (fun i =>
            if ((grainLoopBody delayBuffer acc a).2 i).isActive = true
            then delayBuffer (grainReadPos ((grainLoopBody delayBuffer acc a).2 i))
              * grainEnvelope ((grainLoopBody delayBuffer acc a).2 i)
              * ((grainLoopBody delayBuffer acc a).2 i).amplitude
            else 0)
          = l.map (fun i =>
            if (acc.2 i).isActive = true
            then delayBuffer (grainReadPos (acc.2 i)) * grainEnvelope (acc.2 i) * (acc.2 i).amplitude
            else 0) := by
        apply List.map_congr_left
        intro i hi
        rw [hsame i hi]
      rw [hmap]
      have hfst : (grainLoopBody delayBuffer acc a).1
          = acc.1 + (if (acc.2 a).isActive = true
            then delayBuffer (grainReadPos (acc.2 a)) * grainEnvelope (acc.2 a) * (acc.2 a).amplitude
            else 0) := by
        unfold grainLoopBody
        dsimp only
        by_cases hact : (acc.2 a).isActive = true
        · simp [hact]
        · simp [hact]
      rw [hfst, add_assoc]
  have processActiveGrains_output : ∀ (st : State) (channel : Nat) (delayBuffer : Int → ℝ),
      (processActiveGrains st channel delayBuffer).1
        = ((List.range maxGrains).map (fun i =>
            if (st.activeGrains channel i).isActive = true
            then delayBuffer (grainReadPos (st.activeGrains channel i))
              * grainEnvelope (st.activeGrains channel i) * (st.activeGrains channel i).amplitude
            else 0)).sum := by
    intro st channel delayBuffer
    unfold processActiveGrains
    dsimp only
    rw [foldl_grainLoopBody_fst delayBuffer _ (List.nodup_range _), zero_add]
  have tapSample_plain : ∀ (L : BlockLocals) (channel : Nat) (st : State)
      (hd : ¬ L.grainDensity > 0.1),
      tapSample L channel st = (st.delayBuffers channel (st.delayWriteIndex channel), st) := by
    intro L channel st hd
    unfold tapSample
    rw [if_neg hd]
  have tapSample_granular : ∀ (L : BlockLocals) (channel : Nat) (st : State)
      (hd : L.grainDensity > 0.1),
      tapSample L channel st
        = processActiveGrains (preGrainState L channel st) channel
            ((preGrainState L channel st).delayBuffers channel) := by
    intro L channel st hd
    unfold tapSample preGrainState
    rw [if_pos hd]
    dsimp only
    rw [Function.update_same]
  have preGrainState_delayBuffers : ∀ (L : BlockLocals) (channel : Nat) (st : State),
      (preGrainState L channel st).delayBuffers = st.delayBuffers := by
    intro L channel st
    unfold preGrainState
    split_ifs
    · exact retrigger_delayBuffers _ _ _
    · rfl
  have agreeExcept_eq : ∀ (channel : Nat) (a b : State) (h : AgreeExcept channel a b),
      b = { a with
        delayBuffers := b.delayBuffers, highCutState := b.highCutState,
        lowCutState := b.lowCutState } := by
    intro channel a b h
    obtain ⟨h1, h2, h3, h4, h5, h6, h7, h8, h9, _⟩ := h
    cases a
    cases b
    simp only at h1 h2 h3 h4 h5 h6 h7 h8 h9
    subst h1 h2 h3 h4 h5 h6 h7 h8 h9
    rfl
  have triggerNewGrain_withData : ∀ (a : State) (B : Nat → Int → ℝ) (H Lo : Nat → ℝ)
      (channel : Nat) (grainSize : Int) (spray : ℝ) (reverse : Bool) (randomization : ℝ),
      triggerNewGrain { a with delayBuffers := B, highCutState := H, lowCutState := Lo } channel
          grainSize spray reverse randomization
        = { triggerNewGrain a channel grainSize spray reverse randomization with
            delayBuffers := B, highCutState := H, lowCutState := Lo } := by
    intro a B H Lo channel grainSize spray reverse randomization
    have hf : firstInactive { a with delayBuffers := B, highCutState := H, lowCutState := Lo }
        channel = firstInactive a channel := rfl
    unfold triggerNewGrain
    rw [hf]
    cases firstInactive a channel with
    | none => rfl
    | some i =>
      dsimp only
      split_ifs <;> rfl
  have retrigger_withData : ∀ (L : BlockLocals) (channel : Nat) (a : State) (B : Nat → Int → ℝ)
      (H Lo : Nat → ℝ),
      retrigger L channel { a with delayBuffers := B, highCutState := H, lowCutState := Lo }
        = { retrigger L channel a with delayBuffers := B, highCutState := H, lowCutState := Lo } := by
    intro L channel a B H Lo
    unfold retrigger
    dsimp only
    rw [triggerNewGrain_withData]
  have preGrainState_withData : ∀ (L : BlockLocals) (channel : Nat) (a : State)
      (B : Nat → Int → ℝ) (H Lo : Nat → ℝ),
      preGrainState L channel { a with delayBuffers := B, highCutState := H, lowCutState := Lo }
        = { preGrainState L channel a with
            delayBuffers := B, highCutState := H, lowCutState := Lo } := by
    intro L channel a B H Lo
    unfold preGrainState
    dsimp only
    split_ifs
    · exact retrigger_withData L channel
        { a with grainTriggerCountdown :=
            Function.update a.grainTriggerCountdown channel (a.grainTriggerCountdown channel - 1) }
        B H Lo
    · rfl
  have processActiveGrains_grains_indep : ∀ (st : State) (channel : Nat) (buf1 buf2 : Int → ℝ),
      (processActiveGrains st channel buf1).2.activeGrains
        = (processActiveGrains st channel buf2).2.activeGrains := by
    intro st channel buf1 buf2
    funext c i
    by_cases hc : c = channel
    · subst hc
      rw [processActiveGrains_grain, processActiveGrains_grain]
    · unfold processActiveGrains
      dsimp only
      rw [Function.update_noteq hc, Function.update_noteq hc]
  have tapSample_withData : ∀ (L : BlockLocals) (channel : Nat) (a : State) (B : Nat → Int → ℝ)
      (H Lo : Nat → ℝ),
      (tapSample L channel { a with delayBuffers := B, highCutState := H, lowCutState := Lo }).2
        = { (tapSample L channel a).2 with
            delayBuffers := B, highCutState := H, lowCutState := Lo } := by
    intro L channel a B H Lo
    by_cases hd : L.grainDensity > 0.1
    · rw [tapSample_granular L channel _ hd, tapSample_granular L channel a hd,
        preGrainState_withData]
      have hg := processActiveGrains_grains_indep (preGrainState L channel a) channel
        (B channel) ((preGrainState L channel a).delayBuffers channel)
      unfold processActiveGrains at hg ⊢
      dsimp only at hg ⊢
      rw [hg]
    · rw [tapSample_plain L channel _ hd, tapSample_plain L channel a hd]
  have processSample_withData : ∀ (L : BlockLocals) (channel : Nat) (a : State)
      (B : Nat → Int → ℝ) (H Lo : Nat → ℝ) (x y : ℝ),
      ∃ (B2 : Nat → Int → ℝ) (H2 Lo2 : Nat → ℝ),
        (processSample L channel
            { a with delayBuffers := B, highCutState := H, lowCutState := Lo } y).2
          = { (processSample L channel a x).2 with
              delayBuffers := B2, highCutState := H2, lowCutState := Lo2 } := by
    intro L channel a B H Lo x y
    unfold processSample applyEQFiltering
    dsimp only
    rw [tapSample_withData]
    exact ⟨_, _, _, rfl⟩
  have processSample_highCutState_other : ∀ (L : BlockLocals) (channel other : Nat)
      (hne : other ≠ channel) (st : State) (x : ℝ),
      (processSample L channel st x).2.highCutState other = st.highCutState other := by
    intro L channel other hne st x
    unfold processSample applyEQFiltering
    dsimp only
    rw [Function.update_noteq hne, tapSample_highCutState]
  have processSample_lowCutState_other : ∀ (L : BlockLocals) (channel other : Nat)
      (hne : other ≠ channel) (st : State) (x : ℝ),
      (processSample L channel st x).2.lowCutState other = st.lowCutState other := by
    intro L channel other hne st x
    unfold processSample applyEQFiltering
    dsimp only
    rw [Function.update_noteq hne, tapSample_lowCutState]
  have processSample_delayBuffers_other : ∀ (L : BlockLocals) (channel other : Nat)
      (hne : other ≠ channel) (st : State) (x : ℝ),
      (processSample L channel st x).2.delayBuffers other = st.delayBuffers other := by
    intro L channel other hne st x
    rw [processSample_delayBuffers, Function.update_noteq hne]
  have processSample_agree_control : ∀ (L : BlockLocals) (channel ch : Nat) (a b : State)
      (x y : ℝ) (h : AgreeExcept ch a b),
      (processSample L channel a x).2.delayWriteIndex
          = (processSample L channel b y).2.delayWriteIndex
      ∧ (processSample L channel a x).2.activeGrains
          = (processSample L channel b y).2.activeGrains
      ∧ (processSample L channel a x).2.grainTriggerCountdown
          = (processSample L channel b y).2.grainTriggerCountdown
      ∧ (processSample L channel a x).2.random = (processSample L channel b y).2.random
      ∧ (processSample L channel a x).2.lfoState = (processSample L channel b y).2.lfoState
      ∧ (processSample L channel a x).2.currentSampleRate
          = (processSample L channel b y).2.currentSampleRate
      ∧ (processSample L channel a x).2.currentBufferSize
          = (processSample L channel b y).2.currentBufferSize
      ∧ (processSample L channel a x).2.getSampleRate
          = (processSample L channel b y).2.getSampleRate
      ∧ (processSample L channel a x).2.getPlayHead
          = (processSample L channel b y).2.getPlayHead := by
    intro L channel ch a b x y h
    have hb := agreeExcept_eq ch a b h
    obtain ⟨B2, H2, Lo2, he⟩ := processSample_withData L channel a b.delayBuffers
      b.highCutState b.lowCutState x y
    rw [← hb] at he
    rw [he]
    exact ⟨rfl, rfl, rfl, rfl, rfl, rfl, rfl, rfl, rfl⟩
  have processSample_agree_self : ∀ (L : BlockLocals) (ch : Nat) (a b : State) (x y : ℝ)
      (h : AgreeExcept ch a b),
      AgreeExcept ch (processSample L ch a x).2 (processSample L ch b y).2 := by
    intro L ch a b x y h
    obtain ⟨h1, h2, h3, h4, h5, h6, h7, h8, h9⟩ := processSample_agree_control L ch ch a b x y h
    refine ⟨h1, h2, h3, h4, h5, h6, h7, h8, h9, ?_⟩
    intro c hc
    obtain ⟨hB, hH, hL⟩ := h.2.2.2.2.2.2.2.2.2 c hc
    rw [processSample_delayBuffers_other L ch c hc, processSample_delayBuffers_other L ch c hc,
      processSample_highCutState_other L ch c hc, processSample_highCutState_other L ch c hc,
      processSample_lowCutState_other L ch c hc, processSample_lowCutState_other L ch c hc]
    exact ⟨hB, hH, hL⟩
  have tapSample_agree_output : ∀ (L : BlockLocals) (channel ch : Nat) (a b : State)
      (hne : channel ≠ ch) (h : AgreeExcept ch a b),
      (tapSample L channel a).1 = (tapSample L channel b).1 := by
    intro L channel ch a b hne h
    have hB : b.delayBuffers channel = a.delayBuffers channel :=
      ((h.2.2.2.2.2.2.2.2.2 channel hne).1).symm
    have hw : b.delayWriteIndex = a.delayWriteIndex := h.1.symm
    by_cases hd : L.grainDensity > 0.1
    · have hb := agreeExcept_eq ch a b h
      have hpre : preGrainState L channel b
          = { preGrainState L channel a with
              delayBuffers := b.delayBuffers, highCutState := b.highCutState,
              lowCutState := b.lowCutState } := by
        have := preGrainState_withData L channel a b.delayBuffers b.highCutState b.lowCutState
        rw [← hb] at this
        exact this
      rw [tapSample_granular L channel a hd, tapSample_granular L channel b hd,
        processActiveGrains_output, processActiveGrains_output, preGrainState_delayBuffers,
        preGrainState_delayBuffers, hB, hpre]
    · rw [tapSample_plain L channel a hd, tapSample_plain L channel b hd]
      dsimp only
      rw [hB, hw]
  have tapSample_getSampleRate : ∀ (L : BlockLocals) (channel : Nat) (st : State),
      (tapSample L channel st).2.getSampleRate = st.getSampleRate := by
    intro L channel st
    unfold tapSample
    by_cases h1 : L.grainDensity > 0.1
    · rw [if_pos h1]
      dsimp only
      unfold processActiveGrains
      dsimp only
      split_ifs
      · unfold retrigger triggerNewGrain
        dsimp only
        split
        · rfl
        · split_ifs <;> rfl
      · rfl
    · rw [if_neg h1]
  have processSample_output_noCrossFeed : ∀ (L : BlockLocals) (channel : Nat) (st : State) (x : ℝ)
      (hx : ¬ (L.numChannels = 2 ∧ L.stereoWidth > 0)),
      (processSample L channel st x).1
        = x * (1 - L.mix)
          + (applyEQFiltering (tapSample L channel st).2 (tapSample L channel st).1 channel
              L.eqHigh L.eqLow).1 * L.mix := by
    intro L channel st x hx
    unfold processSample
    dsimp only
    unfold crossFeed
    rw [if_neg hx, add_zero]
  have processSample_highCutState : ∀ (L : BlockLocals) (channel : Nat) (st : State) (x : ℝ),
      (processSample L channel st x).2.highCutState
        = (applyEQFiltering (tapSample L channel st).2 (tapSample L channel st).1 channel
            L.eqHigh L.eqLow).2.highCutState := by
    intro L channel st x
    exact
      rfl
  have processSample_lowCutState : ∀ (L : BlockLocals) (channel : Nat) (st : State) (x : ℝ),
      (processSample L channel st x).2.lowCutState
        = (applyEQFiltering (tapSample L channel st).2 (tapSample L channel st).1 channel
            L.eqHigh L.eqLow).2.lowCutState := by
    intro L channel st x
    exact
      rfl
  have applyEQFiltering_congr : ∀ (st1 st2 : State) (sample : ℝ) (channel : Nat)
      (highCut lowCut : ℝ) (hsr : st1.getSampleRate = st2.getSampleRate)
      (hh : st1.highCutState channel = st2.highCutState channel)
      (hl : st1.lowCutState channel = st2.lowCutState channel),
      (applyEQFiltering st1 sample channel highCut lowCut).1
          = (applyEQFiltering st2 sample channel highCut lowCut).1
      ∧ (applyEQFiltering st1 sample channel highCut lowCut).2.highCutState channel
          = (applyEQFiltering st2 sample channel highCut lowCut).2.highCutState channel
      ∧ (applyEQFiltering st1 sample channel highCut lowCut).2.lowCutState channel
          = (applyEQFiltering st2 sample channel highCut lowCut).2.lowCutState channel := by
    intro st1 st2 sample channel highCut lowCut hsr hh hl
    unfold applyEQFiltering
    dsimp only
    rw [hsr, hh, hl]
    simp only [Function.update_same, and_self]
  have applyEQFiltering_agree : ∀ (L : BlockLocals) (channel ch : Nat) (a b : State)
      (hne : channel ≠ ch) (h : AgreeExcept ch a b),
      (applyEQFiltering (tapSample L channel a).2 (tapSample L channel a).1 channel
          L.eqHigh L.eqLow).1
        = (applyEQFiltering (tapSample L channel b).2 (tapSample L channel b).1 channel
          L.eqHigh L.eqLow).1
      ∧ (applyEQFiltering (tapSample L channel a).2 (tapSample L channel a).1 channel
          L.eqHigh L.eqLow).2.highCutState channel
        = (applyEQFiltering (tapSample L channel b).2 (tapSample L channel b).1 channel
          L.eqHigh L.eqLow).2.highCutState channel
      ∧ (applyEQFiltering (tapSample L channel a).2 (tapSample L channel a).1 channel
          L.eqHigh L.eqLow).2.lowCutState channel
        = (applyEQFiltering (tapSample L channel b).2 (tapSample L channel b).1 channel
          L.eqHigh L.eqLow).2.lowCutState channel := by
    intro L channel ch a b hne h
    obtain ⟨_, hH, hL⟩ := h.2.2.2.2.2.2.2.2.2 channel hne
    rw [tapSample_agree_output L channel ch a b hne h]
    apply applyEQFiltering_congr
    · rw [tapSample_getSampleRate, tapSample_getSampleRate]
      exact h.2.2.2.2.2.2.2.1
    · rw [tapSample_highCutState, tapSample_highCutState]
      exact hH
    · rw [tapSample_lowCutState, tapSample_lowCutState]
      exact hL
  have processSample_agree_other : ∀ (L : BlockLocals) (channel ch : Nat) (a b : State) (x : ℝ)
      (hne : channel ≠ ch) (hx : ¬ (L.numChannels = 2 ∧ L.stereoWidth > 0))
      (h : AgreeExcept ch a b),
      (processSample L channel a x).1 = (processSample L channel b x).1
      ∧ AgreeExcept ch (processSample L channel a x).2 (processSample L channel b x).2 := by
    intro L channel ch a b x hne hx h
    obtain ⟨e1, e2, e3⟩ := applyEQFiltering_agree L channel ch a b hne h
    obtain ⟨h1, h2, h3, h4, h5, h6, h7, h8, h9⟩ :=
      processSample_agree_control L channel ch a b x x h
    refine ⟨?_, h1, h2, h3, h4, h5, h6, h7, h8, h9, ?_⟩
    · rw [processSample_output_noCrossFeed L channel a x hx,
        processSample_output_noCrossFeed L channel b x hx, e1]
    · intro c hc
      obtain ⟨hB, hH, hL⟩ := h.2.2.2.2.2.2.2.2.2 c hc
      by_cases hcc : c = channel
      · rw [hcc] at hB ⊢
        refine ⟨?_, ?_, ?_⟩
        · rw [processSample_delayBuffers, processSample_delayBuffers, Function.update_same,
            Function.update_same, e1, hB, h.1]
        · rw [processSample_highCutState, processSample_highCutState]
          exact e2
        · rw [processSample_lowCutState, processSample_lowCutState]
          exact e3
      · rw [processSample_delayBuffers_other L channel c hcc,
          processSample_delayBuffers_other L channel c hcc,
          processSample_highCutState_other L channel c hcc,
          processSample_highCutState_other L channel c hcc,
          processSample_lowCutState_other L channel c hcc,
          processSample_lowCutState_other L channel c hcc]
        exact ⟨hB, hH, hL⟩
  have processChannel_agree_self : ∀ (L : BlockLocals) (ch : Nat) (xs : List ℝ),
      ∀ (ys : List ℝ) (a b : State), xs.length = ys.length → AgreeExcept ch a b →
        AgreeExcept ch (processChannel L ch a xs).2 (processChannel L ch b ys).2 := by
    intro L ch xs
    induction xs with
    | nil =>
      intro ys a b hlen h
      match ys, hlen with
      | [], _ => exact h
    | cons x xs ih =>
      intro ys a b hlen h
      match ys, hlen with
      | y :: ys, hlen =>
        rw [processChannel_cons, processChannel_cons]
        exact ih ys _ _ (by simpa using hlen) (processSample_agree_self L ch a b x y h)
  have processChannel_agree_other : ∀ (L : BlockLocals) (channel ch : Nat) (hne : channel ≠ ch)
      (hx : ¬ (L.numChannels = 2 ∧ L.stereoWidth > 0)) (xs : List ℝ),
      ∀ (a b : State), AgreeExcept ch a b →
        (processChannel L channel a xs).1 = (processChannel L channel b xs).1
        ∧ AgreeExcept ch (processChannel L channel a xs).2 (processChannel L channel b xs).2 := by
    intro L channel ch hne hx xs
    induction xs with
    | nil =>
      intro a b h
      exact ⟨rfl, h⟩
    | cons x xs ih =>
      intro a b h
      obtain ⟨ho, hs⟩ := processSample_agree_other L channel ch a b x hne hx h
      obtain ⟨ho2, hs2⟩ := ih _ _ hs
      rw [processChannel_cons, processChannel_cons]
      dsimp only
      rw [ho, ho2]
      exact ⟨rfl, hs2⟩
  have processChannels_agree : ∀ (L : BlockLocals) (ch : Nat)
      (hx : ¬ (L.numChannels = 2 ∧ L.stereoWidth > 0)) (bufA : List (List ℝ)),
      ∀ (c0 : Nat) (bufB : List (List ℝ)) (a b : State), AgreeExcept ch a b →
        bufA.length = bufB.length →
        (∀ k : Nat, (bufA.getD k []).length = (bufB.getD k []).length) →
        (∀ k : Nat, c0 + k ≠ ch → bufA.getD k [] = bufB.getD k []) →
        (∀ k : Nat, c0 + k ≠ ch →
          (processChannels L c0 a bufA).1.getD k [] = (processChannels L c0 b bufB).1.getD k [])
        ∧ AgreeExcept ch (processChannels L c0 a bufA).2 (processChannels L c0 b bufB).2 := by
    intro L ch hx bufA
    induction bufA with
    | nil =>
      intro c0 bufB a b h hlen _ _
      match bufB, hlen with
      | [], _ => exact ⟨fun _ _ => rfl, h⟩
    | cons x xs ih =>
      intro c0 bufB a b h hlen hlens hsame
      match bufB, hlen, hlens, hsame with
      | y :: ys, hlen, hlens, hsame =>
        rw [processChannels_cons, processChannels_cons]
        dsimp only
        have hstep : (c0 ≠ ch → (processChannel L c0 a x).1 = (processChannel L c0 b y).1)
            ∧ AgreeExcept ch (processChannel L c0 a x).2 (processChannel L c0 b y).2 := by
          by_cases hc : c0 = ch
          · refine ⟨fun hn => absurd hc hn, ?_⟩
            rw [hc]
            exact processChannel_agree_self L ch x y a b (hlens 0) h
          · have hxy : x = y := hsame 0 hc
            rw [← hxy]
            have := processChannel_agree_other L c0 ch hc hx x a b h
            exact ⟨fun _ => this.1, this.2⟩
        obtain ⟨hrest, hfin⟩ := ih (c0 + 1) ys _ _ hstep.2 (by simpa using hlen)
          (fun k => hlens (k + 1))
          (fun k hk => hsame (k + 1) (by omega))
        refine ⟨?_, hfin⟩
        intro k hk
        cases k with
        | zero => exact hstep.1 hk
        | succ k =>
          rw [List.getD_cons_succ, List.getD_cons_succ]
          exact hrest k (by omega)
  have agreeExcept_refl : ∀ (ch : Nat) (a : State),
      AgreeExcept ch a a := by
    intro ch a
    exact
      ⟨rfl, rfl, rfl, rfl, rfl, rfl, rfl, rfl, rfl, fun _ _ => ⟨rfl, rfl, rfl⟩⟩
  have readLocals_agree : ∀ (p : Parameters) (ch : Nat) (a b : State) (n : Nat)
      (h : AgreeExcept ch a b),
      readLocals p a n = readLocals p b n := by
    intro p ch a b n h
    unfold readLocals
    rw [h.2.2.2.2.2.2.2.1]
  have hx : ¬ ((readLocals p a bufA.length).numChannels = 2
      ∧ (readLocals p a bufA.length).stereoWidth > 0) := by
    intro hc
    have h2 : (readLocals p a bufA.length).stereoWidth = 0 := by
      unfold readLocals
      dsimp only
      rw [hw, zero_div]
    rw [h2] at hc
    exact lt_irrefl _ hc.2
  have hrun := processChannels_agree (readLocals p a bufA.length) ch hx bufA 0 bufB a b h hlen
    hlens (fun k hk => hsame k (by omega))
  have hL : readLocals p b bufB.length = readLocals p a bufA.length := by
    rw [← hlen, readLocals_agree p ch a b bufA.length h]
  unfold processBlockDelay
  rw [hL]
  obtain ⟨hout, hfin⟩ := hrun
  refine ⟨agreeExcept_refl ch a, ?_, hfin⟩
  intro c hc
  obtain ⟨hB, hH, hLo⟩ := hfin.2.2.2.2.2.2.2.2.2 c hc
  exact ⟨hout c (by omega), hB, hH, hLo, congrFun hfin.2.1 c, congrFun hfin.1 c⟩

theorem processBlock_channel_independence_witness :
    (processBlockDelay scenarioAParameters scenarioAState [[1, 0], [1 / 2, 1 / 4]]).1.getD 1 []
      = (processBlockDelay scenarioAParameters scenarioAState
          [[1 / 2, 3 / 4], [1 / 2, 1 / 4]]).1.getD 1 [] := by
  have agreeExcept_refl : ∀ (ch : Nat) (a : State),
      AgreeExcept ch a a := by
    intro ch a
    exact
      ⟨rfl, rfl, rfl, rfl, rfl, rfl, rfl, rfl, rfl, fun _ _ => ⟨rfl, rfl, rfl⟩⟩
  exact
    ((processBlock_channel_independence scenarioAParameters 0 scenarioAState scenarioAState
      [[1, 0], [1 / 2, 1 / 4]] [[1 / 2, 3 / 4], [1 / 2, 1 / 4]]
      (by unfold scenarioAParameters; simp) (agreeExcept_refl 0 scenarioAState) rfl
      (fun k => match k with
        | 0 => rfl
        | 1 => rfl
        | _ + 2 => rfl)
      (fun c hc => match c, hc with
        | 0, hc => absurd rfl hc
        | 1, _ => rfl
        | _ + 2, _ => rfl)).2.1 1 (by decide)).1

/-! ## The grain pool is never exhausted without randomization -/

/-- C28 (no voice starvation without randomization). Let `st0` be the state after
`prepareToPlay`, `L` the block locals read from constant parameters with `randomization = 0`
and `grainDensity` in `(0.1, 4]`, and `st` the state after the sample loop body has run for
any list `sched` of (channel, inputSample) pairs, so `st` ranges over the states before
every processed sample. Then the grain size in samples is in `[64, 8192]`, at most 9 grains
of `channel` are active in `st`, at most 9 are active when `processActiveGrains` runs in the
next sample of the channel, and whenever that sample requests a trigger the slot scan of
`triggerNewGrain` finds a free slot, so no request is dropped. The last part states that
consecutive `processBlock` calls on buffers of `numChannels` channels are such a list. -/
theorem grain_pool_never_exhausted (p : Parameters) (base st0 st : State) (L : BlockLocals)
    (sampleRate : ℝ) (samplesPerBlock : Int) (numOutputChannels numChannels channel : Nat)
    (sched : List (Nat × ℝ))
    (hst0 : st0 = prepareToPlay base sampleRate samplesPerBlock numOutputChannels)
    (hL : L = readLocals p st0 numChannels) (hst : st = runSamples L st0 sched)
    (hch : channel < numOutputChannels) (hr : p "randomization" = 0)
    (hd1 : p "grainDensity" > 0.1) (hd2 : p "grainDensity" ≤ 4) :
    64 ≤ L.grainSizeSamples ∧ L.grainSizeSamples ≤ 8192
    ∧ activeCount st channel ≤ 9
    ∧ activeCount (preGrainState L channel st) channel ≤ 9
    ∧ (st.grainTriggerCountdown channel - 1 ≤ 0 → ∃ i : Nat, firstInactive st channel = some i)
    ∧ (∀ blocks : List (List (List ℝ)), (∀ b ∈ blocks, b.length = numChannels) →
        processBlocks p st0 blocks = runSamples L st0 (blocksSchedule blocks)) := by
  have processChannel_cons : ∀ (L : BlockLocals) (channel : Nat) (st : State) (x : ℝ)
      (xs : List ℝ),
      processChannel L channel st (x :: xs)
        = ((processSample L channel st x).1
            :: (processChannel L channel (processSample L channel st x).2 xs).1,
          (processChannel L channel (processSample L channel st x).2 xs).2) := by
    intro L channel st x xs
    exact
      rfl
  have processChannels_cons : ∀ (L : BlockLocals) (channel : Nat) (st : State) (c : List ℝ)
      (cs : List (List ℝ)),
      processChannels L channel st (c :: cs)
        = ((processChannel L channel st c).1
            :: (processChannels L (channel + 1) (processChannel L channel st c).2 cs).1,
          (processChannels L (channel + 1) (processChannel L channel st c).2 cs).2) := by
    intro L channel st c cs
    exact
      rfl
  have runSamples_cons : ∀ (L : BlockLocals) (st : State) (cx : Nat × ℝ) (rest : List (Nat × ℝ)),
      runSamples L st (cx :: rest) = runSamples L (processSample L cx.1 st cx.2).2 rest := by
    intro L st cx rest
    exact
      rfl
  have blockSchedule_cons : ∀ (channel : Nat) (c : List ℝ) (cs : List (List ℝ)),
      blockSchedule channel (c :: cs)
        = c.map (fun x => (channel, x)) ++ blockSchedule (channel + 1) cs := by
    intro channel c cs
    exact
      rfl
  have blocksSchedule_cons : ∀ (b : List (List ℝ)) (bs : List (List (List ℝ))),
      blocksSchedule (b :: bs) = blockSchedule 0 b ++ blocksSchedule bs := by
    intro b bs
    exact
      rfl
  have processBlocks_cons : ∀ (p : Parameters) (st : State) (b : List (List ℝ))
      (bs : List (List (List ℝ))),
      processBlocks p st (b :: bs) = processBlocks p (processBlockDelay p st b).2 bs := by
    intro p st b bs
    exact
      rfl
  have triggerNewGrain_grainTriggerCountdown : ∀ (st : State) (channel : Nat) (grainSize : Int)
      (spray : ℝ) (reverse : Bool) (randomization : ℝ),
      (triggerNewGrain st channel grainSize spray reverse randomization).grainTriggerCountdown
        = st.grainTriggerCountdown := by
    intro st channel grainSize spray reverse randomization
    unfold triggerNewGrain
    split
    · rfl
    · dsimp only
      split <;> rfl
  have foldl_grainLoopBody_snd : ∀ (delayBuffer : Int → ℝ) (l : List Nat) (hl : l.Nodup)
      (acc : ℝ × (Nat → Grain)) (j : Nat),
      (l.foldl (grainLoopBody delayBuffer) acc).2 j
        = if j ∈ l ∧ (acc.2 j).isActive = true then grainAdvance (acc.2 j) else acc.2 j := by
    intro delayBuffer l hl acc j
    induction l generalizing acc with
    | nil => simp
    | cons a l ih =>
      have hnd := List.nodup_cons.mp hl
      rw [List.foldl_cons, ih hnd.2]
      by_cases hja : j = a
      · subst hja
        have hnot : j ∉ l := hnd.1
        by_cases hact : (acc.2 j).isActive = true
        · unfold grainLoopBody
          simp [hnot, hact]
        · unfold grainLoopBody
          simp [hnot, hact]
      · have hsame : (grainLoopBody delayBuffer acc a).2 j = acc.2 j := by
          unfold grainLoopBody
          dsimp only
          split
          · rfl
          · simp [Function.update_noteq hja]
        rw [hsame]
        simp [hja]
  have processActiveGrains_grain : ∀ (st : State) (channel : Nat) (delayBuffer : Int → ℝ)
      (i : Nat),
      (processActiveGrains st channel delayBuffer).2.activeGrains channel i
        = if i < maxGrains ∧ (st.activeGrains channel i).isActive = true
          then grainAdvance (st.activeGrains channel i) else st.activeGrains channel i := by
    intro st channel delayBuffer i
    unfold processActiveGrains
    simp only [Function.update_same]
    rw [foldl_grainLoopBody_snd delayBuffer _ (List.nodup_range _)]
    simp [List.mem_range]
  have processActiveGrains_grainTriggerCountdown : ∀ (st : State) (channel : Nat)
      (delayBuffer : Int → ℝ),
      (processActiveGrains st channel delayBuffer).2.grainTriggerCountdown
        = st.grainTriggerCountdown := by
    intro st channel delayBuffer
    exact
      rfl
  have jmap_same_range : ∀ (d : ℝ),
      jmap d 0.1 4 0.1 4 = d := by
    intro d
    unfold jmap
    field_simp
  have toInt_of_nonneg : ∀ (x : ℝ) (h : 0 ≤ x),
      toInt x = ⌊x⌋ := by
    intro x h
    unfold toInt
    rw [if_pos h]
  have retrigger_grainTriggerCountdown : ∀ (L : BlockLocals) (channel : Nat) (st : State)
      (hr : L.randomization = 0),
      (retrigger L channel st).grainTriggerCountdown channel
        = jmax 1 (toInt ((L.grainSizeSamples : ℝ) * 0.5 / jmap L.grainDensity 0.1 4 0.1 4)) := by
    intro L channel st hr
    unfold retrigger
    dsimp only
    rw [Function.update_same, hr]
    have hz : toInt (((toInt ((L.grainSizeSamples : ℝ) * 0.5 / jmap L.grainDensity 0.1 4 0.1 4)
        : Int) : ℝ) * 0 * ((triggerNewGrain st channel L.grainSizeSamples L.grainSpray
          L.reverseGrains 0).random.nextFloat.1 * 2 - 1)) = 0 := by
      rw [mul_zero, zero_mul]
      unfold toInt
      simp
    rw [hz, add_zero]
  have processSample_grainTriggerCountdown_other : ∀ (L : BlockLocals) (channel other : Nat)
      (hne : channel ≠ other) (st : State) (inputSample : ℝ),
      (processSample L other st inputSample).2.grainTriggerCountdown channel
        = st.grainTriggerCountdown channel := by
    intro L channel other hne st inputSample
    unfold processSample applyEQFiltering
    dsimp only
    unfold tapSample
    by_cases hd : L.grainDensity > 0.1
    · rw [if_pos hd]
      dsimp only
      rw [processActiveGrains_grainTriggerCountdown]
      split_ifs with h
      · unfold retrigger
        dsimp only
        rw [Function.update_noteq hne, triggerNewGrain_grainTriggerCountdown]
        exact Function.update_noteq hne _ _
      · exact Function.update_noteq hne _ _
    · rw [if_neg hd]
  have tapSample_plain : ∀ (L : BlockLocals) (channel : Nat) (st : State)
      (hd : ¬ L.grainDensity > 0.1),
      tapSample L channel st = (st.delayBuffers channel (st.delayWriteIndex channel), st) := by
    intro L channel st hd
    unfold tapSample
    rw [if_neg hd]
  have tapSample_granular : ∀ (L : BlockLocals) (channel : Nat) (st : State)
      (hd : L.grainDensity > 0.1),
      tapSample L channel st
        = processActiveGrains (preGrainState L channel st) channel
            ((preGrainState L channel st).delayBuffers channel) := by
    intro L channel st hd
    unfold tapSample preGrainState
    rw [if_pos hd]
    dsimp only
    rw [Function.update_same]
  have processSample_activeGrains : ∀ (L : BlockLocals) (channel : Nat) (st : State) (x : ℝ)
      (hd : L.grainDensity > 0.1),
      (processSample L channel st x).2.activeGrains
        = (processActiveGrains (preGrainState L channel st) channel
            ((preGrainState L channel st).delayBuffers channel)).2.activeGrains := by
    intro L channel st x hd
    unfold processSample applyEQFiltering
    dsimp only
    rw [tapSample_granular L channel st hd]
  have tapSample_getSampleRate : ∀ (L : BlockLocals) (channel : Nat) (st : State),
      (tapSample L channel st).2.getSampleRate = st.getSampleRate := by
    intro L channel st
    unfold tapSample
    by_cases h1 : L.grainDensity > 0.1
    · rw [if_pos h1]
      dsimp only
      unfold processActiveGrains
      dsimp only
      split_ifs
      · unfold retrigger triggerNewGrain
        dsimp only
        split
        · rfl
        · split_ifs <;> rfl
      · rfl
    · rw [if_neg h1]
  have activeCount_le_of_grid : ∀ (st : State) (channel : Nat) (N : Int) (K : Nat) (hN : 0 < N)
      (val : Nat → Int)
      (hval : ∀ j : Nat, j < maxGrains → (st.activeGrains channel j).isActive = true → 1 ≤ val j ∧ val j < ((K : Int) + 1) * N ∧ N ∣ val j)
      (hinj : ∀ i j : Nat, i < maxGrains → j < maxGrains → (st.activeGrains channel i).isActive = true → (st.activeGrains channel j).isActive = true → val i = val j → i = j),
      activeCount st channel ≤ K := by
    intro st channel N K hN val hval hinj
    unfold activeCount
    have hcard : (Finset.Icc (1 : Int) (K : Int)).card = K := by
      rw [Int.card_Icc]
      simp
    rw [← hcard]
    apply Finset.card_le_card_of_injOn (fun j => val j / N)
    · intro j hj
      rw [Finset.mem_filter, Finset.mem_range] at hj
      obtain ⟨hj1, hj2⟩ := hj
      obtain ⟨h1, h2, h3⟩ := hval j hj1 hj2
      obtain ⟨k, hk⟩ := h3
      rw [Finset.mem_Icc]
      rw [hk, Int.mul_ediv_cancel_left _ (ne_of_gt hN)]
      constructor
      · by_contra hc
        have hk0 : k ≤ 0 := by omega
        have : N * k ≤ 0 := mul_nonpos_of_nonneg_of_nonpos (le_of_lt hN) hk0
        omega
      · by_contra hc
        have hk1 : (K : Int) + 1 ≤ k := by omega
        have : N * ((K : Int) + 1) ≤ N * k := mul_le_mul_of_nonneg_left hk1 (le_of_lt hN)
        rw [hk] at h2
        linarith
    · intro i hi j hj hij
      rw [Finset.mem_coe, Finset.mem_filter, Finset.mem_range] at hi hj
      obtain ⟨hi1, hi2⟩ := hi
      obtain ⟨hj1, hj2⟩ := hj
      obtain ⟨_, _, k1, hk1⟩ := hval i hi1 hi2
      obtain ⟨_, _, k2, hk2⟩ := hval j hj1 hj2
      beta_reduce at hij
      rw [hk1, hk2, Int.mul_ediv_cancel_left _ (ne_of_gt hN),
        Int.mul_ediv_cancel_left _ (ne_of_gt hN)] at hij
      apply hinj i j hi1 hj1 hi2 hj2
      rw [hk1, hk2, hij]
  have grainInv_activeCount : ∀ (o s N : Int) (channel : Nat) (st : State) (ho : 0 ≤ o)
      (hN : 8 ≤ N) (hs : s ≤ 8 * N + 7) (h : GrainInv o s N channel st),
      activeCount st channel ≤ 9 := by
    intro o s N channel st ho hN hs h
    obtain ⟨hc, hg, hd⟩ := h
    apply activeCount_le_of_grid st channel N 9 (by omega)
      (fun j => (st.activeGrains channel j).position + st.grainTriggerCountdown channel - o)
    · intro j hj hact
      obtain ⟨_, h2, h3, h4, h5⟩ := hg j hj hact
      refine ⟨by omega, ?_, h5⟩
      push_cast
      omega
    · intro i j hi hj hai haj hij
      apply hd i j hi hj hai haj
      omega
  have grainInv_activeCount_trigger : ∀ (s N : Int) (channel : Nat) (st : State) (hN : 8 ≤ N)
      (hs : s ≤ 8 * N + 7) (h : GrainInv 1 s N channel st)
      (ht : st.grainTriggerCountdown channel - 1 ≤ 0),
      activeCount st channel ≤ 8 := by
    intro s N channel st hN hs h ht
    obtain ⟨hc, hg, hd⟩ := h
    apply activeCount_le_of_grid st channel N 8 (by omega)
      (fun j => (st.activeGrains channel j).position)
    · intro j hj hact
      obtain ⟨_, h2, h3, h4, h5⟩ := hg j hj hact
      have hc1 : st.grainTriggerCountdown channel = 1 := by omega
      rw [hc1] at h5
      refine ⟨by omega, ?_, by simpa using h5⟩
      push_cast
      omega
    · intro i j hi hj hai haj hij
      exact hd i j hi hj hai haj hij
  have triggerNewGrain_cases : ∀ (st : State) (channel : Nat) (grainSize : Int) (spray : ℝ)
      (reverse : Bool),
      (triggerNewGrain st channel grainSize spray reverse 0).activeGrains channel
          = st.activeGrains channel
      ∨ ∃ (i : Nat) (g : Grain), firstInactive st channel = some i
          ∧ (triggerNewGrain st channel grainSize spray reverse 0).activeGrains channel
            = Function.update (st.activeGrains channel) i g
          ∧ g.isActive = true ∧ g.position = 0 ∧ g.size = jlimit 32 16384 grainSize := by
    intro st channel grainSize spray reverse
    cases h : firstInactive st channel with
    | none =>
      left
      unfold triggerNewGrain
      rw [h]
    | some i =>
      right
      unfold triggerNewGrain
      rw [h]
      dsimp only
      rw [if_neg (lt_irrefl 0)]
      refine ⟨i,
        { startPos := (st.delayWriteIndex channel - grainSize
            + toInt ((grainSize : ℝ) * (spray * (st.random.nextFloat.1 * 2 - 1)))
            + maxDelayTime).tmod maxDelayTime
          size := jlimit 32 16384 grainSize
          position := 0
          isActive := true
          isReverse := reverse
          amplitude := 1 }, rfl, ?_, rfl, rfl, rfl⟩
      simp only [Function.update_same]
  have preGrainState_grains : ∀ (L : BlockLocals) (channel : Nat) (st : State)
      (hr : L.randomization = 0),
      (preGrainState L channel st).activeGrains channel = st.activeGrains channel
      ∨ (st.grainTriggerCountdown channel - 1 ≤ 0
        ∧ ∃ (i : Nat) (g : Grain), firstInactive st channel = some i
          ∧ (preGrainState L channel st).activeGrains channel
            = Function.update (st.activeGrains channel) i g
          ∧ g.isActive = true ∧ g.position = 0
          ∧ g.size = jlimit 32 16384 L.grainSizeSamples) := by
    intro L channel st hr
    unfold preGrainState
    split_ifs with ht
    · unfold retrigger
      dsimp only
      rw [hr]
      have h := triggerNewGrain_cases
        { st with grainTriggerCountdown :=
            Function.update st.grainTriggerCountdown channel (st.grainTriggerCountdown channel - 1) }
        channel L.grainSizeSamples L.grainSpray L.reverseGrains
      exact h.imp id (fun h2 => ⟨ht, h2⟩)
    · left
      rfl
  have preGrainState_grainTriggerCountdown : ∀ (L : BlockLocals) (channel : Nat) (st : State)
      (hr : L.randomization = 0),
      (preGrainState L channel st).grainTriggerCountdown channel
        = if st.grainTriggerCountdown channel - 1 ≤ 0
          then jmax 1 (toInt ((L.grainSizeSamples : ℝ) * 0.5 / jmap L.grainDensity 0.1 4 0.1 4))
          else st.grainTriggerCountdown channel - 1 := by
    intro L channel st hr
    unfold preGrainState
    split_ifs with ht
    · exact retrigger_grainTriggerCountdown L channel _ hr
    · exact Function.update_same _ _ _
  have processSample_grainTriggerCountdown_pre : ∀ (L : BlockLocals) (channel : Nat) (st : State)
      (x : ℝ) (hd : L.grainDensity > 0.1),
      (processSample L channel st x).2.grainTriggerCountdown
        = (preGrainState L channel st).grainTriggerCountdown := by
    intro L channel st x hd
    unfold processSample applyEQFiltering
    dsimp only
    rw [tapSample_granular L channel st hd]
    rfl
  have grainAdvance_active : ∀ (g : Grain) (h : (grainAdvance g).isActive = true),
      g.position + 1 < g.size ∧ (grainAdvance g).position = g.position + 1
      ∧ (grainAdvance g).size = g.size := by
    intro g h
    unfold grainAdvance at h ⊢
    split_ifs at h ⊢ with hge
    exact ⟨by omega, rfl, rfl⟩
  have grainInv_pre : ∀ (L : BlockLocals) (channel : Nat) (st : State) (N : Int)
      (hr : L.randomization = 0) (hs1 : 64 ≤ L.grainSizeSamples) (hs2 : L.grainSizeSamples ≤ 8192)
      (hN : 8 ≤ N)
      (hNdef : toInt ((L.grainSizeSamples : ℝ) * 0.5 / jmap L.grainDensity 0.1 4 0.1 4) = N)
      (h : GrainInv 1 L.grainSizeSamples N channel st),
      GrainInv 0 L.grainSizeSamples N channel (preGrainState L channel st) := by
    intro L channel st N hr hs1 hs2 hN hNdef h
    obtain ⟨hc, hg, hdist⟩ := h
    have hjm : jmax 1 N = N := by
      unfold jmax
      rw [if_pos (by omega)]
    have hcd := preGrainState_grainTriggerCountdown L channel st hr
    rw [hNdef, hjm] at hcd
    have hold : ∀ j : Nat, j < maxGrains → (st.activeGrains channel j).isActive = true →
        (st.activeGrains channel j).size = L.grainSizeSamples
        ∧ 0 ≤ (st.activeGrains channel j).position
        ∧ (st.activeGrains channel j).position < L.grainSizeSamples
        ∧ 1 ≤ (preGrainState L channel st).grainTriggerCountdown channel
        ∧ N ∣ ((st.activeGrains channel j).position
            + (preGrainState L channel st).grainTriggerCountdown channel - 0) := by
      intro j hj hact
      obtain ⟨h1, h2, h3, h4, h5⟩ := hg j hj hact
      rw [hcd]
      split_ifs with ht
      · have hc1 : st.grainTriggerCountdown channel = 1 := by omega
        rw [hc1] at h5
        refine ⟨h1, by omega, h3, by omega, ?_⟩
        have he : (st.activeGrains channel j).position + N - 0
            = ((st.activeGrains channel j).position + 1 - 1) + N := by omega
        rw [he]
        exact dvd_add h5 (dvd_refl N)
      · refine ⟨h1, by omega, h3, by omega, ?_⟩
        have he : (st.activeGrains channel j).position + (st.grainTriggerCountdown channel - 1) - 0
            = (st.activeGrains channel j).position + st.grainTriggerCountdown channel - 1 := by
          omega
        rw [he]
        exact h5
    have hcN : (preGrainState L channel st).grainTriggerCountdown channel ≤ N := by
      rw [hcd]
      split_ifs with ht
      · exact le_refl N
      · omega
    rcases preGrainState_grains L channel st hr with hsame | ⟨ht, i, g, hi, hupd, ga, gp, gs⟩
    · refine ⟨hcN, ?_, ?_⟩
      · intro j hj hact
        rw [hsame] at hact ⊢
        exact hold j hj hact
      · rw [hsame]
        exact hdist
    · have hcN2 : (preGrainState L channel st).grainTriggerCountdown channel = N := by
        rw [hcd, if_pos ht]
      refine ⟨hcN, ?_, ?_⟩
      · intro j hj hact
        rw [hupd] at hact ⊢
        by_cases hji : j = i
        · rw [hji, Function.update_same]
          rw [gs, gp, hcN2, jlimit_eq_self 32 16384 L.grainSizeSamples (by omega) (by omega)]
          refine ⟨rfl, le_refl 0, by omega, by omega, ?_⟩
          have he : (0 : Int) + N - 0 = N := by omega
          rw [he]
        · rw [Function.update_noteq hji] at hact ⊢
          exact hold j hj hact
      · intro a b ha hb haa hab hpos
        rw [hupd] at haa hab hpos
        by_cases hai : a = i
        · by_cases hbi : b = i
          · rw [hai, hbi]
          · rw [Function.update_noteq hbi] at hab hpos
            rw [hai, Function.update_same, gp] at hpos
            have := (hg b hb hab).2.1
            omega
        · by_cases hbi : b = i
          · rw [Function.update_noteq hai] at haa hpos
            rw [hbi, Function.update_same, gp] at hpos
            have := (hg a ha haa).2.1
            omega
          · rw [Function.update_noteq hai] at haa hpos
            rw [Function.update_noteq hbi] at hab hpos
            exact hdist a b ha hb haa hab hpos
  have grainInv_post : ∀ (L : BlockLocals) (channel : Nat) (st : State) (x : ℝ) (s N : Int)
      (hd : L.grainDensity > 0.1) (h : GrainInv 0 s N channel (preGrainState L channel st)),
      GrainInv 1 s N channel (processSample L channel st x).2 := by
    intro L channel st x s N hd h
    obtain ⟨hc, hg, hdist⟩ := h
    have hpost : ∀ j : Nat, (processSample L channel st x).2.activeGrains channel j
        = if j < maxGrains ∧ ((preGrainState L channel st).activeGrains channel j).isActive = true
          then grainAdvance ((preGrainState L channel st).activeGrains channel j)
          else (preGrainState L channel st).activeGrains channel j := by
      intro j
      rw [processSample_activeGrains L channel st x hd, processActiveGrains_grain]
    have hpre : ∀ j : Nat, j < maxGrains →
        ((processSample L channel st x).2.activeGrains channel j).isActive = true →
        ((preGrainState L channel st).activeGrains channel j).isActive = true
        ∧ ((preGrainState L channel st).activeGrains channel j).position + 1
          < ((preGrainState L channel st).activeGrains channel j).size
        ∧ ((processSample L channel st x).2.activeGrains channel j).position
          = ((preGrainState L channel st).activeGrains channel j).position + 1
        ∧ ((processSample L channel st x).2.activeGrains channel j).size
          = ((preGrainState L channel st).activeGrains channel j).size := by
      intro j hj hact
      rw [hpost j] at hact ⊢
      by_cases hp : ((preGrainState L channel st).activeGrains channel j).isActive = true
      · rw [if_pos ⟨hj, hp⟩] at hact ⊢
        exact ⟨hp, grainAdvance_active _ hact⟩
      · rw [if_neg (fun hh => hp hh.2)] at hact
        exact absurd hact hp
    unfold GrainInv
    rw [processSample_grainTriggerCountdown_pre L channel st x hd]
    refine ⟨hc, ?_, ?_⟩
    · intro j hj hact
      obtain ⟨hp, hlt, hpos, hsize⟩ := hpre j hj hact
      obtain ⟨h1, h2, h3, h4, h5⟩ := hg j hj hp
      rw [hpos, hsize]
      refine ⟨h1, by omega, by omega, h4, ?_⟩
      have he : ((preGrainState L channel st).activeGrains channel j).position + 1
          + (preGrainState L channel st).grainTriggerCountdown channel - 1
          = ((preGrainState L channel st).activeGrains channel j).position
            + (preGrainState L channel st).grainTriggerCountdown channel - 0 := by omega
      rw [he]
      exact h5
    · intro a b ha hb haa hab hpos
      obtain ⟨hpa, _, hposa, _⟩ := hpre a ha haa
      obtain ⟨hpb, _, hposb, _⟩ := hpre b hb hab
      rw [hposa, hposb] at hpos
      exact hdist a b ha hb hpa hpb (by omega)
  have triggerNewGrain_activeGrains_other : ∀ (st : State) (channel other : Nat)
      (hne : other ≠ channel) (grainSize : Int) (spray : ℝ) (reverse : Bool) (randomization : ℝ),
      (triggerNewGrain st channel grainSize spray reverse randomization).activeGrains other
        = st.activeGrains other := by
    intro st channel other hne grainSize spray reverse randomization
    unfold triggerNewGrain
    split
    · rfl
    · dsimp only
      split_ifs
      · exact Function.update_noteq hne _ _
      · exact Function.update_noteq hne _ _
  have preGrainState_activeGrains_other : ∀ (L : BlockLocals) (channel other : Nat)
      (hne : other ≠ channel) (st : State),
      (preGrainState L channel st).activeGrains other = st.activeGrains other := by
    intro L channel other hne st
    unfold preGrainState
    split_ifs
    · unfold retrigger
      dsimp only
      rw [triggerNewGrain_activeGrains_other _ channel other hne]
    · rfl
  have processSample_activeGrains_other : ∀ (L : BlockLocals) (channel other : Nat)
      (hne : other ≠ channel) (st : State) (x : ℝ),
      (processSample L channel st x).2.activeGrains other = st.activeGrains other := by
    intro L channel other hne st x
    unfold processSample applyEQFiltering
    dsimp only
    by_cases hd : L.grainDensity > 0.1
    · rw [tapSample_granular L channel st hd]
      unfold processActiveGrains
      dsimp only
      rw [Function.update_noteq hne, preGrainState_activeGrains_other L channel other hne]
    · rw [tapSample_plain L channel st hd]
  have grainInv_other : ∀ (L : BlockLocals) (channel other : Nat) (hne : channel ≠ other)
      (st : State) (x : ℝ) (o s N : Int) (h : GrainInv o s N channel st),
      GrainInv o s N channel (processSample L other st x).2 := by
    intro L channel other hne st x o s N h
    unfold GrainInv
    rw [processSample_activeGrains_other L other channel hne, processSample_grainTriggerCountdown_other L channel other hne]
    exact h
  have runSamples_grainInv : ∀ (L : BlockLocals) (channel : Nat) (N : Int)
      (hr : L.randomization = 0) (hd : L.grainDensity > 0.1) (hs1 : 64 ≤ L.grainSizeSamples)
      (hs2 : L.grainSizeSamples ≤ 8192) (hN : 8 ≤ N)
      (hNdef : toInt ((L.grainSizeSamples : ℝ) * 0.5 / jmap L.grainDensity 0.1 4 0.1 4) = N)
      (sched : List (Nat × ℝ)),
      ∀ st : State, GrainInv 1 L.grainSizeSamples N channel st →
        GrainInv 1 L.grainSizeSamples N channel (runSamples L st sched) := by
    intro L channel N hr hd hs1 hs2 hN hNdef sched
    induction sched with
    | nil =>
      intro st h
      exact h
    | cons cx rest ih =>
      intro st h
      rw [runSamples_cons]
      apply ih
      by_cases hc : cx.1 = channel
      · rw [hc]
        exact grainInv_post L channel st cx.2 _ N hd
          (grainInv_pre L channel st N hr hs1 hs2 hN hNdef h)
      · exact grainInv_other L channel cx.1 (fun hh => hc hh.symm) st cx.2 1 _ N h
  have baseInterval_bounds : ∀ (s : Int) (d : ℝ) (hs1 : 64 ≤ s) (hd1 : d > 0.1) (hd2 : d ≤ 4),
      8 ≤ toInt ((s : ℝ) * 0.5 / jmap d 0.1 4 0.1 4)
      ∧ s ≤ 8 * toInt ((s : ℝ) * 0.5 / jmap d 0.1 4 0.1 4) + 7 := by
    intro s d hs1 hd1 hd2
    rw [jmap_same_range]
    have hdpos : (0 : ℝ) < d := by
      have : (0 : ℝ) < 0.1 := by norm_num
      exact lt_trans this hd1
    have hsR : (64 : ℝ) ≤ (s : ℝ) := by exact_mod_cast hs1
    have hx8 : (8 : ℝ) ≤ (s : ℝ) * 0.5 / d := by
      rw [le_div_iff₀ hdpos]
      linarith
    have hx0 : (0 : ℝ) ≤ (s : ℝ) * 0.5 / d := le_trans (by norm_num) hx8
    rw [toInt_of_nonneg _ hx0]
    have h8 : (8 : Int) ≤ ⌊(s : ℝ) * 0.5 / d⌋ := Int.le_floor.mpr (by exact_mod_cast hx8)
    refine ⟨h8, ?_⟩
    have hlt := Int.lt_floor_add_one ((s : ℝ) * 0.5 / d)
    have hmul : (s : ℝ) * 0.5 / d * d = (s : ℝ) * 0.5 := div_mul_cancel₀ _ (ne_of_gt hdpos)
    have hF : (0 : ℝ) ≤ (⌊(s : ℝ) * 0.5 / d⌋ : ℝ) + 1 := by
      have : (8 : ℝ) ≤ (⌊(s : ℝ) * 0.5 / d⌋ : ℝ) := by exact_mod_cast h8
      linarith
    have h1 : (s : ℝ) * 0.5 / d * d < ((⌊(s : ℝ) * 0.5 / d⌋ : ℝ) + 1) * d :=
      mul_lt_mul_of_pos_right hlt hdpos
    have h2 : ((⌊(s : ℝ) * 0.5 / d⌋ : ℝ) + 1) * d ≤ ((⌊(s : ℝ) * 0.5 / d⌋ : ℝ) + 1) * 4 :=
      mul_le_mul_of_nonneg_left hd2 hF
    have h3 : (s : ℝ) < ((8 * (⌊(s : ℝ) * 0.5 / d⌋ + 1) : Int) : ℝ) := by
      push_cast
      linarith
    have h4 : s < 8 * (⌊(s : ℝ) * 0.5 / d⌋ + 1) := by exact_mod_cast h3
    omega
  have activeCount_of_firstInactive_none : ∀ (st : State) (channel : Nat)
      (h : firstInactive st channel = none),
      activeCount st channel = maxGrains := by
    intro st channel h
    unfold firstInactive at h
    rw [List.find?_eq_none] at h
    unfold activeCount
    rw [Finset.filter_true_of_mem, Finset.card_range]
    intro i hi
    have := h i (List.mem_range.mpr (Finset.mem_range.mp hi))
    simpa using this
  have runSamples_append : ∀ (L : BlockLocals) (xs ys : List (Nat × ℝ)),
      ∀ st : State, runSamples L st (xs ++ ys) = runSamples L (runSamples L st xs) ys := by
    intro L xs ys
    induction xs with
    | nil =>
      intro st
      rfl
    | cons cx rest ih =>
      intro st
      rw [List.cons_append, runSamples_cons, runSamples_cons, ih]
  have processChannel_eq_runSamples : ∀ (L : BlockLocals) (channel : Nat) (xs : List ℝ),
      ∀ st : State,
        (processChannel L channel st xs).2 = runSamples L st (xs.map (fun x => (channel, x))) := by
    intro L channel xs
    induction xs with
    | nil =>
      intro st
      rfl
    | cons x xs ih =>
      intro st
      rw [processChannel_cons, List.map_cons, runSamples_cons]
      exact ih _
  have processChannels_eq_runSamples : ∀ (L : BlockLocals) (buffer : List (List ℝ)),
      ∀ (channel : Nat) (st : State),
        (processChannels L channel st buffer).2 = runSamples L st (blockSchedule channel buffer) := by
    intro L buffer
    induction buffer with
    | nil =>
      intro channel st
      rfl
    | cons c cs ih =>
      intro channel st
      rw [processChannels_cons, blockSchedule_cons, runSamples_append, ← processChannel_eq_runSamples]
      exact ih _ _
  have processSample_getSampleRate : ∀ (L : BlockLocals) (channel : Nat) (st : State) (x : ℝ),
      (processSample L channel st x).2.getSampleRate = st.getSampleRate := by
    intro L channel st x
    unfold processSample applyEQFiltering
    dsimp only
    exact tapSample_getSampleRate L channel st
  have runSamples_getSampleRate : ∀ (L : BlockLocals) (sched : List (Nat × ℝ)),
      ∀ st : State, (runSamples L st sched).getSampleRate = st.getSampleRate := by
    intro L sched
    induction sched with
    | nil =>
      intro st
      rfl
    | cons cx rest ih =>
      intro st
      rw [runSamples_cons, ih, processSample_getSampleRate]
  have readLocals_congr : ∀ (p : Parameters) (a b : State) (n : Nat)
      (h : a.getSampleRate = b.getSampleRate),
      readLocals p a n = readLocals p b n := by
    intro p a b n h
    unfold readLocals
    rw [h]
  have processBlocks_eq_runSamples : ∀ (p : Parameters) (n : Nat) (blocks : List (List (List ℝ))),
      ∀ st : State, (∀ b ∈ blocks, b.length = n) →
        processBlocks p st blocks = runSamples (readLocals p st n) st (blocksSchedule blocks) := by
    intro p n blocks
    induction blocks with
    | nil =>
      intro st _
      rfl
    | cons b bs ih =>
      intro st hlen
      have hb : b.length = n := hlen b (List.mem_cons_self b bs)
      have h1 : (processBlockDelay p st b).2
          = runSamples (readLocals p st n) st (blockSchedule 0 b) := by
        unfold processBlockDelay
        rw [hb, processChannels_eq_runSamples]
      rw [processBlocks_cons, blocksSchedule_cons, runSamples_append,
        ih _ (fun b2 hb2 => hlen b2 (List.mem_cons_of_mem b hb2)), h1,
        readLocals_congr p _ st n (runSamples_getSampleRate _ _ st)]
  have grainInv_prepareToPlay : ∀ (base : State) (sampleRate : ℝ) (samplesPerBlock : Int)
      (numOutputChannels channel : Nat) (hch : channel < numOutputChannels) (s N : Int)
      (hN : 0 ≤ N),
      GrainInv 1 s N channel (prepareToPlay base sampleRate samplesPerBlock numOutputChannels) := by
    intro base sampleRate samplesPerBlock numOutputChannels channel hch s N hN
    unfold GrainInv prepareToPlay
    dsimp only
    rw [if_pos hch, if_pos hch]
    refine ⟨hN, ?_, ?_⟩
    · intro j _ hact
      exact absurd hact (by decide)
    · intro i j _ _ hact
      exact absurd hact (by decide)
  have hs1 : 64 ≤ L.grainSizeSamples := by
    rw [hL]
    exact jlimit_ge 64 8192 _ (by decide)
  have hs2 : L.grainSizeSamples ≤ 8192 := by
    rw [hL]
    exact jlimit_le 64 8192 _ (by decide)
  have hLr : L.randomization = 0 := by
    rw [hL]
    unfold readLocals
    dsimp only
    rw [hr, zero_div]
  have hLd : L.grainDensity = p "grainDensity" := by
    rw [hL]
    rfl
  have hLd1 : L.grainDensity > 0.1 := by
    rw [hLd]
    exact hd1
  have hLd2 : L.grainDensity ≤ 4 := by
    rw [hLd]
    exact hd2
  obtain ⟨hN, hsN⟩ := baseInterval_bounds L.grainSizeSamples L.grainDensity hs1 hLd1 hLd2
  have h0 : GrainInv 1 L.grainSizeSamples
      (toInt ((L.grainSizeSamples : ℝ) * 0.5 / jmap L.grainDensity 0.1 4 0.1 4)) channel st0 := by
    rw [hst0]
    exact grainInv_prepareToPlay base sampleRate samplesPerBlock numOutputChannels channel hch
      _ _ (by omega)
  have hinv := runSamples_grainInv L channel _ hLr hLd1 hs1 hs2 hN rfl sched st0 h0
  rw [← hst] at hinv
  have hpre := grainInv_pre L channel st _ hLr hs1 hs2 hN rfl hinv
  refine ⟨hs1, hs2, grainInv_activeCount 1 _ _ channel st (by decide) hN hsN hinv,
    grainInv_activeCount 0 _ _ channel _ (le_refl 0) hN hsN hpre, ?_, ?_⟩
  · intro ht
    have h8 := grainInv_activeCount_trigger _ _ channel st hN hsN hinv ht
    cases hf : firstInactive st channel with
    | none =>
      have h32 := activeCount_of_firstInactive_none st channel hf
      have hm : maxGrains = 32 := rfl
      omega
    | some i => exact ⟨i, rfl⟩
  · intro blocks hlen
    rw [hL]
    exact processBlocks_eq_runSamples p numChannels blocks st0 hlen

theorem grain_pool_never_exhausted_witness :
    activeCount
      (runSamples
        (readLocals scenarioBParameters (prepareToPlay (constructed zeroRandom 48000) 48000 512 2)
          2)
        (prepareToPlay (constructed zeroRandom 48000) 48000 512 2)
        (blockSchedule 0 [[1, 0, 0], [1, 0, 0]])) 0 ≤ 9 := by
  have scenarioBParameters_grainDensity :
      scenarioBParameters "grainDensity" = 2 := by
    unfold scenarioBParameters
    simp
  exact
    (grain_pool_never_exhausted scenarioBParameters (constructed zeroRandom 48000)
      (prepareToPlay (constructed zeroRandom 48000) 48000 512 2) _
      (readLocals scenarioBParameters (prepareToPlay (constructed zeroRandom 48000) 48000 512 2) 2)
      48000 512 2 2 0 (blockSchedule 0 [[1, 0, 0], [1, 0, 0]]) rfl rfl rfl (by decide)
      (by unfold scenarioBParameters; simp)
      (by rw [scenarioBParameters_grainDensity]; norm_num)
      (by rw [scenarioBParameters_grainDensity]; norm_num)).2.2.1

end MyPluginAudioProcessor

end
